import Mathlib

/-!
# Version resolver of the setup data stream (`src/setup/version.cpp`)

A shallow embedding of `setup::version`: the two signature catalogs,
`version::load`, `version::is_ambiguous` and `version::next`.

Bytes are natural numbers below 256, a stream is the list of bytes still to
be read, and a `version_constant` (a 32-bit unsigned integer) is a natural
number reduced modulo `2^32` wherever the source can overflow.
-/

namespace setup

/-! ## Version constants -/

/-- Modelled from the spec: the macro `INNO_VERSION_EXT` is declared in
`setup/version.hpp`, which is not among the sources. The spec calls the value
a packed, totally ordered `(major, minor, patch, extra)` ordinal; it is taken
as the 32-bit packing with one byte per component, each argument converted to
the 32-bit `version_constant` before it is shifted. -/
def INNO_VERSION_EXT (a b c d : Nat) : Nat :=
  (((a % 2 ^ 32) <<< 24) % 2 ^ 32) ||| (((b % 2 ^ 32) <<< 16) % 2 ^ 32)
    ||| (((c % 2 ^ 32) <<< 8) % 2 ^ 32) ||| (d % 2 ^ 32)

/-- Modelled from the spec: the macro `INNO_VERSION` of `setup/version.hpp`
(not among the sources), the three-component form with `extra = 0`. -/
def INNO_VERSION (a b c : Nat) : Nat := INNO_VERSION_EXT a b c 0

/-- The bytes of a string literal of the source (all literals are ASCII). -/
def bytes (s : String) : List Nat := s.toList.map Char.toNat

/-- A `char[n]` array initialised from a string literal: the literal's bytes
followed by NUL bytes up to the array size. -/
def char_array (n : Nat) (s : String) : List Nat :=
  bytes s ++ List.replicate (n - (bytes s).length) 0

/-! ## The signature catalogs -/

/-- One row of `legacy_versions`: `name` holds the 12 compared bytes (the
thirteenth, terminating byte of `char name[13]` is ignored by the source). -/
structure known_legacy_version where
  name : List Nat
  version : Nat
  bits : Nat
  deriving DecidableEq, Repr

/-- One row of `versions`: `name` is the whole `char[64]` array. -/
structure known_version where
  name : List Nat
  version : Nat
  unicode : Bool
  deriving DecidableEq, Repr

/-- The table `legacy_versions`. -/
def legacy_versions : List known_legacy_version := [
  known_legacy_version.mk (char_array 12 "i1.2.10--16\x1a") (INNO_VERSION 1 2 10) 16,
  known_legacy_version.mk (char_array 12 "i1.2.10--32\x1a") (INNO_VERSION 1 2 10) 32 ]

/-- The table `versions`. -/
def versions : List known_version := [
  known_version.mk (char_array 64 "Inno Setup Setup Data (1.3.21)") (INNO_VERSION_EXT 1 3 21 0) false,
  known_version.mk (char_array 64 "Inno Setup Setup Data (1.3.25)") (INNO_VERSION_EXT 1 3 25 0) false,
  known_version.mk (char_array 64 "Inno Setup Setup Data (2.0.0)") (INNO_VERSION_EXT 2 0  0 0) false,
  known_version.mk (char_array 64 "Inno Setup Setup Data (2.0.1)") (INNO_VERSION_EXT 2 0  1 0) false,
  known_version.mk (char_array 64 "Inno Setup Setup Data (2.0.2)") (INNO_VERSION_EXT 2 0  2 0) false,
  known_version.mk (char_array 64 "Inno Setup Setup Data (2.0.5)") (INNO_VERSION_EXT 2 0  5 0) false,
  known_version.mk (char_array 64 "Inno Setup Setup Data (2.0.6a)") (INNO_VERSION_EXT 2 0  6 0) false,
  known_version.mk (char_array 64 "Inno Setup Setup Data (2.0.7)") (INNO_VERSION_EXT 2 0  7 0) false,
  known_version.mk (char_array 64 "Inno Setup Setup Data (2.0.8)") (INNO_VERSION_EXT 2 0  8 0) false,
  known_version.mk (char_array 64 "Inno Setup Setup Data (2.0.11)") (INNO_VERSION_EXT 2 0 11 0) false,
  known_version.mk (char_array 64 "Inno Setup Setup Data (2.0.17)") (INNO_VERSION_EXT 2 0 17 0) false,
  known_version.mk (char_array 64 "Inno Setup Setup Data (2.0.18)") (INNO_VERSION_EXT 2 0 18 0) false,
  known_version.mk (char_array 64 "Inno Setup Setup Data (3.0.0a)") (INNO_VERSION_EXT 3 0  0 0) false,
  known_version.mk (char_array 64 "Inno Setup Setup Data (3.0.1)") (INNO_VERSION_EXT 3 0  1 0) false,
  known_version.mk (char_array 64 "Inno Setup Setup Data (3.0.3)") (INNO_VERSION_EXT 3 0  3 0) false,
  known_version.mk (char_array 64 "Inno Setup Setup Data (3.0.4)") (INNO_VERSION_EXT 3 0  4 0) false,
  known_version.mk (char_array 64 "Inno Setup Setup Data (3.0.5)") (INNO_VERSION_EXT 3 0  5 0) false,
  known_version.mk (char_array 64 "My Inno Setup Extensions Setup Data (3.0.6.1)") (INNO_VERSION_EXT 3 0  6 1) false,
  known_version.mk (char_array 64 "Inno Setup Setup Data (4.0.0a)") (INNO_VERSION_EXT 4 0  0 0) false,
  known_version.mk (char_array 64 "Inno Setup Setup Data (4.0.1)") (INNO_VERSION_EXT 4 0  1 0) false,
  known_version.mk (char_array 64 "Inno Setup Setup Data (4.0.3)") (INNO_VERSION_EXT 4 0  3 0) false,
  known_version.mk (char_array 64 "Inno Setup Setup Data (4.0.5)") (INNO_VERSION_EXT 4 0  5 0) false,
  known_version.mk (char_array 64 "Inno Setup Setup Data (4.0.9)") (INNO_VERSION_EXT 4 0  9 0) false,
  known_version.mk (char_array 64 "Inno Setup Setup Data (4.0.10)") (INNO_VERSION_EXT 4 0 10 0) false,
  known_version.mk (char_array 64 "Inno Setup Setup Data (4.0.11)") (INNO_VERSION_EXT 4 0 11 0) false,
  known_version.mk (char_array 64 "Inno Setup Setup Data (4.1.0)") (INNO_VERSION_EXT 4 1  0 0) false,
  known_version.mk (char_array 64 "Inno Setup Setup Data (4.1.2)") (INNO_VERSION_EXT 4 1  2 0) false,
  known_version.mk (char_array 64 "Inno Setup Setup Data (4.1.3)") (INNO_VERSION_EXT 4 1  3 0) false,
  known_version.mk (char_array 64 "Inno Setup Setup Data (4.1.4)") (INNO_VERSION_EXT 4 1  4 0) false,
  known_version.mk (char_array 64 "Inno Setup Setup Data (4.1.5)") (INNO_VERSION_EXT 4 1  5 0) false,
  known_version.mk (char_array 64 "Inno Setup Setup Data (4.1.6)") (INNO_VERSION_EXT 4 1  6 0) false,
  known_version.mk (char_array 64 "Inno Setup Setup Data (4.1.8)") (INNO_VERSION_EXT 4 1  8 0) false,
  known_version.mk (char_array 64 "Inno Setup Setup Data (4.2.0)") (INNO_VERSION_EXT 4 2  0 0) false,
  known_version.mk (char_array 64 "Inno Setup Setup Data (4.2.1)") (INNO_VERSION_EXT 4 2  1 0) false,
  known_version.mk (char_array 64 "Inno Setup Setup Data (4.2.2)") (INNO_VERSION_EXT 4 2  2 0) false,
  known_version.mk (char_array 64 "Inno Setup Setup Data (4.2.3)") (INNO_VERSION_EXT 4 2  3 0) false,
  known_version.mk (char_array 64 "Inno Setup Setup Data (4.2.4)") (INNO_VERSION_EXT 4 2  4 0) false,
  known_version.mk (char_array 64 "Inno Setup Setup Data (4.2.5)") (INNO_VERSION_EXT 4 2  5 0) false,
  known_version.mk (char_array 64 "Inno Setup Setup Data (4.2.6)") (INNO_VERSION_EXT 4 2  6 0) false,
  known_version.mk (char_array 64 "Inno Setup Setup Data (5.0.0)") (INNO_VERSION_EXT 5 0  0 0) false,
  known_version.mk (char_array 64 "Inno Setup Setup Data (5.0.1)") (INNO_VERSION_EXT 5 0  1 0) false,
  known_version.mk (char_array 64 "Inno Setup Setup Data (5.0.3)") (INNO_VERSION_EXT 5 0  3 0) false,
  known_version.mk (char_array 64 "Inno Setup Setup Data (5.0.4)") (INNO_VERSION_EXT 5 0  4 0) false,
  known_version.mk (char_array 64 "Inno Setup Setup Data (5.1.0)") (INNO_VERSION_EXT 5 1  0 0) false,
  known_version.mk (char_array 64 "Inno Setup Setup Data (5.1.2)") (INNO_VERSION_EXT 5 1  2 0) false,
  known_version.mk (char_array 64 "Inno Setup Setup Data (5.1.7)") (INNO_VERSION_EXT 5 1  7 0) false,
  known_version.mk (char_array 64 "Inno Setup Setup Data (5.1.10)") (INNO_VERSION_EXT 5 1 10 0) false,
  known_version.mk (char_array 64 "Inno Setup Setup Data (5.1.13)") (INNO_VERSION_EXT 5 1 13 0) false,
  known_version.mk (char_array 64 "Inno Setup Setup Data (5.2.0)") (INNO_VERSION_EXT 5 2  0 0) false,
  known_version.mk (char_array 64 "Inno Setup Setup Data (5.2.1)") (INNO_VERSION_EXT 5 2  1 0) false,
  known_version.mk (char_array 64 "Inno Setup Setup Data (5.2.3)") (INNO_VERSION_EXT 5 2  3 0) false,
  known_version.mk (char_array 64 "Inno Setup Setup Data (5.2.5)") (INNO_VERSION_EXT 5 2  5 0) false,
  known_version.mk (char_array 64 "Inno Setup Setup Data (5.2.5) (u)") (INNO_VERSION_EXT 5 2  5 0) true,
  known_version.mk (char_array 64 "Inno Setup Setup Data (5.3.0)") (INNO_VERSION_EXT 5 3  0 0) false,
  known_version.mk (char_array 64 "Inno Setup Setup Data (5.3.0) (u)") (INNO_VERSION_EXT 5 3  0 0) true,
  known_version.mk (char_array 64 "Inno Setup Setup Data (5.3.3)") (INNO_VERSION_EXT 5 3  3 0) false,
  known_version.mk (char_array 64 "Inno Setup Setup Data (5.3.3) (u)") (INNO_VERSION_EXT 5 3  3 0) true,
  known_version.mk (char_array 64 "Inno Setup Setup Data (5.3.5)") (INNO_VERSION_EXT 5 3  5 0) false,
  known_version.mk (char_array 64 "Inno Setup Setup Data (5.3.5) (u)") (INNO_VERSION_EXT 5 3  5 0) true,
  known_version.mk (char_array 64 "Inno Setup Setup Data (5.3.6)") (INNO_VERSION_EXT 5 3  6 0) false,
  known_version.mk (char_array 64 "Inno Setup Setup Data (5.3.6) (u)") (INNO_VERSION_EXT 5 3  6 0) true,
  known_version.mk (char_array 64 "Inno Setup Setup Data (5.3.7)") (INNO_VERSION_EXT 5 3  7 0) false,
  known_version.mk (char_array 64 "Inno Setup Setup Data (5.3.7) (u)") (INNO_VERSION_EXT 5 3  7 0) true,
  known_version.mk (char_array 64 "Inno Setup Setup Data (5.3.8)") (INNO_VERSION_EXT 5 3  8 0) false,
  known_version.mk (char_array 64 "Inno Setup Setup Data (5.3.8) (u)") (INNO_VERSION_EXT 5 3  8 0) true,
  known_version.mk (char_array 64 "Inno Setup Setup Data (5.3.9)") (INNO_VERSION_EXT 5 3  9 0) false,
  known_version.mk (char_array 64 "Inno Setup Setup Data (5.3.9) (u)") (INNO_VERSION_EXT 5 3  9 0) true,
  known_version.mk (char_array 64 "Inno Setup Setup Data (5.3.10)") (INNO_VERSION_EXT 5 3 10 0) false,
  known_version.mk (char_array 64 "Inno Setup Setup Data (5.3.10) (u)") (INNO_VERSION_EXT 5 3 10 0) true,
  known_version.mk (char_array 64 "Inno Setup Setup Data (5.4.2)") (INNO_VERSION_EXT 5 4  2 0) false,
  known_version.mk (char_array 64 "Inno Setup Setup Data (5.4.2) (u)") (INNO_VERSION_EXT 5 4  2 0) true,
  known_version.mk (char_array 64 "Inno Setup Setup Data (5.5.0)") (INNO_VERSION_EXT 5 5  0 0) false,
  known_version.mk (char_array 64 "Inno Setup Setup Data (5.5.0) (u)") (INNO_VERSION_EXT 5 5  0 0) true,
  known_version.mk (char_array 64 "Inno Setup Setup Data (5.5.6)") (INNO_VERSION_EXT 5 5  6 0) false,
  known_version.mk (char_array 64 "Inno Setup Setup Data (5.5.6) (u)") (INNO_VERSION_EXT 5 5  6 0) true,
  known_version.mk (char_array 64 "!!! BlackBox v2?, marked as 5.5.0") (INNO_VERSION_EXT 5 5  0 1) true ]


/-! ## Stream and string primitives -/

/-- The call `is.read(buf, n)`: the `n` bytes read and the stream after
them, or `none` when fewer than `n` bytes are left (the stream then sets its
fail state and delivers no complete block). -/
def read (n : Nat) (is : List Nat) : Option (List Nat × List Nat) :=
  if n ≤ is.length then some (is.take n, is.drop n) else none

/-- Membership in the character set `digits[] = "0123456789"`. -/
def is_digit (c : Nat) : Bool := decide (48 ≤ c) && decide (c ≤ 57)

/-- A forward search over `rest`, the text from index `i` on: the index of
the first character that satisfies `p`, or `none` for `std::string::npos`. -/
def find_at (p : Nat → Bool) : List Nat → Nat → Option Nat
  | [], _ => none
  | c :: rest, i => if p c then some i else find_at p rest (i + 1)

/-- The call `version_str.find(c, pos)` for a character `c`. -/
def find_char (s : List Nat) (c : Nat) (pos : Nat) : Option Nat :=
  find_at (fun x => x == c) (s.drop pos) pos

/-- The call `version_str.find_first_not_of(digits, pos)`. -/
def find_first_not_of_digits (s : List Nat) (pos : Nat) : Option Nat :=
  find_at (fun x => !is_digit x) (s.drop pos) pos

/-- A forward search for the string `pat` over `rest`, the text from index
`i` on. -/
def find_sub (pat : List Nat) : List Nat → Nat → Option Nat
  | [], i => if pat = [] then some i else none
  | c :: rest, i =>
    if pat.isPrefixOf (c :: rest) then some i else find_sub pat rest (i + 1)

/-- The call `version_str.find(pat)` for a string `pat`: the index of the
first occurrence, or `none` for `std::string::npos`. -/
def find_str (s pat : List Nat) : Option Nat := find_sub pat s 0

/-- The decimal value of a run of digit characters. -/
def digits_value (ds : List Nat) : Nat :=
  ds.foldl (fun acc c => acc * 10 + (c - 48)) 0

/-- Modelled from the spec: the helper `util::to_unsigned(chars, count)` is
declared in `util/load.hpp`, which is not among the sources. The spec has the
resolver parse the embedded runs of digits numerically, and the call sites
catch `boost::bad_lexical_cast`, so the helper is taken to be
`boost::lexical_cast<unsigned>` over the `count` characters: a non-empty run
of decimal digits whose value fits 32 bits, optionally preceded by one sign
character (`'-'` negates modulo `2^32`); everything else is `none`, the
thrown `bad_lexical_cast`. The argument is the list of those characters. -/
def to_unsigned (chars : List Nat) : Option Nat :=
  match chars with
  | [] => none
  | c :: cs =>
    let body := if c = 45 ∨ c = 43 then cs else c :: cs
    if body ≠ [] ∧ body.all is_digit = true ∧ digits_value body < 2 ^ 32 then
      some (if c = 45 then (2 ^ 32 - digits_value body) % 2 ^ 32 else digits_value body)
    else none

/-- The `count` characters of `s` from index `start` on: the range that
`util::to_unsigned(version_str.data() + start, count)` receives. -/
def substr (s : List Nat) (start count : Nat) : List Nat :=
  (s.drop start).take count

/-! ## The version descriptor -/

/-- The data members of `setup::version` that `load` assigns. -/
structure version where
  value : Nat
  bits : Nat
  unicode : Bool
  known : Bool
  deriving DecidableEq, Repr

/-- The method `version::is_ambiguous`. -/
def version.is_ambiguous (self : version) : Bool :=
  if self.value = INNO_VERSION 2 0 1 then true
  else if self.value = INNO_VERSION 3 0 3 then true
  else if self.value = INNO_VERSION 4 2 3 then true
  else if self.value = INNO_VERSION 5 5 0 then true
  else false

/-- The loop of `std::upper_bound(first, last, value)` over the version
constants `a` of a table (each row converts to its `version` through
`operator version_constant`): the bisection of the standard library, which
probes the middle element `it` of the `count` elements from `first` on and
keeps the right part when `!(value < *it)`, the left part otherwise. The
interval halves at each step, so `fuel = count` steps are enough. -/
def upper_bound_loop (a : List Nat) (value : Nat) : Nat → Nat → Nat → Nat
  | 0, first, _ => first
  | fuel + 1, first, count =>
    if count = 0 then first
    else
      let step := count / 2
      let it := first + step
      if ¬ (value < a.getD it 0) then
        upper_bound_loop a value fuel (it + 1) (count - (step + 1))
      else
        upper_bound_loop a value fuel first step

/-- The call `std::upper_bound(begin, end, value)`: the index of the
returned iterator, `a.length` standing for `end`. -/
def upper_bound (a : List Nat) (value : Nat) : Nat :=
  upper_bound_loop a value a.length 0 a.length

/-- The method `version::next`: the legacy catalog is searched first, then
the modern one; `0` is returned when both searches end at `end`. -/
def version.next (self : version) : Nat :=
  let legacy := legacy_versions.map (·.version)
  let legacy_version := upper_bound legacy self.value
  if legacy_version ≠ legacy.length then legacy.getD legacy_version 0
  else
    let modern := versions.map (·.version)
    let version := upper_bound modern self.value
    if version ≠ modern.length then modern.getD version 0
    else 0


/-! ## `version::load` -/

/-- How a call of `version::load` ends: it returns, it throws
`version_error`, or a `read` on the stream came up short. -/
inductive outcome where
  | returned
  | version_error
  | read_failure
  deriving DecidableEq, Repr

/-- The legacy branch of `version::load` (source lines 186 to 227) on the 12
bytes read: the state of the descriptor when the branch is left and how it
is left. -/
def load_legacy (self : version) (legacy_version : List Nat) : outcome × version :=
  match legacy_versions.find? (fun e => e.name == legacy_version) with
  | some e =>
    (outcome.returned,
      { value := e.version, bits := e.bits, unicode := false, known := true })
  | none =>
    if legacy_version.getD 0 0 ≠ 105 ∨ legacy_version.getD 2 0 ≠ 46
        ∨ legacy_version.getD 4 0 ≠ 46 ∨ legacy_version.getD 7 0 ≠ 45
        ∨ legacy_version.getD 8 0 ≠ 45 then
      (outcome.version_error, self)
    else
      let width : Option Nat :=
        if legacy_version.getD 9 0 = 49 ∧ legacy_version.getD 10 0 = 54 then some 16
        else if legacy_version.getD 9 0 = 51 ∧ legacy_version.getD 10 0 = 50 then some 32
        else none
      match width with
      | none => (outcome.version_error, self)
      | some bits =>
        let version_str := legacy_version
        match to_unsigned (substr version_str 1 1) with
        | none => (outcome.version_error, { self with bits := bits })
        | some a =>
          match to_unsigned (substr version_str 3 1) with
          | none => (outcome.version_error, { self with bits := bits })
          | some b =>
            match to_unsigned (substr version_str 5 2) with
            | none => (outcome.version_error, { self with bits := bits })
            | some c =>
              (outcome.returned,
                { value := INNO_VERSION a b c, bits := bits, unicode := false,
                  known := false })

/-- The body of the scanning loop of `version::load` (source lines 258 to
303) for the `'('` at index `bracket`: `some value` when the body reaches
`break` with `value` assigned, `none` when it reaches `continue`, directly or
through the handler of `bad_lexical_cast`. -/
def parse_group (version_str : List Nat) (bracket : Nat) : Option Nat :=
  if version_str.length - bracket < 6 then none
  else
    let a_start := bracket + 1
    match find_first_not_of_digits version_str a_start with
    | none => none
    | some a_end =>
      if version_str.getD a_end 0 ≠ 46 then none
      else
        match to_unsigned (substr version_str a_start (a_end - a_start)) with
        | none => none
        | some a =>
          let b_start := a_end + 1
          match find_first_not_of_digits version_str b_start with
          | none => none
          | some b_end =>
            if version_str.getD b_end 0 ≠ 46 then none
            else
              match to_unsigned (substr version_str b_start (b_end - b_start)) with
              | none => none
              | some b =>
                let c_start := b_end + 1
                match find_first_not_of_digits version_str c_start with
                | none => none
                | some c_end =>
                  match to_unsigned (substr version_str c_start (c_end - c_start)) with
                  | none => none
                  | some c =>
                    if version_str.getD c_end 0 = 97 ∧ c_end + 1 ≥ version_str.length then none
                    else
                      let d_start := if version_str.getD c_end 0 = 97 then c_end + 1 else c_end
                      if version_str.getD d_start 0 = 46 then
                        match find_first_not_of_digits version_str (d_start + 1) with
                        | none => some (INNO_VERSION_EXT a b c 0)
                        | some d_end =>
                          if d_end ≠ d_start + 1 then
                            match to_unsigned
                                (substr version_str (d_start + 1) (d_end - (d_start + 1))) with
                            | none => none
                            | some d => some (INNO_VERSION_EXT a b c d)
                          else some (INNO_VERSION_EXT a b c 0)
                      else some (INNO_VERSION_EXT a b c 0)

/-- The scanning loop of `version::load` (source lines 255 to 308),
`for(; bracket != npos; bracket = version_str.find('(', bracket + 1))`:
`some value` when the loop is left by `break`, `none` when it ends with
`bracket == npos`. Every pass moves `bracket` to a later index of the text,
so `fuel = version_str.length` passes are enough (`scan_fuel`). -/
def scan (version_str : List Nat) : Nat → Option Nat → Option Nat
  | _, none => none
  | 0, some _ => none
  | fuel + 1, some bracket =>
    match parse_group version_str bracket with
    | some value => some value
    | none => scan version_str fuel (find_char version_str 40 (bracket + 1))

/-- The heuristic of `version::load` (source lines 248 to 315), reached when
the 64-byte block `version` is no row of the modern catalog: the text up to
the first NUL must contain `Inno Setup`, the scanning loop finds the value,
and `"(u)"` anywhere in the text sets `unicode`. -/
def load_heuristic (self : version) (version : List Nat) : outcome × setup.version :=
  let version_str := version.takeWhile (fun c => c != 0)
  if find_str version_str (bytes "Inno Setup") = none then
    (outcome.version_error, self)
  else
    match scan version_str version_str.length (find_char version_str 40 0) with
    | none => (outcome.version_error, self)
    | some value =>
      (outcome.returned,
        { value := value, bits := 32,
          unicode := decide (find_str version_str (bytes "(u)") ≠ none),
          known := false })

/-- The modern branch of `version::load` (source lines 237 to 315) on the
64-byte block `version`: the first row of `versions` whose name equals the
block settles the call, otherwise the heuristic does. -/
def load_modern (self : version) (version : List Nat) : outcome × setup.version :=
  match versions.find? (fun e => e.name == version) with
  | some e =>
    (outcome.returned,
      { value := e.version, bits := 32, unicode := e.unicode, known := true })
  | none => load_heuristic self version

/-- Modelled from the spec: how a call ends when a `read` finds fewer bytes
in the stream than it asks for. The sources do not settle it: `version::load`
never tests the stream after `read`, and the exception mask that makes a
failed stream throw is set by callers that are not among the sources. The
spec (section 4.2) has every short read fail with `TruncatedStream` and never
go on with partial data, so the call ends at the short read. -/
def short_read : outcome := outcome.read_failure

/-- The method `version::load` on the descriptor `self` and the stream `is`:
how the call ends, the descriptor afterwards and the bytes left in the stream.
The first 12 bytes are read; a block that starts with `'i'` and ends with
`0x1a` is settled by the legacy branch, any other block is extended by 52
more bytes and settled by the modern branch. -/
def version.load (self : version) (is : List Nat) : outcome × version × List Nat :=
  match read 12 is with
  | none => (short_read, self, [])
  | some (legacy_version, is1) =>
    if legacy_version.getD 0 0 = 105 ∧ legacy_version.getD 11 0 = 26 then
      ((load_legacy self legacy_version).1, (load_legacy self legacy_version).2, is1)
    else
      match read (64 - 12) is1 with
      | none => (short_read, self, [])
      | some (rest, is2) =>
        ((load_modern self (legacy_version ++ rest)).1,
          (load_modern self (legacy_version ++ rest)).2, is2)


/-! ## Signature texts -/

/-- The decimal digits of `n` as characters, without leading zeros. -/
def decimal (n : Nat) : List Nat := (Nat.toDigits 10 n).map Char.toNat

/-- The text `Inno Setup Setup Data (a.b.c)`, followed by ` (u)` when `u` is
set. -/
def signature_text (a b c : Nat) (u : Bool) : List Nat :=
  bytes "Inno Setup Setup Data (" ++ (decimal a ++ 46 :: (decimal b ++ 46 :: (decimal c
    ++ 41 :: (if u then bytes " (u)" else []))))

/-- A text padded with NUL bytes to the 64 bytes of a stored signature. -/
def pad64 (text : List Nat) : List Nat :=
  text ++ List.replicate (64 - text.length) 0

/-- A text contains a version group when some `'('` is followed by three
non-empty runs of digits separated by `'.'` and by one more character that is
not a digit. A closing `')'` is not asked for. -/
def has_version_group (text : List Nat) : Prop :=
  ∃ pre da db dc x r,
    text = pre ++ 40 :: (da ++ 46 :: (db ++ 46 :: (dc ++ x :: r)))
      ∧ da ≠ [] ∧ db ≠ [] ∧ dc ≠ []
      ∧ da.all is_digit = true ∧ db.all is_digit = true ∧ dc.all is_digit = true
      ∧ is_digit x = false

/-- The text `Inno Setup Setup Data (a.b.c` followed by `tail`. -/
def signature_text_with (a b c : Nat) (tail : List Nat) : List Nat :=
  bytes "Inno Setup Setup Data (" ++ (decimal a ++ 46 :: (decimal b ++ 46 :: (decimal c
    ++ tail)))

/-! ## Records, primitive readers and decoding steps -/

/-- The enumeration constants that `header::load` and `RegistryEntry::load`
assign or look up in their stored-enum tables, under their names in the
source. -/
inductive symbol where
  | NormalInstallMode | SilentInstallMode | VerySilentInstallMode
  | AppendLog | NewLog | OverwriteLog
  | ClassicStyle | ModernStyle
  | Auto | No | Yes
  | NoPrivileges | PowerUserPrivileges | AdminPriviliges | LowestPrivileges
  | UILanguage | LocaleLanguage | NoLanguageDetection
  | ArchitectureUnknown | X86 | Amd64 | IA64
  | UnknownCompression | Stored | Zlib | BZip2 | LZMA1 | LZMA2
  | CRC32 | MD5 | SHA1
  | None | String | ExpandString | DWord | Binary | MultiString | QWord
  | HKCR | HKCU | HKLM | HKU | HKPD | HKCC | HKDD | Unset
  deriving DecidableEq, Repr

/-- What a member of a record holds: a string or byte buffer, an integer, an
enumeration constant, or a set of enumeration constants. -/
inductive value where
  | str (bytes : List Nat)
  | num (n : Int)
  | sym (s : symbol)
  | set (members : List symbol)
  deriving DecidableEq, Repr

/-- A record under decoding: its members `field`, named by `F`, and its
`options`, the flags of type `O` that are set. -/
structure record (F O : Type) where
  field : F → value
  options : List O

/-- The assignment `f = v` to a member of the record. -/
def record.assign {F O : Type} [DecidableEq F] (r : record F O) (f : F) (v : value) :
    record F O :=
  { r with field := fun g => if g = f then v else r.field g }

/-- The value of a run of bytes read as one little-endian unsigned
integer. -/
def little_endian : List Nat → Nat
  | [] => 0
  | b :: bs => b + 256 * little_endian bs

/-- Modelled from the spec: the primitive reader `util::load<T>(is)` is
declared in `util/load.hpp`, which is not among the sources. The spec (4.2)
has it read one fixed-width integer; the `n` bytes of `T` are taken in
little-endian order, and a signed `T` in two's complement. A short read is
`none`. -/
def load_number (n : Nat) (signed : Bool) (is : List Nat) : Option (Int × List Nat) :=
  match read n is with
  | none => none
  | some (bs, is1) =>
    some (if signed = true ∧ 2 ^ (8 * n - 1) ≤ little_endian bs
        then (little_endian bs : Int) - 2 ^ (8 * n) else (little_endian bs : Int), is1)

/-- Modelled from the spec: the width that `util::load<T>(is, version.bits)`
reads for a 32-bit `T` (`util/load.hpp` is not among the sources). The spec
(4.2) has it read a 16-bit integer for a 16-bit build and a 32-bit integer
otherwise. -/
def sized (bits : Nat) : Nat := if bits = 16 then 2 else 4

/-- Modelled from the spec: the string readers `util::encoded_string`,
`util::ansi_string` and `util::binary_string` are declared in headers that
are not among the sources. The spec (4.2) has each read a length-prefixed
byte sequence, the prefix being a 32-bit integer; the text layer that decodes
the bytes is an injected function (spec 6), so the member holds the bytes
that this function receives. A short read is `none`. -/
def load_string (is : List Nat) : Option (List Nat × List Nat) :=
  match read 4 is with
  | none => none
  | some (len, is1) => read (little_endian len) is1

/-- Bit `i` of a bit mask stored as bytes, lowest bit of the first byte
first. -/
def test_bit (mask : List Nat) (i : Nat) : Bool :=
  decide ((mask.getD (i / 8) 0 / 2 ^ (i % 8)) % 2 = 1)

/-- The members of the ordered list `flags` whose bit is set in `mask`, the
first member of the list standing at bit `i`. -/
def decode_flags {O : Type} : List O → Nat → List Nat → List O
  | [], _, _ => []
  | f :: fs, i, mask =>
    (if test_bit mask i = true then [f] else []) ++ decode_flags fs (i + 1) mask

/-- Modelled from the spec: the width of the bit mask that a flag reader
consumes for `count` registered flags (`stored_flag_reader` and
`stored_flags` are declared in `util/storedenum.hpp`, which is not among the
sources). The spec (4.3) has the mask as wide as the flags registered for
this version, rounded up to the next byte boundary. -/
def mask_bytes (count : Nat) : Nat := (count + 7) / 8

/-- Modelled from the spec: the enumeration `RegistryEntry::Hive` is declared
in `setup/RegistryEntry.hpp`, which is not among the sources; the names that
`ENUM_NAMES(RegistryEntry::Hive, ...)` lists in `RegistryEntry.cpp` give its
constants in order. The cast `Hive(n)` yields the constant numbered `n`, and
for any other `n` an object that holds the integer itself. -/
def Hive (n : Nat) : value :=
  match n with
  | 0 => value.sym symbol.HKCR
  | 1 => value.sym symbol.HKCU
  | 2 => value.sym symbol.HKLM
  | 3 => value.sym symbol.HKU
  | 4 => value.sym symbol.HKPD
  | 5 => value.sym symbol.HKCC
  | 6 => value.sym symbol.HKDD
  | 7 => value.sym symbol.Unset
  | k => value.num k

/-- A table declared by `STORED_ENUM_MAP(name, default, values...)`: the
constants by on-disk ordinal and the default for an ordinal beyond them. -/
structure enum_map where
  default : symbol
  values : List symbol
  deriving DecidableEq, Repr

/-- The three string readers of the source; they differ in the decoding that
the text layer applies afterwards. -/
inductive string_kind where
  | encoded
  | ansi
  | binary
  deriving DecidableEq, Repr

/-- One statement of a flag-reader block: `flagreader.add(flag)` registers
the next flag of the mask, `options |= flag` sets a flag without reading
it. -/
inductive flag_action (O : Type) where
  | add (flag : O)
  | preset (flag : O)
  deriving DecidableEq, Repr

/-- The flags that a flag-reader block registers, in order. -/
def registered {O : Type} : List (flag_action O) → List O
  | [] => []
  | flag_action.add f :: rest => f :: registered rest
  | flag_action.preset _ :: rest => registered rest

/-- The flags that a flag-reader block sets without reading them. -/
def presets {O : Type} : List (flag_action O) → List O
  | [] => []
  | flag_action.add _ :: rest => presets rest
  | flag_action.preset f :: rest => f :: presets rest

/-- The loaders of other classes that the decoders call: `winver.load`,
`loadConditionData` and `loadVersionData`. None of them is among the
sources, and the spec does not describe them. -/
inductive external where
  | winver
  | condition_data
  | version_data
  deriving DecidableEq, Repr

/-- The statements that `header::load` and `RegistryEntry::load` are made
of, over the members `F` and the option flags `O` of the record. -/
inductive step (F O : Type) where
  /-- `options = 0` -/
  | clear_options
  /-- `(void)util::load<T>(is)` for a `T` of `n` bytes -/
  | discard (n : Nat)
  /-- `is >> util::encoded_string(f, ...)`, `util::ansi_string(f)` or
  `util::binary_string(f)` -/
  | load_string (kind : string_kind) (f : F)
  /-- `f.clear()` -/
  | clear (f : F)
  /-- `f = util::load<T>(is)` for a `T` of `n` bytes -/
  | load_number (f : F) (n : Nat) (signed : Bool)
  /-- `f = v` for a constant `v` -/
  | assign (f : F) (v : value)
  /-- `is.read(f, n)` -/
  | read_buffer (f : F) (n : Nat)
  /-- `f = stored_enum<map>(is).get()` -/
  | load_enum (f : F) (map : enum_map)
  /-- `f = stored_flags<table>(is).get()` -/
  | load_flags (f : F) (table : List symbol)
  /-- the stored enum of source lines 359 to 364, whose value sets options -/
  | option_enum (map : enum_map) (choices : List (symbol × O))
  /-- a flag-reader block that ends with `options |= flagreader` -/
  | flag_reader (actions : List (flag_action O))
  /-- a flag-reader block that ends with `options = flags.get()` -/
  | flag_reader_assign (actions : List (flag_action O))
  /-- `f = (options & flag) ? yes : no` -/
  | derive (f : F) (flag : O) (yes no : symbol)
  /-- `if(size > 0) { ... is.read(&temp[0], size); util::to_utf8(temp, f); }` -/
  | tail_text (f : F) (size : F)
  /-- a call of a loader that is not among the sources, filling `f` -/
  | load_external (e : external) (f : F)
  /-- `f = Hive(loadNumber<uint32_t>(is) & ~0x80000000)` -/
  | load_hive (f : F)
  deriving DecidableEq, Repr

/-- The member that a statement assigns, if it assigns one. -/
def step.target {F O : Type} : step F O → Option F
  | step.clear_options => none
  | step.discard _ => none
  | step.load_string _ f => some f
  | step.clear f => some f
  | step.load_number f _ _ => some f
  | step.assign f _ => some f
  | step.read_buffer f _ => some f
  | step.load_enum f _ => some f
  | step.load_flags f _ => some f
  | step.option_enum _ _ => none
  | step.flag_reader _ => none
  | step.flag_reader_assign _ => none
  | step.derive f _ _ _ => some f
  | step.tail_text f _ => some f
  | step.load_external _ f => some f
  | step.load_hive f => some f

/-- The loaders that are not among the sources, as parameters of the
decoders: for each one and each version, the value it builds from the stream
and the stream it leaves, or `none` on a short read. -/
abbrev externals : Type := external → version → List Nat → Option (value × List Nat)

/-- Modelled from the spec: the effect of one statement on the record and the
stream, `none` standing for a short read. The readers `stored_enum`,
`stored_flags` and `stored_flag_reader` are declared in
`util/storedenum.hpp`, which is not among the sources. The spec (4.3) has a
stored enum read one 8-bit ordinal and return the table entry at that index
or the declared default, and a flag reader read a bit mask of minimal width
and set the flags of the ordered list whose bit is set, bits beyond the list
being ignored. -/
def exec {F O : Type} [DecidableEq F] [DecidableEq O] (ext : externals) (version : version) :
    step F O → record F O → List Nat → Option (record F O × List Nat)
  | step.clear_options, r, is => some ({ r with options := [] }, is)
  | step.discard n, r, is =>
    match read n is with
    | none => none
    | some (_, is1) => some (r, is1)
  | step.load_string _ f, r, is =>
    match load_string is with
    | none => none
    | some (bs, is1) => some (r.assign f (value.str bs), is1)
  | step.clear f, r, is => some (r.assign f (value.str []), is)
  | step.load_number f n signed, r, is =>
    match load_number n signed is with
    | none => none
    | some (x, is1) => some (r.assign f (value.num x), is1)
  | step.assign f v, r, is => some (r.assign f v, is)
  | step.read_buffer f n, r, is =>
    match read n is with
    | none => none
    | some (bs, is1) => some (r.assign f (value.str bs), is1)
  | step.load_enum f map, r, is =>
    match read 1 is with
    | none => none
    | some (bs, is1) =>
      some (r.assign f (value.sym (map.values.getD (little_endian bs) map.default)), is1)
  | step.load_flags f table, r, is =>
    match read (mask_bytes table.length) is with
    | none => none
    | some (mask, is1) => some (r.assign f (value.set (decode_flags table 0 mask)), is1)
  | step.option_enum map choices, r, is =>
    match read 1 is with
    | none => none
    | some (bs, is1) =>
      let val := map.values.getD (little_endian bs) map.default
      let chosen := (choices.filter (fun c => decide (c.1 = val))).map (fun c => c.2)
      some ({ r with options := r.options ++ chosen }, is1)
  | step.flag_reader actions, r, is =>
    match read (mask_bytes (registered actions).length) is with
    | none => none
    | some (mask, is1) =>
      some ({ r with options := r.options ++ presets actions
          ++ decode_flags (registered actions) 0 mask }, is1)
  | step.flag_reader_assign actions, r, is =>
    match read (mask_bytes (registered actions).length) is with
    | none => none
    | some (mask, is1) =>
      some ({ r with options := decode_flags (registered actions) 0 mask }, is1)
  | step.derive f flag yes no, r, is =>
    some (r.assign f (value.sym (if flag ∈ r.options then yes else no)), is)
  | step.tail_text f size, r, is =>
    match r.field size with
    | value.num n =>
      if 0 < n then
        match read n.toNat is with
        | none => none
        | some (bs, is1) => some (r.assign f (value.str bs), is1)
      else some (r, is)
    | _ => some (r, is)
  | step.load_external e f, r, is =>
    match ext e version is with
    | none => none
    | some (v, is1) => some (r.assign f v, is1)
  | step.load_hive f, r, is =>
    match read 4 is with
    | none => none
    | some (bs, is1) => some (r.assign f (Hive (little_endian bs % 2 ^ 31)), is1)

/-- A sequence of statements, run in order; a short read ends the run. -/
def run {F O : Type} [DecidableEq F] [DecidableEq O] (ext : externals) (version : version) :
    List (step F O) → record F O → List Nat → Option (record F O × List Nat)
  | [], r, is => some (r, is)
  | s :: rest, r, is =>
    match exec ext version s r is with
    | none => none
    | some (r1, is1) => run ext version rest r1 is1

/-! ## `header::load` -/

/-- The data members of `setup::header` that `load` assigns, and last the
three local variables `license_size`, `info_before_size`, `info_after_size`
of `header::load`. -/
inductive header_field where
  | app_name | app_versioned_name | app_id | app_copyright | app_publisher
  | app_publisher_url | app_support_phone | app_support_url | app_updates_url | app_version
  | default_dir_name | default_group_name | uninstall_icon_name | base_filename
  | license_text | info_before | info_after | uninstall_files_dir | uninstall_name
  | uninstall_icon | app_mutex | default_user_name | default_user_organisation
  | default_serial | compiled_code | app_readme_file | app_contact | app_comments
  | app_modify_path | create_uninstall_registry_key | uninstallable | setupmutex_filter
  | close_applications_filter | uninstaller_signature | lead_bytes
  | language_count | message_count | permission_count | type_count | component_count
  | task_count | directory_count | file_count | data_entry_count | icon_count
  | ini_entry_count | registry_entry_count | delete_entry_count
  | uninstall_delete_entry_count | run_entry_count | uninstall_run_entry_count
  | winver | back_color | back_color2 | image_back_color | small_image_back_color
  | password_crc32 | password_md5 | password_sha1 | password_type | password_salt
  | extra_disk_space_required | slices_per_disk | install_mode | uninstall_log_mode
  | uninstall_style | dir_exists_warning | privileges_required | show_language_dialog
  | language_detection | compression | architectures_allowed
  | architectures_installed_in_64bit_mode | signed_uninstaller_original_size
  | signed_uninstaller_header_checksum | disable_dir_page | disable_program_group_page
  | uninstall_display_size
  | license_size | info_before_size | info_after_size
  deriving DecidableEq, Repr

/-- The constants of `header::flags` that `load` names. -/
inductive header_flag where
  | DisableStartupPrompt | Uninstallable | CreateAppDir | DisableDirPage
  | DisableDirExistsWarning | DisableProgramGroupPage | AllowNoIcons | AlwaysRestart
  | BackSolid | AlwaysUsePersonalGroup | WindowVisible | WindowShowCaption
  | WindowResizable | WindowStartMaximized | EnableDirDoesntExistWarning
  | DisableAppendDir | Password | AllowRootDirectory | DisableFinishedPage
  | AdminPrivilegesRequired | AlwaysCreateUninstallIcon | OverwriteUninstRegEntries
  | ChangesAssociations | CreateUninstallRegKey | UsePreviousAppDir | BackColorHorizontal
  | UsePreviousGroup | UpdateUninstallLogAppName | UsePreviousSetupType | DisableReadyMemo
  | AlwaysShowComponentsList | FlatComponentsList | ShowComponentSizes | UsePreviousTasks
  | DisableReadyPage | AlwaysShowDirOnReadyPage | AlwaysShowGroupOnReadyPage | BzipUsed
  | AllowUNCPath | UserInfoPage | UsePreviousUserInfo | UninstallRestartComputer
  | RestartIfNeededByRun | ShowTasksTreeLines | ShowLanguageDialog
  | DetectLanguageUsingLocale | AllowCancelDuringInstall | WizardImageStretch
  | AppendDefaultDirName | AppendDefaultGroupName | EncryptionUsed | ChangesEnvironment
  | ShowUndisplayableLanguages | SetupLogging | SignedUninstaller | UsePreviousLanguage
  | DisableWelcomePage | CloseApplications | RestartApplications | AllowNetworkDrive
  deriving DecidableEq, Repr

/-- The object that `header::load` fills. -/
abbrev header : Type := record header_field header_flag

/-- The table `stored_install_verbosity`. -/
def stored_install_verbosity : enum_map :=
  ⟨symbol.NormalInstallMode,
    [symbol.NormalInstallMode, symbol.SilentInstallMode, symbol.VerySilentInstallMode]⟩

/-- The table `stored_log_mode`. -/
def stored_log_mode : enum_map :=
  ⟨symbol.AppendLog, [symbol.AppendLog, symbol.NewLog, symbol.OverwriteLog]⟩

/-- The table `stored_setup_style`. -/
def stored_setup_style : enum_map :=
  ⟨symbol.ClassicStyle, [symbol.ClassicStyle, symbol.ModernStyle]⟩

/-- The table `stored_bool_auto_no_yes`. -/
def stored_bool_auto_no_yes : enum_map :=
  ⟨symbol.Auto, [symbol.Auto, symbol.No, symbol.Yes]⟩

/-- The table `stored_privileges_0` (before 5.3.7). -/
def stored_privileges_0 : enum_map :=
  ⟨symbol.NoPrivileges,
    [symbol.NoPrivileges, symbol.PowerUserPrivileges, symbol.AdminPriviliges]⟩

/-- The table `stored_privileges_1` (from 5.3.7 on). -/
def stored_privileges_1 : enum_map :=
  ⟨symbol.NoPrivileges,
    [symbol.NoPrivileges, symbol.PowerUserPrivileges, symbol.AdminPriviliges,
      symbol.LowestPrivileges]⟩

/-- The table `stored_bool_yes_no_auto`. -/
def stored_bool_yes_no_auto : enum_map :=
  ⟨symbol.Yes, [symbol.Yes, symbol.No, symbol.Auto]⟩

/-- The table `stored_language_detection_method`. -/
def stored_language_detection_method : enum_map :=
  ⟨symbol.UILanguage,
    [symbol.UILanguage, symbol.LocaleLanguage, symbol.NoLanguageDetection]⟩

/-- The flag table `stored_architectures`. -/
def stored_architectures : List symbol :=
  [symbol.ArchitectureUnknown, symbol.X86, symbol.Amd64, symbol.IA64]

/-- The table `stored_compression_method_0` (before 4.2.5). -/
def stored_compression_method_0 : enum_map :=
  ⟨symbol.UnknownCompression, [symbol.Zlib, symbol.BZip2, symbol.LZMA1]⟩

/-- The table `stored_compression_method_1` (4.2.5). -/
def stored_compression_method_1 : enum_map :=
  ⟨symbol.UnknownCompression, [symbol.Stored, symbol.BZip2, symbol.LZMA1]⟩

/-- The table `stored_compression_method_2` (4.2.6 up to 5.3.9). -/
def stored_compression_method_2 : enum_map :=
  ⟨symbol.UnknownCompression, [symbol.Stored, symbol.Zlib, symbol.BZip2, symbol.LZMA1]⟩

/-- The table `stored_compression_method_3` (from 5.3.9 on). -/
def stored_compression_method_3 : enum_map :=
  ⟨symbol.UnknownCompression,
    [symbol.Stored, symbol.Zlib, symbol.BZip2, symbol.LZMA1, symbol.LZMA2]⟩

/-- The value `architecture_types::all()`. -/
def architecture_types_all : value := value.set stored_architectures

/-- The statements of `header::load` on the password (source lines 310 to
324). -/
def password_steps (version : version) : List (step header_field header_flag) :=
  (if version.value < INNO_VERSION 4 2 0 then
    [step.load_number header_field.password_crc32 4 false,
     step.assign header_field.password_type (value.sym symbol.CRC32)]
  else if version.value < INNO_VERSION 5 3 9 then
    [step.read_buffer header_field.password_md5 16,
     step.assign header_field.password_type (value.sym symbol.MD5)]
  else
    [step.read_buffer header_field.password_sha1 20,
     step.assign header_field.password_type (value.sym symbol.SHA1)])
  ++ (if version.value ≥ INNO_VERSION 4 2 2 then
    [step.read_buffer header_field.password_salt 8]
  else
    [step.assign header_field.password_salt (value.str (List.replicate 8 0))])

/-- The statements of `header::load` of source lines 129 to 166: the size prefix of an old record and the first strings. -/
def header_steps_129_166 (version : version) : List (step header_field header_flag) :=
  List.flatten [
  [step.clear_options],
  (if version.value < INNO_VERSION 1 3 21 then
    [step.discard 4]
  else
    []),
  [step.load_string string_kind.encoded header_field.app_name,
     step.load_string string_kind.encoded header_field.app_versioned_name],
  (if version.value ≥ INNO_VERSION 1 3 21 then
    [step.load_string string_kind.encoded header_field.app_id]
  else
    []),
  [step.load_string string_kind.encoded header_field.app_copyright],
  (if version.value ≥ INNO_VERSION 1 3 21 then
    [step.load_string string_kind.encoded header_field.app_publisher,
     step.load_string string_kind.encoded header_field.app_publisher_url]
  else
    [step.clear header_field.app_publisher,
     step.clear header_field.app_publisher_url]),
  (if version.value ≥ INNO_VERSION 5 1 13 then
    [step.load_string string_kind.encoded header_field.app_support_phone]
  else
    [step.clear header_field.app_support_phone]),
  (if version.value ≥ INNO_VERSION 1 3 21 then
    [step.load_string string_kind.encoded header_field.app_support_url,
     step.load_string string_kind.encoded header_field.app_updates_url,
     step.load_string string_kind.encoded header_field.app_version]
  else
    [step.clear header_field.app_support_url,
     step.clear header_field.app_updates_url,
     step.clear header_field.app_version]),
  [step.load_string string_kind.encoded header_field.default_dir_name,
     step.load_string string_kind.encoded header_field.default_group_name],
  (if version.value < INNO_VERSION 3 0 0 then
    [step.load_string string_kind.ansi header_field.uninstall_icon_name]
  else
    [step.clear header_field.uninstall_icon_name]),
  [step.load_string string_kind.encoded header_field.base_filename]]

/-- The statements of `header::load` of source lines 167 to 195. -/
def header_steps_167_195 (version : version) : List (step header_field header_flag) :=
  List.flatten [
  (if version.value ≥ INNO_VERSION 1 3 21 then
    ((if version.value < INNO_VERSION 5 2 5 then
      [step.load_string string_kind.ansi header_field.license_text,
       step.load_string string_kind.ansi header_field.info_before,
       step.load_string string_kind.ansi header_field.info_after]
    else
      [])
      ++ [step.load_string string_kind.encoded header_field.uninstall_files_dir,
         step.load_string string_kind.encoded header_field.uninstall_name,
         step.load_string string_kind.encoded header_field.uninstall_icon,
         step.load_string string_kind.encoded header_field.app_mutex])
  else
    [step.clear header_field.license_text,
     step.clear header_field.info_before,
     step.clear header_field.info_after,
     step.clear header_field.uninstall_files_dir,
     step.clear header_field.uninstall_name,
     step.clear header_field.uninstall_icon,
     step.clear header_field.app_mutex]),
  (if version.value ≥ INNO_VERSION 3 0 0 then
    [step.load_string string_kind.encoded header_field.default_user_name,
     step.load_string string_kind.encoded header_field.default_user_organisation]
  else
    [step.clear header_field.default_user_name,
     step.clear header_field.default_user_organisation]),
  (if version.value ≥ INNO_VERSION_EXT 3 0 6 1 then
    ([step.load_string string_kind.encoded header_field.default_serial]
      ++ (if version.value < INNO_VERSION 5 2 5 then
      [step.load_string string_kind.binary header_field.compiled_code]
    else
      []))
  else
    [step.clear header_field.default_serial,
     step.clear header_field.compiled_code])]

/-- The statements of `header::load` of source lines 196 to 239. -/
def header_steps_196_239 (version : version) : List (step header_field header_flag) :=
  List.flatten [
  (if version.value ≥ INNO_VERSION 4 2 4 then
    [step.load_string string_kind.encoded header_field.app_readme_file,
     step.load_string string_kind.encoded header_field.app_contact,
     step.load_string string_kind.encoded header_field.app_comments,
     step.load_string string_kind.encoded header_field.app_modify_path]
  else
    [step.clear header_field.app_readme_file,
     step.clear header_field.app_contact,
     step.clear header_field.app_comments,
     step.clear header_field.app_modify_path]),
  (if version.value ≥ INNO_VERSION 5 3 8 then
    [step.load_string string_kind.encoded header_field.create_uninstall_registry_key]
  else
    [step.clear header_field.create_uninstall_registry_key]),
  (if version.value ≥ INNO_VERSION 5 3 10 then
    [step.load_string string_kind.encoded header_field.uninstallable]
  else
    [step.clear header_field.uninstallable]),
  (if version.value ≥ INNO_VERSION 5 5 6 then
    [step.load_string string_kind.encoded header_field.setupmutex_filter]
  else
    [step.clear header_field.setupmutex_filter]),
  (if version.value ≥ INNO_VERSION 5 5 0 then
    [step.load_string string_kind.encoded header_field.close_applications_filter]
  else
    [step.clear header_field.close_applications_filter]),
  (if version.value ≥ INNO_VERSION 5 2 5 then
    [step.load_string string_kind.ansi header_field.license_text,
     step.load_string string_kind.ansi header_field.info_before,
     step.load_string string_kind.ansi header_field.info_after]
  else
    []),
  (if version.value ≥ INNO_VERSION 5 2 1 ∧ version.value < INNO_VERSION 5 3 10 then
    [step.load_string string_kind.binary header_field.uninstaller_signature]
  else
    [step.clear header_field.uninstaller_signature]),
  (if version.value ≥ INNO_VERSION 5 2 5 then
    [step.load_string string_kind.binary header_field.compiled_code]
  else
    [])]

/-- The statements of `header::load` of source lines 241 to 293: the lead bytes and the counts. -/
def header_steps_241_293 (version : version) : List (step header_field header_flag) :=
  List.flatten [
  (if version.value ≥ INNO_VERSION 2 0 6 ∧ version.unicode = false then
    [step.read_buffer header_field.lead_bytes 32]
  else
    [step.assign header_field.lead_bytes (value.str (List.replicate 32 0))]),
  (if version.value ≥ INNO_VERSION 4 0 0 then
    [step.load_number header_field.language_count 4 false]
  else
    (if version.value ≥ INNO_VERSION 2 0 1 then
      [step.assign header_field.language_count (value.num 1)]
    else
      [step.assign header_field.language_count (value.num 0)])),
  (if version.value ≥ INNO_VERSION 4 2 1 then
    [step.load_number header_field.message_count 4 false]
  else
    [step.assign header_field.message_count (value.num 0)]),
  (if version.value ≥ INNO_VERSION 4 1 0 then
    [step.load_number header_field.permission_count 4 false]
  else
    [step.assign header_field.permission_count (value.num 0)]),
  (if version.value ≥ INNO_VERSION 2 0 0 then
    [step.load_number header_field.type_count 4 false,
     step.load_number header_field.component_count 4 false,
     step.load_number header_field.task_count 4 false]
  else
    [step.assign header_field.type_count (value.num 0),
     step.assign header_field.component_count (value.num 0),
     step.assign header_field.task_count (value.num 0)]),
  [step.load_number header_field.directory_count (sized version.bits) false,
     step.load_number header_field.file_count (sized version.bits) false,
     step.load_number header_field.data_entry_count (sized version.bits) false,
     step.load_number header_field.icon_count (sized version.bits) false,
     step.load_number header_field.ini_entry_count (sized version.bits) false,
     step.load_number header_field.registry_entry_count (sized version.bits) false,
     step.load_number header_field.delete_entry_count (sized version.bits) false,
     step.load_number header_field.uninstall_delete_entry_count (sized version.bits) false,
     step.load_number header_field.run_entry_count (sized version.bits) false,
     step.load_number header_field.uninstall_run_entry_count (sized version.bits) false],
  [step.assign header_field.license_size (value.num 0),
     step.assign header_field.info_before_size (value.num 0),
     step.assign header_field.info_after_size (value.num 0)],
  (if version.value < INNO_VERSION 1 3 21 then
    [step.load_number header_field.license_size (sized version.bits) true,
     step.load_number header_field.info_before_size (sized version.bits) true,
     step.load_number header_field.info_after_size (sized version.bits) true]
  else
    [])]

/-- The statements of `header::load` of source lines 295 to 332: colours, password and disk space. -/
def header_steps_295_332 (version : version) : List (step header_field header_flag) :=
  List.flatten [
  [step.load_external external.winver header_field.winver],
  [step.load_number header_field.back_color 4 false],
  (if version.value ≥ INNO_VERSION 1 3 21 then
    [step.load_number header_field.back_color2 4 false]
  else
    [step.assign header_field.back_color2 (value.num 0)]),
  [step.load_number header_field.image_back_color 4 false],
  (if version.value ≥ INNO_VERSION 2 0 0 ∧ version.value < INNO_VERSION 5 0 4 then
    [step.load_number header_field.small_image_back_color 4 false]
  else
    [step.assign header_field.small_image_back_color (value.num 0)]),
  password_steps version,
  (if version.value ≥ INNO_VERSION 4 0 0 then
    [step.load_number header_field.extra_disk_space_required 8 true,
     step.load_number header_field.slices_per_disk 4 false]
  else
    [step.load_number header_field.extra_disk_space_required 4 true,
     step.assign header_field.slices_per_disk (value.num 1)])]

/-- The statements of `header::load` of source lines 334 to 365. -/
def header_steps_334_365 (version : version) : List (step header_field header_flag) :=
  List.flatten [
  (if version.value ≥ INNO_VERSION 2 0 0 ∧ version.value < INNO_VERSION 5 0 0 then
    [step.load_enum header_field.install_mode stored_install_verbosity]
  else
    [step.assign header_field.install_mode (value.sym symbol.NormalInstallMode)]),
  (if version.value ≥ INNO_VERSION 1 3 21 then
    [step.load_enum header_field.uninstall_log_mode stored_log_mode]
  else
    [step.assign header_field.uninstall_log_mode (value.sym symbol.AppendLog)]),
  (if version.value ≥ INNO_VERSION 2 0 0 ∧ version.value < INNO_VERSION 5 0 0 then
    [step.load_enum header_field.uninstall_style stored_setup_style]
  else
    [step.assign header_field.uninstall_style (if version.value < INNO_VERSION 5 0 0 then value.sym symbol.ClassicStyle
      else value.sym symbol.ModernStyle)]),
  (if version.value ≥ INNO_VERSION 1 3 21 then
    [step.load_enum header_field.dir_exists_warning stored_bool_auto_no_yes]
  else
    [step.assign header_field.dir_exists_warning (value.sym symbol.Auto)]),
  (if version.value ≥ INNO_VERSION 3 0 0 ∧ version.value < INNO_VERSION 3 0 3 then
    [step.option_enum stored_bool_auto_no_yes
      [(symbol.Yes, header_flag.AlwaysRestart),
       (symbol.Auto, header_flag.RestartIfNeededByRun)]]
  else
    [])]

/-- The statements of `header::load` of source lines 367 to 386: privileges, language and compression. -/
def header_steps_367_386 (version : version) : List (step header_field header_flag) :=
  List.flatten [
  (if version.value ≥ INNO_VERSION 5 3 7 then
    [step.load_enum header_field.privileges_required stored_privileges_1]
  else
    (if version.value ≥ INNO_VERSION 3 0 4 then
      [step.load_enum header_field.privileges_required stored_privileges_0]
    else
      [])),
  (if version.value ≥ INNO_VERSION 4 0 10 then
    [step.load_enum header_field.show_language_dialog stored_bool_yes_no_auto,
     step.load_enum header_field.language_detection stored_language_detection_method]
  else
    []),
  (if version.value ≥ INNO_VERSION 5 3 9 then
    [step.load_enum header_field.compression stored_compression_method_3]
  else
    (if version.value ≥ INNO_VERSION 4 2 6 then
      [step.load_enum header_field.compression stored_compression_method_2]
    else
      (if version.value ≥ INNO_VERSION 4 2 5 then
        [step.load_enum header_field.compression stored_compression_method_1]
      else
        (if version.value ≥ INNO_VERSION 4 1 5 then
          [step.load_enum header_field.compression stored_compression_method_0]
        else
          []))))]

/-- The statements of `header::load` of source lines 388 to 414. -/
def header_steps_388_414 (version : version) : List (step header_field header_flag) :=
  List.flatten [
  (if version.value ≥ INNO_VERSION 5 1 0 then
    [step.load_flags header_field.architectures_allowed stored_architectures,
     step.load_flags header_field.architectures_installed_in_64bit_mode stored_architectures]
  else
    [step.assign header_field.architectures_allowed (architecture_types_all),
     step.assign header_field.architectures_installed_in_64bit_mode (architecture_types_all)]),
  (if version.value ≥ INNO_VERSION 5 2 1 ∧ version.value < INNO_VERSION 5 3 10 then
    [step.load_number header_field.signed_uninstaller_original_size 4 false,
     step.load_number header_field.signed_uninstaller_header_checksum 4 false]
  else
    [step.assign header_field.signed_uninstaller_header_checksum (value.num 0),
     step.assign header_field.signed_uninstaller_original_size (value.num 0)]),
  (if version.value ≥ INNO_VERSION 5 3 3 then
    [step.load_enum header_field.disable_dir_page stored_bool_auto_no_yes,
     step.load_enum header_field.disable_program_group_page stored_bool_auto_no_yes]
  else
    []),
  (if version.value ≥ INNO_VERSION 5 5 0 then
    [step.load_number header_field.uninstall_display_size 8 false]
  else
    (if version.value ≥ INNO_VERSION 5 3 6 then
      [step.load_number header_field.uninstall_display_size 4 false]
    else
      [step.assign header_field.uninstall_display_size (value.num 0)]))]

/-- The statements of `header::load` before the flag reader (source lines
129 to 414), in order. -/
def header_field_steps (version : version) : List (step header_field header_flag) :=
  List.flatten [
  header_steps_129_166 version,
  header_steps_167_195 version,
  header_steps_196_239 version,
  header_steps_241_293 version,
  header_steps_295_332 version,
  header_steps_334_365 version,
  header_steps_367_386 version,
  header_steps_388_414 version]

/-- The extra byte of `header::load` (source lines 416 to 427), read and
dropped for the version value 5.5.0.1 only. -/
def header_extra_byte (version : version) : List (step header_field header_flag) :=
  if version.value = INNO_VERSION_EXT 5 5 0 1 then [step.discard 1] else []

/-- The part of the flag-reader block of `header::load` in source lines 431 to 463. -/
def header_flags_431_463 (version : version) : List (flag_action header_flag) :=
  List.flatten [
  [flag_action.add header_flag.DisableStartupPrompt],
  (if version.value < INNO_VERSION 5 3 10 then
    [flag_action.add header_flag.Uninstallable]
  else
    []),
  [flag_action.add header_flag.CreateAppDir],
  (if version.value < INNO_VERSION 5 3 3 then
    [flag_action.add header_flag.DisableDirPage]
  else
    []),
  (if version.value < INNO_VERSION 1 3 21 then
    [flag_action.add header_flag.DisableDirExistsWarning]
  else
    []),
  (if version.value < INNO_VERSION 5 3 3 then
    [flag_action.add header_flag.DisableProgramGroupPage]
  else
    []),
  [flag_action.add header_flag.AllowNoIcons],
  (if version.value < INNO_VERSION 3 0 0 ∨ version.value ≥ INNO_VERSION 3 0 3 then
    [flag_action.add header_flag.AlwaysRestart]
  else
    []),
  (if version.value < INNO_VERSION 1 3 21 then
    [flag_action.add header_flag.BackSolid]
  else
    []),
  [flag_action.add header_flag.AlwaysUsePersonalGroup,
     flag_action.add header_flag.WindowVisible,
     flag_action.add header_flag.WindowShowCaption,
     flag_action.add header_flag.WindowResizable,
     flag_action.add header_flag.WindowStartMaximized,
     flag_action.add header_flag.EnableDirDoesntExistWarning],
  (if version.value < INNO_VERSION 4 1 2 then
    [flag_action.add header_flag.DisableAppendDir]
  else
    []),
  [flag_action.add header_flag.Password,
     flag_action.add header_flag.AllowRootDirectory,
     flag_action.add header_flag.DisableFinishedPage]]

/-- The part of the flag-reader block of `header::load` in source lines 464 to 484. -/
def header_flags_464_484 (version : version) : List (flag_action header_flag) :=
  List.flatten [
  (if version.bits ≠ 16 then
    ((if version.value < INNO_VERSION 3 0 4 then
      [flag_action.add header_flag.AdminPrivilegesRequired]
    else
      [])
      ++ (if version.value < INNO_VERSION 3 0 0 then
      [flag_action.add header_flag.AlwaysCreateUninstallIcon]
    else
      [])
      ++ (if version.value < INNO_VERSION 1 3 21 then
      [flag_action.add header_flag.OverwriteUninstRegEntries]
    else
      [])
      ++ [flag_action.add header_flag.ChangesAssociations])
  else
    []),
  (if version.value ≥ INNO_VERSION 1 3 21 then
    ((if version.value < INNO_VERSION 5 3 8 then
      [flag_action.add header_flag.CreateUninstallRegKey]
    else
      [])
      ++ [flag_action.add header_flag.UsePreviousAppDir,
         flag_action.add header_flag.BackColorHorizontal,
         flag_action.add header_flag.UsePreviousGroup,
         flag_action.add header_flag.UpdateUninstallLogAppName])
  else
    [])]

/-- The part of the flag-reader block of `header::load` in source lines 485 to 507. -/
def header_flags_485_507 (version : version) : List (flag_action header_flag) :=
  List.flatten [
  (if version.value ≥ INNO_VERSION 2 0 0 then
    [flag_action.add header_flag.UsePreviousSetupType,
     flag_action.add header_flag.DisableReadyMemo,
     flag_action.add header_flag.AlwaysShowComponentsList,
     flag_action.add header_flag.FlatComponentsList,
     flag_action.add header_flag.ShowComponentSizes,
     flag_action.add header_flag.UsePreviousTasks,
     flag_action.add header_flag.DisableReadyPage]
  else
    []),
  (if version.value ≥ INNO_VERSION 2 0 7 then
    [flag_action.add header_flag.AlwaysShowDirOnReadyPage,
     flag_action.add header_flag.AlwaysShowGroupOnReadyPage]
  else
    []),
  (if version.value ≥ INNO_VERSION 2 0 17 ∧ version.value < INNO_VERSION 4 1 5 then
    [flag_action.add header_flag.BzipUsed]
  else
    []),
  (if version.value ≥ INNO_VERSION 2 0 18 then
    [flag_action.add header_flag.AllowUNCPath]
  else
    []),
  (if version.value ≥ INNO_VERSION 3 0 0 then
    [flag_action.add header_flag.UserInfoPage,
     flag_action.add header_flag.UsePreviousUserInfo]
  else
    [])]

/-- The part of the flag-reader block of `header::load` in source lines 508 to 522. -/
def header_flags_508_522 (version : version) : List (flag_action header_flag) :=
  List.flatten [
  (if version.value ≥ INNO_VERSION 3 0 1 then
    [flag_action.add header_flag.UninstallRestartComputer]
  else
    []),
  (if version.value ≥ INNO_VERSION 3 0 3 then
    [flag_action.add header_flag.RestartIfNeededByRun]
  else
    []),
  (if version.value ≥ INNO_VERSION_EXT 3 0 6 1 then
    [flag_action.add header_flag.ShowTasksTreeLines]
  else
    []),
  (if version.value ≥ INNO_VERSION 4 0 0 ∧ version.value < INNO_VERSION 4 0 10 then
    [flag_action.add header_flag.ShowLanguageDialog]
  else
    []),
  (if version.value ≥ INNO_VERSION 4 0 1 ∧ version.value < INNO_VERSION 4 0 10 then
    [flag_action.add header_flag.DetectLanguageUsingLocale]
  else
    [])]

/-- The part of the flag-reader block of `header::load` in source lines 523 to 543. -/
def header_flags_523_543 (version : version) : List (flag_action header_flag) :=
  List.flatten [
  (if version.value ≥ INNO_VERSION 4 0 9 then
    [flag_action.add header_flag.AllowCancelDuringInstall]
  else
    [flag_action.preset header_flag.AllowCancelDuringInstall]),
  (if version.value ≥ INNO_VERSION 4 1 3 then
    [flag_action.add header_flag.WizardImageStretch]
  else
    []),
  (if version.value ≥ INNO_VERSION 4 1 8 then
    [flag_action.add header_flag.AppendDefaultDirName,
     flag_action.add header_flag.AppendDefaultGroupName]
  else
    []),
  (if version.value ≥ INNO_VERSION 4 2 2 then
    [flag_action.add header_flag.EncryptionUsed]
  else
    []),
  (if version.value ≥ INNO_VERSION 5 0 4 then
    [flag_action.add header_flag.ChangesEnvironment]
  else
    []),
  (if version.value ≥ INNO_VERSION 5 1 7 ∧ version.unicode = false then
    [flag_action.add header_flag.ShowUndisplayableLanguages]
  else
    [])]

/-- The part of the flag-reader block of `header::load` in source lines 544 to 562. -/
def header_flags_544_562 (version : version) : List (flag_action header_flag) :=
  List.flatten [
  (if version.value ≥ INNO_VERSION 5 1 13 then
    [flag_action.add header_flag.SetupLogging]
  else
    []),
  (if version.value ≥ INNO_VERSION 5 2 1 then
    [flag_action.add header_flag.SignedUninstaller]
  else
    []),
  (if version.value ≥ INNO_VERSION 5 3 8 then
    [flag_action.add header_flag.UsePreviousLanguage]
  else
    []),
  (if version.value ≥ INNO_VERSION 5 3 9 then
    [flag_action.add header_flag.DisableWelcomePage]
  else
    []),
  (if version.value ≥ INNO_VERSION 5 5 0 then
    [flag_action.add header_flag.CloseApplications,
     flag_action.add header_flag.RestartApplications,
     flag_action.add header_flag.AllowNetworkDrive]
  else
    [flag_action.preset header_flag.AllowNetworkDrive])]

/-- The flag-reader block of `header::load` (source lines 429 to 562): the
calls of `flagreader.add` and the assignments `options |= flag`, in order. -/
def header_flag_actions (version : version) : List (flag_action header_flag) :=
  List.flatten [
  header_flags_431_463 version,
  header_flags_464_484 version,
  header_flags_485_507 version,
  header_flags_508_522 version,
  header_flags_523_543 version,
  header_flags_544_562 version]

/-- The statements of `header::load` after `options |= flagreader` (source
lines 566 to 603): the members derived from the options and the three texts
at the tail of an old record. -/
def header_derived_steps (version : version) : List (step header_field header_flag) :=
  List.flatten [
  (if version.value < INNO_VERSION 3 0 4 then
    [step.derive header_field.privileges_required header_flag.AdminPrivilegesRequired
      symbol.AdminPriviliges symbol.NoPrivileges]
  else
    []),
  (if version.value < INNO_VERSION 4 0 10 then
    [step.derive header_field.show_language_dialog header_flag.ShowLanguageDialog
      symbol.Yes symbol.No,
     step.derive header_field.language_detection header_flag.DetectLanguageUsingLocale
      symbol.LocaleLanguage symbol.UILanguage]
  else
    []),
  (if version.value < INNO_VERSION 4 1 5 then
    [step.derive header_field.compression header_flag.BzipUsed symbol.BZip2 symbol.Zlib]
  else
    []),
  (if version.value < INNO_VERSION 5 3 3 then
    [step.derive header_field.disable_dir_page header_flag.DisableDirPage
      symbol.Yes symbol.No,
     step.derive header_field.disable_program_group_page
      header_flag.DisableProgramGroupPage symbol.Yes symbol.No]
  else
    []),
  (if version.value < INNO_VERSION 1 3 21 then
    [step.tail_text header_field.license_text header_field.license_size,
     step.tail_text header_field.info_before header_field.info_before_size,
     step.tail_text header_field.info_after header_field.info_after_size]
  else
    [])]

/-- The statements of `header::load` for a version descriptor, in order. -/
def header_steps (version : version) : List (step header_field header_flag) :=
  header_field_steps version ++ header_extra_byte version
    ++ step.flag_reader (header_flag_actions version) :: header_derived_steps version

/-- The method `header::load`: the header `self` after the call and the
stream left, or `none` when a read came up short. -/
def header.load (ext : externals) (self : header) (is : List Nat) (version : version) :
    Option (header × List Nat) :=
  run ext version (header_steps version) self is

/-! ## `RegistryEntry::load` -/

/-- The data members of `RegistryEntry` that `load` assigns;
`condition_data` and `version_data` stand for what `loadConditionData` and
`loadVersionData` fill. -/
inductive registry_field where
  | key | name | value | condition_data | permissions | version_data | hive | permission
  | type
  deriving DecidableEq, Repr

/-- The constants of `RegistryEntry::Options`. -/
inductive registry_option where
  | CreateValueIfDoesntExist | UninsDeleteValue | UninsClearValue | UninsDeleteEntireKey
  | UninsDeleteEntireKeyIfEmpty | PreserveStringType | DeleteKey | DeleteValue | NoError
  | DontCreateKey | Bits32 | Bits64
  deriving DecidableEq, Repr

/-- The object that `RegistryEntry::load` fills. -/
abbrev RegistryEntry : Type := record registry_field registry_option

/-- The table `StoredRegistryEntryType0` (16-bit builds). -/
def StoredRegistryEntryType0 : enum_map :=
  ⟨symbol.None, [symbol.None, symbol.String]⟩

/-- The table `StoredRegistryEntryType1`. -/
def StoredRegistryEntryType1 : enum_map :=
  ⟨symbol.None,
    [symbol.None, symbol.String, symbol.ExpandString, symbol.DWord, symbol.Binary,
      symbol.MultiString]⟩

/-- The table `StoredRegistryEntryType2` (from 5.2.5 on). -/
def StoredRegistryEntryType2 : enum_map :=
  ⟨symbol.None,
    [symbol.None, symbol.String, symbol.ExpandString, symbol.DWord, symbol.Binary,
      symbol.MultiString, symbol.QWord]⟩

/-- The flag-reader block of `RegistryEntry::load` (source lines 83 to
102). -/
def registry_flag_actions (version : version) : List (flag_action registry_option) :=
  List.flatten [
  (if version.bits ≠ 16 then
    [flag_action.add registry_option.CreateValueIfDoesntExist,
     flag_action.add registry_option.UninsDeleteValue]
  else
    []),
  [flag_action.add registry_option.UninsClearValue,
      flag_action.add registry_option.UninsDeleteEntireKey,
      flag_action.add registry_option.UninsDeleteEntireKeyIfEmpty,
      flag_action.add registry_option.PreserveStringType],
  (if version.value ≥ INNO_VERSION 1 3 21 then
    [flag_action.add registry_option.DeleteKey,
     flag_action.add registry_option.DeleteValue,
     flag_action.add registry_option.NoError,
     flag_action.add registry_option.DontCreateKey]
  else
    []),
  (if version.value ≥ INNO_VERSION 5 1 0 then
    [flag_action.add registry_option.Bits32,
     flag_action.add registry_option.Bits64]
  else
    [])]

/-- The statements of `RegistryEntry::load` for a version descriptor, in
order. -/
def registry_steps (version : version) : List (step registry_field registry_option) :=
  List.flatten [
  (if version.value < INNO_VERSION 1 3 21 then
    [step.discard 4]
  else
    []),
  [step.load_string string_kind.encoded registry_field.key],
  (if version.bits ≠ 16 then
    [step.load_string string_kind.encoded registry_field.name]
  else
    [step.clear registry_field.name]),
  [step.load_string string_kind.encoded registry_field.value,
      step.load_external external.condition_data registry_field.condition_data],
  (if version.value ≥ INNO_VERSION 4 0 11 ∧ version.value < INNO_VERSION 4 1 0 then
    [step.load_string string_kind.encoded registry_field.permissions]
  else
    [step.clear registry_field.permissions]),
  [step.load_external external.version_data registry_field.version_data],
  (if version.bits ≠ 16 then
    [step.load_hive registry_field.hive]
  else
    [step.assign registry_field.hive (value.sym symbol.Unset)]),
  (if version.value ≥ INNO_VERSION 4 1 0 then
    [step.load_number registry_field.permission 2 true]
  else
    [step.assign registry_field.permission (value.num (-1))]),
  (if version.value ≥ INNO_VERSION 5 2 5 then
    [step.load_enum registry_field.type StoredRegistryEntryType2]
  else if version.bits ≠ 16 then
    [step.load_enum registry_field.type StoredRegistryEntryType1]
  else
    [step.load_enum registry_field.type StoredRegistryEntryType0]),
  [step.flag_reader_assign (registry_flag_actions version)]]

/-- The method `RegistryEntry::load`: the entry `self` after the call and
the stream left, or `none` when a read came up short. -/
def RegistryEntry.load (ext : externals) (self : RegistryEntry) (is : List Nat)
    (version : version) : Option (RegistryEntry × List Nat) :=
  run ext version (registry_steps version) self is

/-- What holds for the record that a decoder returns, whenever it returns
one. -/
def holds_after {F O : Type} (result : Option (record F O × List Nat))
    (p : record F O → Prop) : Prop :=
  ∀ r is, result = some (r, is) → p r

/-- A reader is local when it looks at nothing but the bytes it consumes: on
any stream that starts with these bytes it returns the same value and leaves
what follows them. -/
def reader_local {α : Type} (rd : List Nat → Option (α × List Nat)) : Prop :=
  ∀ is a is1, rd is = some (a, is1) → ∃ pre, is = pre ++ is1 ∧ ∀ t, rd (pre ++ t) = some (a, t)

/-- Whether a statement writes to `options`. -/
def step.sets_options {F O : Type} : step F O → Bool
  | step.clear_options => true
  | step.option_enum _ _ => true
  | step.flag_reader _ => true
  | step.flag_reader_assign _ => true
  | _ => false

/-! ## The tables of the specification for the stored enums -/

/-- The compression for an on-disk ordinal under a version of at least 4.1.5,
written after the table of the specification: Zlib, BZip2, LZMA1 before
4.2.5; Stored, BZip2, LZMA1 at 4.2.5; Stored, Zlib, BZip2, LZMA1 from 4.2.6
and before 5.3.9; Stored, Zlib, BZip2, LZMA1, LZMA2 from 5.3.9 on; any other
ordinal is `UnknownCompression`. -/
def claimed_compression (version : version) (n : Nat) : symbol :=
  if version.value < INNO_VERSION 4 2 5 then
    (match n with
      | 0 => symbol.Zlib
      | 1 => symbol.BZip2
      | 2 => symbol.LZMA1
      | _ => symbol.UnknownCompression)
  else if version.value < INNO_VERSION 4 2 6 then
    (match n with
      | 0 => symbol.Stored
      | 1 => symbol.BZip2
      | 2 => symbol.LZMA1
      | _ => symbol.UnknownCompression)
  else if version.value < INNO_VERSION 5 3 9 then
    (match n with
      | 0 => symbol.Stored
      | 1 => symbol.Zlib
      | 2 => symbol.BZip2
      | 3 => symbol.LZMA1
      | _ => symbol.UnknownCompression)
  else
    (match n with
      | 0 => symbol.Stored
      | 1 => symbol.Zlib
      | 2 => symbol.BZip2
      | 3 => symbol.LZMA1
      | 4 => symbol.LZMA2
      | _ => symbol.UnknownCompression)

/-- The type of a registry entry for an on-disk ordinal, written after the
table of the specification: seven types from 5.2.5 on, the first six before
5.2.5 when `bits != 16`, the first two when `bits = 16`; any other ordinal
is `None`. -/
def claimed_registry_type (version : version) (n : Nat) : symbol :=
  if version.value ≥ INNO_VERSION 5 2 5 then
    (match n with
      | 0 => symbol.None
      | 1 => symbol.String
      | 2 => symbol.ExpandString
      | 3 => symbol.DWord
      | 4 => symbol.Binary
      | 5 => symbol.MultiString
      | 6 => symbol.QWord
      | _ => symbol.None)
  else if version.bits ≠ 16 then
    (match n with
      | 0 => symbol.None
      | 1 => symbol.String
      | 2 => symbol.ExpandString
      | 3 => symbol.DWord
      | 4 => symbol.Binary
      | 5 => symbol.MultiString
      | _ => symbol.None)
  else
    (match n with
      | 0 => symbol.None
      | 1 => symbol.String
      | _ => symbol.None)

/-- The text of a row of `versions`: its name up to the first NUL, which is
the string literal of the source. -/
def known_version.text (e : known_version) : List Nat :=
  e.name.takeWhile (fun c => c != 0)

/-! ## The scanning loop of `version::load` with checked accesses -/

/-- The access `version_str[i]` with a bounds check: the character at an
index of the text, `none` for an index outside the text. -/
def char_at (version_str : List Nat) (i : Nat) : Option Nat := version_str.get? i

/-- The difference `a - b` of two `size_t` values with an underflow check:
`none` when it would wrap around. -/
def checked_sub (a b : Nat) : Option Nat := if b ≤ a then some (a - b) else none

/-- The body of the scanning loop of `version::load` (source lines 258 to
303) with every access `version_str[...]` and every subtraction of indices
checked: `none` when an access lies outside the text or a subtraction
underflows, otherwise `some` of what the body does (`some value` at `break`,
`none` at `continue`). -/
def parse_group_checked (version_str : List Nat) (bracket : Nat) : Option (Option Nat) :=
  match checked_sub version_str.length bracket with
  | none => none
  | some room =>
    if room < 6 then some none
    else
      let a_start := bracket + 1
      match find_first_not_of_digits version_str a_start with
      | none => some none
      | some a_end =>
        match char_at version_str a_end with
        | none => none
        | some at_a_end =>
          if at_a_end ≠ 46 then some none
          else
            match checked_sub a_end a_start with
            | none => none
            | some a_count =>
              match to_unsigned (substr version_str a_start a_count) with
              | none => some none
              | some a =>
                let b_start := a_end + 1
                match find_first_not_of_digits version_str b_start with
                | none => some none
                | some b_end =>
                  match char_at version_str b_end with
                  | none => none
                  | some at_b_end =>
                    if at_b_end ≠ 46 then some none
                    else
                      match checked_sub b_end b_start with
                      | none => none
                      | some b_count =>
                        match to_unsigned (substr version_str b_start b_count) with
                        | none => some none
                        | some b =>
                          let c_start := b_end + 1
                          match find_first_not_of_digits version_str c_start with
                          | none => some none
                          | some c_end =>
                            match checked_sub c_end c_start with
                            | none => none
                            | some c_count =>
                              match to_unsigned (substr version_str c_start c_count) with
                              | none => some none
                              | some c =>
                                match char_at version_str c_end with
                                | none => none
                                | some at_c_end =>
                                  if at_c_end = 97 ∧ c_end + 1 ≥ version_str.length then
                                    some none
                                  else
                                    let d_start := if at_c_end = 97 then c_end + 1 else c_end
                                    match char_at version_str d_start with
                                    | none => none
                                    | some at_d_start =>
                                      if at_d_start = 46 then
                                        match find_first_not_of_digits version_str
                                            (d_start + 1) with
                                        | none => some (some (INNO_VERSION_EXT a b c 0))
                                        | some d_end =>
                                          if d_end ≠ d_start + 1 then
                                            match checked_sub d_end (d_start + 1) with
                                            | none => none
                                            | some d_count =>
                                              match to_unsigned
                                                  (substr version_str (d_start + 1) d_count) with
                                              | none => some none
                                              | some d => some (some (INNO_VERSION_EXT a b c d))
                                          else some (some (INNO_VERSION_EXT a b c 0))
                                      else some (some (INNO_VERSION_EXT a b c 0))

/-- How the checked scanning loop ends: with an access outside the text,
with the fuel used up, or as the loop of the source ends (`some value` at
`break`, `none` with `bracket == npos`). -/
inductive scan_end where
  | fault
  | out_of_fuel
  | done (value : Option Nat)
  deriving DecidableEq, Repr

/-- The scanning loop of `version::load` over the checked body. -/
def scan_checked (version_str : List Nat) : Nat → Option Nat → scan_end
  | _, none => scan_end.done none
  | 0, some _ => scan_end.out_of_fuel
  | fuel + 1, some bracket =>
    match parse_group_checked version_str bracket with
    | none => scan_end.fault
    | some (some value) => scan_end.done (some value)
    | some none => scan_checked version_str fuel (find_char version_str 40 (bracket + 1))

/-! ## Catalog facts -/

theorem legacy_values :
    legacy_versions.map (·.version) = [16910848, 16910848] := by decide

theorem versions_values :
    versions.map (·.version) =
      [16979200, 16980224, 33554432, 33554688, 33554944, 33555712, 33555968, 33556224,
       33556480, 33557248, 33558784, 33559040, 50331648, 50331904, 50332416, 50332672,
       50332928, 50333185, 67108864, 67109120, 67109632, 67110144, 67111168, 67111424,
       67111680, 67174400, 67174912, 67175168, 67175424, 67175680, 67175936, 67176448,
       67239936, 67240192, 67240448, 67240704, 67240960, 67241216, 67241472, 83886080,
       83886336, 83886848, 83887104, 83951616, 83952128, 83953408, 83954176, 83954944,
       84017152, 84017408, 84017920, 84018432, 84018432, 84082688, 84082688, 84083456,
       84083456, 84083968, 84083968, 84084224, 84084224, 84084480, 84084480, 84084736,
       84084736, 84084992, 84084992, 84085248, 84085248, 84148736, 84148736, 84213760,
       84213760, 84215296, 84215296, 84213761] := by decide


theorem inno_5_5_6 : INNO_VERSION 5 5 6 = 84215296 := by decide

/-! ## The bisection of `std::upper_bound` -/

/-- With enough fuel the loop returns an index of the searched range or its
end, and an index short of the end carries an element above `value`. -/
theorem upper_bound_loop_spec (a : List Nat) (value : Nat) :
    ∀ fuel first count, count ≤ fuel →
      first ≤ upper_bound_loop a value fuel first count
      ∧ upper_bound_loop a value fuel first count ≤ first + count
      ∧ (upper_bound_loop a value fuel first count ≠ first + count →
          value < a.getD (upper_bound_loop a value fuel first count) 0) := by
  intro fuel
  induction fuel with
  | zero =>
    intro first count h
    have hc : count = 0 := by omega
    subst hc
    simp [upper_bound_loop]
  | succ fuel ih =>
    intro first count h
    rw [upper_bound_loop]
    by_cases hc : count = 0
    · simp [hc]
    · simp only [hc, if_false]
      by_cases hlt : value < a.getD (first + count / 2) 0
      · simp only [hlt, not_true_eq_false, if_false]
        obtain ⟨h1, h2, h3⟩ := ih first (count / 2) (by omega)
        refine ⟨h1, by omega, ?_⟩
        intro _
        by_cases hr : upper_bound_loop a value fuel first (count / 2) = first + count / 2
        · rw [hr]; exact hlt
        · exact h3 hr
      · simp only [hlt, not_false_eq_true, if_true]
        obtain ⟨h1, h2, h3⟩ := ih (first + count / 2 + 1) (count - (count / 2 + 1)) (by omega)
        refine ⟨by omega, by omega, ?_⟩
        intro hne
        apply h3
        intro heq
        apply hne
        omega

/-- One step of the bisection that ends at the end of the range: the probed
middle element is not above `value` and the search went on to its right. -/
theorem upper_bound_loop_end_step (a : List Nat) (value fuel first count : Nat)
    (hc : 0 < count) (hf : count ≤ fuel + 1)
    (h : upper_bound_loop a value (fuel + 1) first count = first + count) :
    a.getD (first + count / 2) 0 ≤ value
    ∧ upper_bound_loop a value fuel (first + count / 2 + 1) (count - (count / 2 + 1))
        = first + count := by
  rw [upper_bound_loop] at h
  have hc0 : count ≠ 0 := by omega
  simp only [hc0, if_false] at h
  by_cases hlt : value < a.getD (first + count / 2) 0
  · simp only [hlt, not_true_eq_false, if_false] at h
    have := (upper_bound_loop_spec a value fuel first (count / 2) (by omega)).2.1
    omega
  · simp only [hlt, not_false_eq_true, if_true] at h
    exact ⟨by omega, h⟩

/-- The search of the modern catalog ends at `end` only for a value that is
at least 5.5.6. -/
theorem upper_bound_versions_end (value : Nat)
    (h : upper_bound (versions.map (·.version)) value = 76) : 84215296 ≤ value := by
  rw [versions_values] at h
  unfold upper_bound at h
  simp only [List.length_cons, List.length_nil] at h
  obtain ⟨-, h⟩ := upper_bound_loop_end_step _ value 75 0 76 (by omega) (by omega) h
  obtain ⟨-, h⟩ := upper_bound_loop_end_step _ value 74 39 37 (by omega) (by omega) h
  obtain ⟨-, h⟩ := upper_bound_loop_end_step _ value 73 58 18 (by omega) (by omega) h
  obtain ⟨-, h⟩ := upper_bound_loop_end_step _ value 72 68 8 (by omega) (by omega) h
  obtain ⟨h74, -⟩ := upper_bound_loop_end_step _ value 71 73 3 (by omega) (by omega) h
  simpa using h74


theorem getD_mem_of_lt (a : List Nat) (i : Nat) (h : i < a.length) : a.getD i 0 ∈ a := by
  rw [List.getD_eq_getElem a 0 h]
  exact List.getElem_mem h

theorem catalog_values_le :
    ∀ x ∈ legacy_versions.map (·.version) ++ versions.map (·.version), x ≤ 84215296 := by
  rw [legacy_values, versions_values]
  decide

/-! ## Claims on the catalogs, `next` and `is_ambiguous` -/

/-- C4 (as stated, refuted): the catalogs are not strictly ascending. The two
legacy rows carry the same version 1.2.10, the modern rows 51 and 52 (5.2.5
and its Unicode twin) carry the same version, and the last modern row
(5.5.0.1) is below the row before it (5.5.6). -/
theorem catalogs_not_strictly_ascending :
    ¬ (∀ i : Fin (legacy_versions.length - 1),
        (legacy_versions.map (·.version)).getD i 0
          < (legacy_versions.map (·.version)).getD (i + 1) 0)
    ∧ ¬ (∀ i : Fin (versions.length - 1),
        (versions.map (·.version)).getD i 0 < (versions.map (·.version)).getD (i + 1) 0)
    ∧ (legacy_versions.map (·.version)).getD 0 0 = (legacy_versions.map (·.version)).getD 1 0
    ∧ (versions.map (·.version)).getD 51 0 = (versions.map (·.version)).getD 52 0
    ∧ (versions.map (·.version)).getD 75 0 < (versions.map (·.version)).getD 74 0 := by
  rw [legacy_values, versions_values]
  refine ⟨?_, ?_, by decide, by decide, by decide⟩
  · intro h
    exact absurd (h ⟨0, by decide⟩) (by decide)
  · intro h
    exact absurd (h ⟨74, by decide⟩) (by decide)

/-- C4 (amended): adjacent rows never descend, `entries[i].version ≤
entries[i+1].version`, for every adjacent pair of `legacy_versions` and for
every adjacent pair of `versions` that does not involve its last row. -/
theorem catalogs_ascending :
    (∀ i : Fin (legacy_versions.length - 1),
        (legacy_versions.map (·.version)).getD i 0
          ≤ (legacy_versions.map (·.version)).getD (i + 1) 0)
    ∧ (∀ i : Fin (versions.length - 2),
        (versions.map (·.version)).getD i 0 ≤ (versions.map (·.version)).getD (i + 1) 0) := by
  rw [legacy_values, versions_values]
  have hl : legacy_versions.length - 1 = 1 := by decide
  have hv : versions.length - 2 = 74 := by decide
  rw [hl, hv]
  decide

/-- C5 (the code at the failing input): for the cataloged value 5.5.0,
`next` returns 5.5.6 although the cataloged value 5.5.0.1 lies strictly
between the two. -/
theorem next_of_5_5_0_skips_5_5_0_1 :
    INNO_VERSION 5 5 0 ∈ versions.map (·.version)
    ∧ INNO_VERSION_EXT 5 5 0 1 ∈ versions.map (·.version)
    ∧ INNO_VERSION 5 5 0 < INNO_VERSION_EXT 5 5 0 1
    ∧ INNO_VERSION_EXT 5 5 0 1 < INNO_VERSION 5 5 6
    ∧ (∀ bits unicode known,
        version.next ⟨INNO_VERSION 5 5 0, bits, unicode, known⟩ = INNO_VERSION 5 5 6) := by
  refine ⟨?_, ?_, by decide, by decide, ?_⟩
  · rw [versions_values]; simp [INNO_VERSION, INNO_VERSION_EXT]
  · rw [versions_values]; simp [INNO_VERSION_EXT]
  · intro bits unicode known
    unfold version.next
    simp only [legacy_values, versions_values]
    decide

/-- C6: `next` returns the sentinel 0 exactly for a value that is at least
5.5.6, the largest version of the catalogs; otherwise it returns a cataloged
version strictly greater than the value. -/
theorem next_none_iff_at_least_newest (self : version) :
    (self.next = 0 ↔ INNO_VERSION 5 5 6 ≤ self.value)
    ∧ (self.next = 0 ∨ (self.value < self.next
        ∧ self.next ∈ legacy_versions.map (·.version) ++ versions.map (·.version)))
    ∧ INNO_VERSION 5 5 6 ∈ versions.map (·.version)
    ∧ (legacy_versions.map (·.version) ++ versions.map (·.version)).all
        (fun x => decide (x ≤ INNO_VERSION 5 5 6)) = true := by
  have hmax : INNO_VERSION 5 5 6 ∈ versions.map (·.version)
      ∧ (legacy_versions.map (·.version) ++ versions.map (·.version)).all
        (fun x => decide (x ≤ INNO_VERSION 5 5 6)) = true := by
    rw [legacy_values, versions_values, inno_5_5_6]
    constructor
    · simp
    · simp
  have hle := catalog_values_le
  have hL := upper_bound_loop_spec (legacy_versions.map (·.version)) self.value
    (legacy_versions.map (·.version)).length 0 (legacy_versions.map (·.version)).length
    (Nat.le_refl _)
  have hM := upper_bound_loop_spec (versions.map (·.version)) self.value
    (versions.map (·.version)).length 0 (versions.map (·.version)).length (Nat.le_refl _)
  have hend := upper_bound_versions_end self.value
  have hlenM : (versions.map (·.version)).length = 76 := by simp [versions]
  rw [inno_5_5_6]
  unfold version.next
  simp only []
  unfold upper_bound at hend ⊢
  generalize upper_bound_loop (legacy_versions.map (·.version)) self.value
    (legacy_versions.map (·.version)).length 0 (legacy_versions.map (·.version)).length
    = rl at hL ⊢
  generalize upper_bound_loop (versions.map (·.version)) self.value
    (versions.map (·.version)).length 0 (versions.map (·.version)).length = rm at hM hend ⊢
  simp only [Nat.zero_add] at hL hM
  by_cases h1 : rl = (legacy_versions.map (·.version)).length
  · by_cases h2 : rm = (versions.map (·.version)).length
    · have h556 : 84215296 ≤ self.value := hend (by rw [h2, hlenM])
      simp only [h1, h2, ne_eq, not_true_eq_false, if_false]
      exact ⟨⟨fun _ => h556, fun _ => trivial⟩, Or.inl trivial, hmax⟩
    · have hlt := hM.2.2 h2
      have hmem : (versions.map (·.version)).getD rm 0 ∈ versions.map (·.version) :=
        getD_mem_of_lt _ _ (by omega)
      have hb := hle _ (List.mem_append_right _ hmem)
      simp only [h1, h2, ne_eq, not_true_eq_false, not_false_eq_true, if_false, if_true]
      exact ⟨⟨fun h0 => by omega, fun h0 => by omega⟩,
        Or.inr ⟨hlt, List.mem_append_right _ hmem⟩, hmax⟩
  · have hlt := hL.2.2 h1
    have hmem : (legacy_versions.map (·.version)).getD rl 0
        ∈ legacy_versions.map (·.version) := getD_mem_of_lt _ _ (by omega)
    have hb := hle _ (List.mem_append_left _ hmem)
    simp only [h1, ne_eq, not_false_eq_true, if_true]
    exact ⟨⟨fun h0 => by omega, fun h0 => by omega⟩,
      Or.inr ⟨hlt, List.mem_append_left _ hmem⟩, hmax⟩

/-- C7: `is_ambiguous` is true exactly for the values 2.0.1, 3.0.3, 4.2.3
and 5.5.0 (fourth component 0), and false for the neighbouring cataloged
values 2.0.0, 2.0.2, 3.0.1, 3.0.4, 4.2.2, 4.2.4, 5.4.2, 5.5.0.1 and 5.5.6. -/
theorem is_ambiguous_exact (self : version) :
    (self.is_ambiguous = true ↔
      self.value = INNO_VERSION_EXT 2 0 1 0 ∨ self.value = INNO_VERSION_EXT 3 0 3 0
        ∨ self.value = INNO_VERSION_EXT 4 2 3 0 ∨ self.value = INNO_VERSION_EXT 5 5 0 0)
    ∧ ([INNO_VERSION 2 0 0, INNO_VERSION 2 0 2, INNO_VERSION 3 0 1, INNO_VERSION 3 0 4,
        INNO_VERSION 4 2 2, INNO_VERSION 4 2 4, INNO_VERSION 5 4 2, INNO_VERSION_EXT 5 5 0 1,
        INNO_VERSION 5 5 6].map
          (fun v => version.is_ambiguous { self with value := v })
        = List.replicate 9 false) := by
  constructor
  · unfold version.is_ambiguous INNO_VERSION
    constructor
    · intro h
      by_cases h1 : self.value = INNO_VERSION_EXT 2 0 1 0
      · exact Or.inl h1
      · by_cases h2 : self.value = INNO_VERSION_EXT 3 0 3 0
        · exact Or.inr (Or.inl h2)
        · by_cases h3 : self.value = INNO_VERSION_EXT 4 2 3 0
          · exact Or.inr (Or.inr (Or.inl h3))
          · by_cases h4 : self.value = INNO_VERSION_EXT 5 5 0 0
            · exact Or.inr (Or.inr (Or.inr h4))
            · simp [h1, h2, h3, h4] at h
    · rintro (h | h | h | h) <;> simp [h]
  · simp [version.is_ambiguous, INNO_VERSION, INNO_VERSION_EXT]


/-! ## The fuel of the scanning loop -/

theorem find_at_bounds (p : Nat → Bool) :
    ∀ (l : List Nat) (i j : Nat), find_at p l i = some j → i ≤ j ∧ j < i + l.length := by
  intro l
  induction l with
  | nil => intro i j h; simp [find_at] at h
  | cons c rest ih =>
    intro i j h
    rw [find_at] at h
    by_cases hp : p c = true
    · rw [if_pos hp] at h
      have hij : i = j := Option.some.inj h
      simp only [List.length_cons]
      omega
    · rw [if_neg hp] at h
      have := ih (i + 1) j h
      simp only [List.length_cons]
      omega

/-- A successful `find` returns an index of the text at or after `pos`. -/
theorem find_char_bounds (s : List Nat) (c pos j : Nat) (h : find_char s c pos = some j) :
    pos ≤ j ∧ j < s.length := by
  have hb := find_at_bounds _ _ _ _ h
  rw [List.length_drop] at hb
  omega

theorem scan_npos (s : List Nat) (fuel : Nat) : scan s fuel none = none := by
  cases fuel <;> rfl

/-- The loop never runs out of fuel: once the fuel covers the characters
from `bracket` on, more fuel does not change the result. -/
theorem scan_fuel (s : List Nat) :
    ∀ (fuel bracket extra : Nat), bracket < s.length → s.length - bracket ≤ fuel →
      scan s (fuel + extra) (some bracket) = scan s fuel (some bracket) := by
  intro fuel
  induction fuel with
  | zero => intro bracket extra h1 h2; omega
  | succ fuel ih =>
    intro bracket extra h1 h2
    have hre : fuel + 1 + extra = (fuel + extra) + 1 := by omega
    rw [hre, scan, scan]
    cases parse_group s bracket with
    | some value => rfl
    | none =>
      simp only []
      cases hf : find_char s 40 (bracket + 1) with
      | none => rw [scan_npos, scan_npos]
      | some j =>
        have hb := find_char_bounds s 40 (bracket + 1) j hf
        exact ih j extra hb.2 (by omega)

/-! ## Reading the signature block -/

theorem read_append (block rest : List Nat) :
    read block.length (block ++ rest) = some (block, rest) := by
  simp [read]

/-- A 12-byte block that starts with `'i'` and ends with `0x1a` is settled by
the legacy branch, and only these 12 bytes are read. -/
theorem load_eq_legacy (self : version) (block rest : List Nat)
    (hlen : block.length = 12) (h0 : block.getD 0 0 = 105) (h11 : block.getD 11 0 = 26) :
    self.load (block ++ rest)
      = ((load_legacy self block).1, (load_legacy self block).2, rest) := by
  have hr := read_append block rest
  rw [hlen] at hr
  simp only [version.load, hr]
  rw [if_pos ⟨h0, h11⟩]

/-- A 64-byte block that does not start with `'i'` and end its first 12 bytes
with `0x1a` is settled by the modern branch, and exactly 64 bytes are read. -/
theorem load_eq_modern (self : version) (block rest : List Nat)
    (hlen : block.length = 64) (h : ¬ (block.getD 0 0 = 105 ∧ block.getD 11 0 = 26)) :
    self.load (block ++ rest)
      = ((load_modern self block).1, (load_modern self block).2, rest) := by
  have hsplit : block ++ rest = block.take 12 ++ (block.drop 12 ++ rest) := by
    rw [← List.append_assoc, List.take_append_drop]
  have hr1 : read 12 (block ++ rest) = some (block.take 12, block.drop 12 ++ rest) := by
    have := read_append (block.take 12) (block.drop 12 ++ rest)
    rw [← hsplit] at this
    simpa [hlen] using this
  have hr2 : read (64 - 12) (block.drop 12 ++ rest) = some (block.drop 12, rest) := by
    have := read_append (block.drop 12) rest
    simpa [hlen] using this
  have g0 : (block.take 12).getD 0 0 = block.getD 0 0 := by
    simp [List.getD_eq_getElem?_getD, List.getElem?_take]
  have g11 : (block.take 12).getD 11 0 = block.getD 11 0 := by
    simp [List.getD_eq_getElem?_getD, List.getElem?_take]
  simp only [version.load, hr1, hr2, g0, g11, h, if_false, List.take_append_drop]

theorem versions_rows :
    ∀ e ∈ versions, e.name.length = 64
      ∧ ¬ (e.name.getD 0 0 = 105 ∧ e.name.getD 11 0 = 26)
      ∧ versions.find? (fun x => x.name == e.name) = some e := by
  decide!


theorem legacy_rows :
    ∀ e ∈ legacy_versions, e.name.length = 12
      ∧ e.name.getD 0 0 = 105 ∧ e.name.getD 11 0 = 26
      ∧ e.name.getD 2 0 = 46 ∧ e.name.getD 4 0 = 46
      ∧ e.name.getD 7 0 = 45 ∧ e.name.getD 8 0 = 45
      ∧ legacy_versions.find? (fun x => x.name == e.name) = some e := by
  decide

/-- A block that is no row of the legacy catalog is not found by the
comparison loop. -/
theorem legacy_find_none (block : List Nat) (h : ∀ e ∈ legacy_versions, e.name ≠ block) :
    legacy_versions.find? (fun e => e.name == block) = none := by
  rw [List.find?_eq_none]
  intro e he
  simpa using h e he

/-- A block that is no row of the modern catalog is not found by the
comparison loop. -/
theorem versions_find_none (block : List Nat) (h : ∀ e ∈ versions, e.name ≠ block) :
    versions.find? (fun e => e.name == block) = none := by
  rw [List.find?_eq_none]
  intro e he
  simpa using h e he

/-- The search `find_sub` fails exactly when the pattern does not occur. -/
theorem find_sub_eq_none_iff (pat : List Nat) :
    ∀ (s : List Nat) (i : Nat), find_sub pat s i = none ↔ ¬ pat <:+: s := by
  intro s
  induction s with
  | nil =>
    intro i
    by_cases hp : pat = [] <;> simp [find_sub, hp]
  | cons c rest ih =>
    intro i
    rw [find_sub, List.infix_cons_iff]
    by_cases hp : pat.isPrefixOf (c :: rest) = true
    · have hp2 : pat <+: c :: rest := List.isPrefixOf_iff_prefix.mp hp
      simp [hp, hp2]
    · have hp2 : ¬ pat <+: c :: rest := fun h => hp (List.isPrefixOf_iff_prefix.mpr h)
      simp only [hp, hp2, false_or, if_false, Bool.false_eq_true]
      exact ih (i + 1)

/-! ## Claims on `version::load`: catalog rows and the legacy branch -/

/-- C1: for every row of the modern catalog, `load` on a stream that starts
with the row's 64-byte, NUL-padded name returns with `value` the row's
version, `unicode` the row's flag, `bits = 32` and `known = true`, having
read exactly those 64 bytes. -/
theorem load_modern_catalog_row (i : Fin versions.length) (self : version)
    (rest : List Nat) :
    self.load (versions[i].name ++ rest)
      = (outcome.returned,
          { value := versions[i].version, bits := 32, unicode := versions[i].unicode,
            known := true },
          rest) := by
  obtain ⟨hlen, hleg, hfind⟩ := versions_rows versions[i] (List.getElem_mem i.isLt)
  rw [load_eq_modern self _ rest hlen hleg]
  simp only [load_modern, hfind]

/-- C2: `load` on the 12 bytes `i1.2.10--16\x1a` returns 1.2.10 with
`bits = 16`, `unicode = false`, `known = true`; on `i1.2.10--32\x1a` the same
with `bits = 32`; and every row of the legacy catalog resolves to its own
version and bit width. -/
theorem load_legacy_catalog_row (self : version) (rest : List Nat) :
    self.load (bytes "i1.2.10--16\x1a" ++ rest)
      = (outcome.returned,
          { value := INNO_VERSION 1 2 10, bits := 16, unicode := false, known := true },
          rest)
    ∧ self.load (bytes "i1.2.10--32\x1a" ++ rest)
      = (outcome.returned,
          { value := INNO_VERSION 1 2 10, bits := 32, unicode := false, known := true },
          rest)
    ∧ ∀ i : Fin legacy_versions.length,
        self.load (legacy_versions[i].name ++ rest)
          = (outcome.returned,
              { value := legacy_versions[i].version, bits := legacy_versions[i].bits,
                unicode := false, known := true },
              rest) := by
  have hrow : ∀ i : Fin legacy_versions.length,
      self.load (legacy_versions[i].name ++ rest)
        = (outcome.returned,
            { value := legacy_versions[i].version, bits := legacy_versions[i].bits,
              unicode := false, known := true },
            rest) := by
    intro i
    obtain ⟨hlen, h0, h11, -, -, -, -, hfind⟩ :=
      legacy_rows legacy_versions[i] (List.getElem_mem i.isLt)
    rw [load_eq_legacy self _ rest hlen h0 h11]
    simp only [load_legacy, hfind]
  exact ⟨hrow ⟨0, by decide⟩, hrow ⟨1, by decide⟩, hrow⟩


/-- C8 (as stated, refuted): the 12 bytes `i(1.2.3)` + three blanks + `0x1a`
start with `'i'`, end with `0x1a` and lack the separators. `load` throws
`version_error` after these 12 bytes and leaves the 52 bytes behind them
unread, although the modern branch would resolve the whole 64-byte block. -/
theorem load_bad_separators_not_fall_through :
    version.load ⟨0, 0, false, false⟩
        (bytes "i(1.2.3)   \x1a" ++ char_array 52 "Inno Setup")
      = (outcome.version_error, ⟨0, 0, false, false⟩, char_array 52 "Inno Setup")
    ∧ load_modern ⟨0, 0, false, false⟩
        (bytes "i(1.2.3)   \x1a" ++ char_array 52 "Inno Setup")
      = (outcome.returned, ⟨INNO_VERSION 1 2 3, 32, false, false⟩) := by
  decide!

/-- C8 (amended): when the first 12 bytes start with `'i'` and end with
`0x1a` but do not carry the separators `'.'`, `'.'`, `'-'`, `'-'` at offsets
2, 4, 7, 8, `load` throws `version_error` on the legacy branch: it has read
these 12 bytes only and the descriptor is unchanged. -/
theorem load_bad_separators_fails (block : List Nat) (self : version) (rest : List Nat)
    (hlen : block.length = 12) (h0 : block.getD 0 0 = 105) (h11 : block.getD 11 0 = 26)
    (hsep : ¬ (block.getD 2 0 = 46 ∧ block.getD 4 0 = 46
      ∧ block.getD 7 0 = 45 ∧ block.getD 8 0 = 45)) :
    self.load (block ++ rest) = (outcome.version_error, self, rest) := by
  rw [load_eq_legacy self block rest hlen h0 h11]
  have hnone : legacy_versions.find? (fun e => e.name == block) = none := by
    apply legacy_find_none
    intro e he heq
    obtain ⟨-, -, -, h2, h4, h7, h8, -⟩ := legacy_rows e he
    rw [heq] at h2 h4 h7 h8
    exact hsep ⟨h2, h4, h7, h8⟩
  have hcond : block.getD 0 0 ≠ 105 ∨ block.getD 2 0 ≠ 46 ∨ block.getD 4 0 ≠ 46
      ∨ block.getD 7 0 ≠ 45 ∨ block.getD 8 0 ≠ 45 := by
    by_contra hc
    simp only [not_or, ne_eq, not_not] at hc
    exact hsep ⟨hc.2.1, hc.2.2.1, hc.2.2.2.1, hc.2.2.2.2⟩
  simp only [load_legacy, hnone]
  rw [if_pos hcond]

/-- The amended C8 at the block `i(1.2.3)` + three blanks + `0x1a`, followed
by 52 more bytes. -/
theorem load_bad_separators_fails_witness :
    version.load ⟨0, 0, false, false⟩
        (bytes "i(1.2.3)   \x1a" ++ char_array 52 "Inno Setup")
      = (outcome.version_error, ⟨0, 0, false, false⟩, char_array 52 "Inno Setup") :=
  load_bad_separators_fails (bytes "i(1.2.3)   \x1a") ⟨0, 0, false, false⟩
    (char_array 52 "Inno Setup") (by decide) (by decide) (by decide) (by decide)

/-- The value of `to_unsigned` on one digit character. -/
theorem to_unsigned_digit (c : Nat) (h : is_digit c = true) :
    to_unsigned [c] = some (c - 48) := by
  simp only [is_digit, Bool.and_eq_true, decide_eq_true_eq] at h
  have h1 : ¬ (c = 45 ∨ c = 43) := by omega
  have h2 : c - 48 < 2 ^ 32 := by omega
  simp [to_unsigned, h1, is_digit, h.1, h.2, digits_value]
  omega

/-- The value of `to_unsigned` on two digit characters. -/
theorem to_unsigned_two_digits (c d : Nat) (hc : is_digit c = true) (hd : is_digit d = true) :
    to_unsigned [c, d] = some (10 * (c - 48) + (d - 48)) := by
  simp only [is_digit, Bool.and_eq_true, decide_eq_true_eq] at hc hd
  have h1 : ¬ (c = 45 ∨ c = 43) := by omega
  have h2 : (c - 48) * 10 + (d - 48) < 2 ^ 32 := by omega
  have h3 : (c - 48) * 10 + (d - 48) = 10 * (c - 48) + (d - 48) := by omega
  simp [to_unsigned, h1, is_digit, hc.1, hc.2, hd.1, hd.2, digits_value, h3]
  omega

/-- C9: a 12-byte block `'i' A '.' B '.' C1 C2 '-' '-' W1 W2 0x1a` with
decimal digits `A`, `B`, `C1`, `C2` that is no row of the legacy catalog
yields value `(A, B, 10*C1+C2)`, `unicode = false`, `known = false`, and
`bits = 16` for `W1 W2 = "16"`, `bits = 32` for `W1 W2 = "32"`; for any other
`W1 W2` the call throws `version_error`. -/
theorem load_unknown_legacy (A B C1 C2 W1 W2 : Nat) (self : version) (rest : List Nat)
    (hA : is_digit A = true) (hB : is_digit B = true)
    (hC1 : is_digit C1 = true) (hC2 : is_digit C2 = true)
    (hcat : ∀ e ∈ legacy_versions,
      e.name ≠ [105, A, 46, B, 46, C1, C2, 45, 45, W1, W2, 26]) :
    self.load ([105, A, 46, B, 46, C1, C2, 45, 45, W1, W2, 26] ++ rest)
      = if W1 = 49 ∧ W2 = 54 then
          (outcome.returned,
            { value := INNO_VERSION (A - 48) (B - 48) (10 * (C1 - 48) + (C2 - 48)),
              bits := 16, unicode := false, known := false }, rest)
        else if W1 = 51 ∧ W2 = 50 then
          (outcome.returned,
            { value := INNO_VERSION (A - 48) (B - 48) (10 * (C1 - 48) + (C2 - 48)),
              bits := 32, unicode := false, known := false }, rest)
        else (outcome.version_error, self, rest) := by
  rw [load_eq_legacy self _ rest (by simp) (by simp) (by simp)]
  have hnone := legacy_find_none _ hcat
  have ha : to_unsigned (substr [105, A, 46, B, 46, C1, C2, 45, 45, W1, W2, 26] 1 1)
      = some (A - 48) := by simpa [substr] using to_unsigned_digit A hA
  have hb : to_unsigned (substr [105, A, 46, B, 46, C1, C2, 45, 45, W1, W2, 26] 3 1)
      = some (B - 48) := by simpa [substr] using to_unsigned_digit B hB
  have hc : to_unsigned (substr [105, A, 46, B, 46, C1, C2, 45, 45, W1, W2, 26] 5 2)
      = some (10 * (C1 - 48) + (C2 - 48)) := by
    simpa [substr] using to_unsigned_two_digits C1 C2 hC1 hC2
  simp only [load_legacy, hnone, ha, hb, hc]
  by_cases h16 : W1 = 49 ∧ W2 = 54
  · simp [h16]
  · by_cases h32 : W1 = 51 ∧ W2 = 50
    · simp [h32]
    · simp [h16, h32]

/-- C9 at the uncataloged legacy signature `i1.2.11--16\x1a`. -/
theorem load_unknown_legacy_witness :
    version.load ⟨0, 0, false, false⟩ (bytes "i1.2.11--16\x1a" ++ [7, 7])
      = (outcome.returned,
          { value := INNO_VERSION 1 2 11, bits := 16, unicode := false, known := false },
          [7, 7]) :=
  load_unknown_legacy 49 50 49 49 49 54 ⟨0, 0, false, false⟩ [7, 7]
    (by decide) (by decide) (by decide) (by decide) (by decide)

/-- C10: a 64-byte block that does not take the legacy branch, is no row of
the modern catalog and whose text up to the first NUL does not contain
`Inno Setup` makes `load` throw `version_error`; the descriptor is left as it
was. -/
theorem load_without_marker_fails (block : List Nat) (self : version) (rest : List Nat)
    (hlen : block.length = 64)
    (hleg : ¬ (block.getD 0 0 = 105 ∧ block.getD 11 0 = 26))
    (hcat : ∀ e ∈ versions, e.name ≠ block)
    (hmark : ¬ bytes "Inno Setup" <:+: block.takeWhile (fun c => c != 0)) :
    self.load (block ++ rest) = (outcome.version_error, self, rest) := by
  rw [load_eq_modern self block rest hlen hleg]
  have hnone := versions_find_none block hcat
  have hfind : find_str (block.takeWhile (fun c => c != 0)) (bytes "Inno Setup") = none :=
    (find_sub_eq_none_iff _ _ 0).mpr hmark
  simp only [load_modern, load_heuristic, hnone, hfind, if_true]

/-- C10 at the padded text `Some Setup Data (5.5.6)`, which lacks the marker. -/
theorem load_without_marker_fails_witness :
    version.load ⟨0, 0, false, false⟩ (char_array 64 "Some Setup Data (5.5.6)" ++ [7, 7])
      = (outcome.version_error, ⟨0, 0, false, false⟩, [7, 7]) :=
  load_without_marker_fails (char_array 64 "Some Setup Data (5.5.6)") ⟨0, 0, false, false⟩
    [7, 7] (by decide) (by decide) (by decide!)
    ((find_sub_eq_none_iff _ _ 0).mp (by decide))


/-! ## The heuristic on `Inno Setup Setup Data (a.b.c)` -/

theorem decimal_facts :
    ∀ n : Fin 256, decimal n ≠ [] ∧ (decimal n).all is_digit = true
      ∧ digits_value (decimal n) = n ∧ (decimal n).length ≤ 3 := by
  decide!

/-- On every modern row whose name starts with `'I'`, the heuristic alone
finds the row's version and Unicode flag. -/
theorem heuristic_on_rows :
    ∀ e ∈ versions, e.name.getD 0 0 = 73 →
      load_heuristic ⟨0, 0, false, false⟩ e.name
        = (outcome.returned, ⟨e.version, 32, e.unicode, false⟩) := by
  decide!


theorem find_at_append (p : Nat → Bool) (xs : List Nat) (y : Nat) (r : List Nat)
    (hxs : ∀ x ∈ xs, p x = false) (hy : p y = true) :
    ∀ i, find_at p (xs ++ y :: r) i = some (i + xs.length) := by
  induction xs with
  | nil => intro i; simp [find_at, hy]
  | cons x xs ih =>
    intro i
    have hx : p x = false := hxs x (List.mem_cons_self x xs)
    have ih2 := ih (fun z hz => hxs z (List.mem_cons_of_mem x hz)) (i + 1)
    have hlen : i + 1 + xs.length = i + (xs.length + 1) := by omega
    rw [List.cons_append, find_at, hx, if_neg (by simp), ih2, List.length_cons, hlen]

theorem getD_append_cons (pre : List Nat) (y : Nat) (r : List Nat) (n : Nat)
    (hn : pre.length = n) : (pre ++ y :: r).getD n 0 = y := by
  subst hn
  induction pre with
  | nil => simp
  | cons x pre ih => simpa [List.getD_cons_succ] using ih

theorem substr_append (pre ds r : List Nat) (n k : Nat) (hn : pre.length = n)
    (hk : ds.length = k) : substr (pre ++ (ds ++ r)) n k = ds := by
  subst hn hk
  simp [substr]

/-- A run of digits `ds` that starts at index `n` and is followed by the
character `y`, not a digit: the search for the end of the run, the character
found there and the characters handed to `to_unsigned`. -/
theorem digit_run (pre ds : List Nat) (y : Nat) (r : List Nat) (n : Nat)
    (hn : pre.length = n) (hds : ds.all is_digit = true) (hy : is_digit y = false) :
    find_first_not_of_digits (pre ++ (ds ++ y :: r)) n = some (n + ds.length)
    ∧ (pre ++ (ds ++ y :: r)).getD (n + ds.length) 0 = y
    ∧ substr (pre ++ (ds ++ y :: r)) n (n + ds.length - n) = ds := by
  refine ⟨?_, ?_, ?_⟩
  · unfold find_first_not_of_digits
    rw [List.drop_left' hn]
    apply find_at_append
    · intro x hx
      have := (List.all_eq_true.mp hds) x hx
      simp [this]
    · simp [hy]
  · rw [← List.append_assoc]
    apply getD_append_cons
    simp [hn]
  · apply substr_append _ _ _ _ _ hn
    omega

/-- The value of `to_unsigned` on a run of digits that fits 32 bits. -/
theorem to_unsigned_digits (ds : List Nat) (hne : ds ≠ []) (hds : ds.all is_digit = true)
    (hv : digits_value ds < 2 ^ 32) : to_unsigned ds = some (digits_value ds) := by
  cases ds with
  | nil => exact absurd rfl hne
  | cons c cs =>
    have hc : is_digit c = true := (List.all_eq_true.mp hds) c (List.mem_cons_self c cs)
    have hc2 := hc
    simp only [is_digit, Bool.and_eq_true, decide_eq_true_eq] at hc2
    have h1 : ¬ (c = 45 ∨ c = 43) := by omega
    have h2 : ¬ c = 45 := by omega
    simp only [to_unsigned]
    rw [if_neg h1, if_pos ⟨by simp, hds, hv⟩, if_neg h2]

theorem takeWhile_text_padding (text : List Nat) (k : Nat) (h : ∀ c ∈ text, c ≠ 0) :
    (text ++ List.replicate k 0).takeWhile (fun c => c != 0) = text := by
  induction text with
  | nil => cases k <;> simp [List.replicate, List.takeWhile]
  | cons c cs ih =>
    have hc : c ≠ 0 := h c (List.mem_cons_self c cs)
    have := ih (fun z hz => h z (List.mem_cons_of_mem c hz))
    have hb : (c != 0) = true := by simpa using hc
    rw [List.cons_append, List.takeWhile_cons, hb, if_pos rfl, this]

theorem find_sub_none_of_no_head (p0 : Nat) (ptail : List Nat) :
    ∀ (l : List Nat) (i : Nat), (∀ c ∈ l, c ≠ p0) → find_sub (p0 :: ptail) l i = none := by
  intro l
  induction l with
  | nil => intro i _; simp [find_sub]
  | cons c cs ih =>
    intro i h
    have hc : c ≠ p0 := h c (List.mem_cons_self c cs)
    have hc2 : (p0 == c) = false := by simpa using fun h => hc h.symm
    have := ih (i + 1) (fun z hz => h z (List.mem_cons_of_mem c hz))
    simp [find_sub, List.isPrefixOf, hc2, this]


/-- The loop body on a group `(a.b.c` whose third number is followed neither
by `'a'` nor by `'.'`: the value is `(a, b, c, 0)`. -/
theorem parse_group_three (s : List Nat) (bracket a_end b_end c_end va vb vc : Nat)
    (h0 : ¬ s.length - bracket < 6)
    (h1 : find_first_not_of_digits s (bracket + 1) = some a_end)
    (h2 : s.getD a_end 0 = 46)
    (h3 : to_unsigned (substr s (bracket + 1) (a_end - (bracket + 1))) = some va)
    (h4 : find_first_not_of_digits s (a_end + 1) = some b_end)
    (h5 : s.getD b_end 0 = 46)
    (h6 : to_unsigned (substr s (a_end + 1) (b_end - (a_end + 1))) = some vb)
    (h7 : find_first_not_of_digits s (b_end + 1) = some c_end)
    (h8 : to_unsigned (substr s (b_end + 1) (c_end - (b_end + 1))) = some vc)
    (h9 : s.getD c_end 0 ≠ 97) (h10 : s.getD c_end 0 ≠ 46) :
    parse_group s bracket = some (INNO_VERSION_EXT va vb vc 0) := by
  unfold parse_group
  simp only [h0, h1, h2, h3, h4, h5, h6, h7, h8, h9, h10, if_false, ne_eq, not_true_eq_false,
    false_and]

/-- The loop stops at the first group that the body accepts. -/
theorem scan_found (s : List Nat) (fuel bracket value : Nat) (hf : 0 < fuel)
    (h : parse_group s bracket = some value) : scan s fuel (some bracket) = some value := by
  cases fuel with
  | zero => omega
  | succ n => simp only [scan, h]

theorem signature_head :
    bytes "Inno Setup Setup Data ("
      = [73, 110, 110, 111, 32, 83, 101, 116, 117, 112, 32, 83, 101, 116, 117, 112, 32, 68,
          97, 116, 97, 32, 40] := by
  decide


theorem digit_bounds (ds : List Nat) (h : ds.all is_digit = true) :
    ∀ c ∈ ds, 48 ≤ c ∧ c ≤ 57 := by
  intro c hc
  have := (List.all_eq_true.mp h) c hc
  simpa [is_digit] using this

theorem find_sub_skip (p0 : Nat) (ptail : List Nat) (rest : List Nat) :
    ∀ (xs : List Nat) (i : Nat), (∀ c ∈ xs, c ≠ p0) →
      find_sub (p0 :: ptail) (xs ++ rest) i = find_sub (p0 :: ptail) rest (i + xs.length) := by
  intro xs
  induction xs with
  | nil => intro i _; simp
  | cons c cs ih =>
    intro i h
    have hc : c ≠ p0 := h c (List.mem_cons_self c cs)
    have hc2 : (p0 == c) = false := by simpa using fun h => hc h.symm
    have := ih (i + 1) (fun z hz => h z (List.mem_cons_of_mem c hz))
    have hlen : i + 1 + cs.length = i + (cs.length + 1) := by omega
    rw [List.cons_append, find_sub, if_neg (by simp [List.isPrefixOf, hc2]), this,
      List.length_cons, hlen]

/-- The heuristic on the text `Inno Setup Setup Data (A.B.C)`, optionally
followed by ` (u)`, for runs of digits `A`, `B`, `C` that fit 32 bits, padded
with `k` NUL bytes. -/
theorem heuristic_on_signature (da db dc sfx : List Nat) (self : version) (k : Nat)
    (hda : da ≠ []) (hda2 : da.all is_digit = true) (hva : digits_value da < 2 ^ 32)
    (hdb : db ≠ []) (hdb2 : db.all is_digit = true) (hvb : digits_value db < 2 ^ 32)
    (hdc : dc ≠ []) (hdc2 : dc.all is_digit = true) (hvc : digits_value dc < 2 ^ 32)
    (hsfx : sfx = [] ∨ sfx = [32, 40, 117, 41]) :
    load_heuristic self
        ((bytes "Inno Setup Setup Data (" ++ (da ++ 46 :: (db ++ 46 :: (dc ++ 41 :: sfx))))
          ++ List.replicate k 0)
      = (outcome.returned,
          ⟨INNO_VERSION_EXT (digits_value da) (digits_value db) (digits_value dc) 0, 32,
            decide (sfx ≠ []), false⟩) := by
  have hPlen : (bytes "Inno Setup Setup Data (").length = 22 + 1 := by decide
  have hmk : bytes "Inno Setup" = [73, 110, 110, 111, 32, 83, 101, 116, 117, 112] := by decide
  have hu : bytes "(u)" = [40, 117, 41] := by decide
  have ba := digit_bounds da hda2
  have bb := digit_bounds db hdb2
  have bc := digit_bounds dc hdc2
  have la : 0 < da.length := List.length_pos.mpr hda
  have lb : 0 < db.length := List.length_pos.mpr hdb
  have lc : 0 < dc.length := List.length_pos.mpr hdc
  -- the three runs of digits
  have run1 := digit_run (bytes "Inno Setup Setup Data (") da 46
    (db ++ 46 :: (dc ++ 41 :: sfx)) (22 + 1) hPlen hda2 (by decide)
  have run2 := digit_run (bytes "Inno Setup Setup Data (" ++ (da ++ [46])) db 46
    (dc ++ 41 :: sfx) (22 + 1 + da.length + 1) (by simp [hPlen]; omega) hdb2 (by decide)
  have run3 := digit_run (bytes "Inno Setup Setup Data (" ++ (da ++ 46 :: (db ++ [46]))) dc 41
    sfx (22 + 1 + da.length + 1 + db.length + 1) (by simp [hPlen]; omega) hdc2 (by decide)
  have e2 : (bytes "Inno Setup Setup Data (" ++ (da ++ [46])) ++ (db ++ 46 :: (dc ++ 41 :: sfx))
      = bytes "Inno Setup Setup Data (" ++ (da ++ 46 :: (db ++ 46 :: (dc ++ 41 :: sfx))) := by
    simp
  have e3 : (bytes "Inno Setup Setup Data (" ++ (da ++ 46 :: (db ++ [46]))) ++ (dc ++ 41 :: sfx)
      = bytes "Inno Setup Setup Data (" ++ (da ++ 46 :: (db ++ 46 :: (dc ++ 41 :: sfx))) := by
    simp
  rw [e2] at run2
  rw [e3] at run3
  obtain ⟨s, hs⟩ : ∃ s, s = bytes "Inno Setup Setup Data ("
      ++ (da ++ 46 :: (db ++ 46 :: (dc ++ 41 :: sfx))) := ⟨_, rfl⟩
  rw [← hs] at run1 run2 run3 ⊢
  have hslen : s.length = 22 + 1 + da.length + 1 + db.length + 1 + dc.length + 1 + sfx.length := by
    rw [hs]; simp [hPlen]; omega
  -- the padded block decodes to the text
  have hnz : ∀ c ∈ s, c ≠ 0 := by
    intro c hc
    rw [hs, signature_head] at hc
    simp only [List.mem_append, List.mem_cons] at hc
    rcases hc with h | h | h | h | h | h | h | h
    · simp at h; omega
    · have := ba c h; omega
    · omega
    · have := bb c h; omega
    · omega
    · have := bc c h; omega
    · omega
    · rcases hsfx with h' | h' <;> rw [h'] at h <;> simp at h
      omega
  have htw := takeWhile_text_padding s k hnz
  -- the marker
  have hmark : ¬ find_str s (bytes "Inno Setup") = none := by
    intro h
    apply (find_sub_eq_none_iff _ _ 0).mp h
    refine ⟨[], [32, 83, 101, 116, 117, 112, 32, 68, 97, 116, 97, 32, 40]
      ++ (da ++ 46 :: (db ++ 46 :: (dc ++ 41 :: sfx))), ?_⟩
    rw [hs, signature_head, hmk]
    simp
  -- the first bracket
  have hbr : find_char s 40 0 = some 22 := by
    have := find_at_append (fun x => x == 40)
      [73, 110, 110, 111, 32, 83, 101, 116, 117, 112, 32, 83, 101, 116, 117, 112, 32, 68,
        97, 116, 97, 32] 40 (da ++ 46 :: (db ++ 46 :: (dc ++ 41 :: sfx)))
      (by decide) (by decide) 0
    rw [find_char, List.drop_zero, hs, signature_head]
    simpa using this
  -- the group
  have hgroup : parse_group s 22
      = some (INNO_VERSION_EXT (digits_value da) (digits_value db) (digits_value dc) 0) := by
    apply parse_group_three s 22 (22 + 1 + da.length) (22 + 1 + da.length + 1 + db.length)
      (22 + 1 + da.length + 1 + db.length + 1 + dc.length)
    · omega
    · exact run1.1
    · exact run1.2.1
    · rw [run1.2.2]; exact to_unsigned_digits da hda hda2 hva
    · exact run2.1
    · exact run2.2.1
    · rw [run2.2.2]; exact to_unsigned_digits db hdb hdb2 hvb
    · exact run3.1
    · rw [run3.2.2]; exact to_unsigned_digits dc hdc hdc2 hvc
    · rw [run3.2.1]; decide
    · rw [run3.2.1]; decide
  have hscan : scan s s.length (find_char s 40 0)
      = some (INNO_VERSION_EXT (digits_value da) (digits_value db) (digits_value dc) 0) := by
    rw [hbr]
    exact scan_found s s.length 22 _ (by omega) hgroup
  -- the Unicode marker
  have hmarkU : decide (find_str s (bytes "(u)") ≠ none) = decide (sfx ≠ []) := by
    rw [hu]
    rcases hsfx with h' | h'
    · have hnone : find_str s [40, 117, 41] = none := by
        obtain ⟨x, da', hx⟩ := List.exists_cons_of_ne_nil hda
        have hxb := ba x (by rw [hx]; exact List.mem_cons_self x da')
        have hsplit : s = [73, 110, 110, 111, 32, 83, 101, 116, 117, 112, 32, 83, 101, 116,
            117, 112, 32, 68, 97, 116, 97, 32]
            ++ 40 :: (da ++ 46 :: (db ++ 46 :: (dc ++ 41 :: sfx))) := by
          rw [hs, signature_head]; simp
        have hx117 : (117 == x) = false := by
          simp only [beq_eq_false_iff_ne, ne_eq]; omega
        rw [find_str, hsplit, find_sub_skip 40 [117, 41] _ _ 0 (by decide)]
        rw [find_sub, hx]
        simp only [List.cons_append, List.isPrefixOf, hx117, beq_self_eq_true, Bool.true_and,
          Bool.false_and, Bool.false_eq_true, if_false]
        apply find_sub_none_of_no_head
        intro c hc
        rw [h'] at hc
        simp only [List.mem_append, List.mem_cons, List.mem_nil_iff, or_false] at hc
        rcases hc with h | h | h | h | h | h | h
        · omega
        · have := ba c (by rw [hx]; exact List.mem_cons_of_mem x h); omega
        · omega
        · have := bb c h; omega
        · omega
        · have := bc c h; omega
        · omega
      simp [hnone, h']
    · have hsome : find_str s [40, 117, 41] ≠ none := by
        intro h
        apply (find_sub_eq_none_iff _ _ 0).mp h
        refine ⟨bytes "Inno Setup Setup Data (" ++ (da ++ 46 :: (db ++ 46 :: (dc ++ [41, 32]))),
          [], ?_⟩
        rw [hs, h']
        simp
      simp [hsome, h']
  unfold load_heuristic
  simp only [htw, hmark, if_false, hscan, hmarkU]


/-- C3: for all `a`, `b`, `c` in 0..255, `load` on the NUL-padded 64-byte
text `Inno Setup Setup Data (a.b.c)`, optionally followed by ` (u)`, returns
with value `(a, b, c, 0)`, `bits = 32`, `unicode` set exactly when the suffix
is present, and `known` set exactly when the block is a row of the modern
catalog. -/
theorem load_signature_text (a b c : Nat) (u : Bool) (self : version) (rest : List Nat)
    (ha : a < 256) (hb : b < 256) (hc : c < 256) :
    self.load (pad64 (signature_text a b c u) ++ rest)
      = (outcome.returned,
          { value := INNO_VERSION_EXT a b c 0, bits := 32, unicode := u,
            known := versions.any (fun e => e.name == pad64 (signature_text a b c u)) },
          rest) := by
  obtain ⟨na, da2, va, la⟩ := decimal_facts ⟨a, ha⟩
  obtain ⟨nb, db2, vb, lb⟩ := decimal_facts ⟨b, hb⟩
  obtain ⟨nc, dc2, vc, lc⟩ := decimal_facts ⟨c, hc⟩
  simp only at na da2 va la nb db2 vb lb nc dc2 vc lc
  have hsfx : (if u = true then bytes " (u)" else []) = []
      ∨ (if u = true then bytes " (u)" else []) = [32, 40, 117, 41] := by
    cases u
    · exact Or.inl rfl
    · exact Or.inr (by decide)
  have hsfxu : decide ((if u = true then bytes " (u)" else []) ≠ []) = u := by
    cases u
    · rfl
    · decide
  have hheur : ∀ v : version, load_heuristic v (pad64 (signature_text a b c u))
      = (outcome.returned, ⟨INNO_VERSION_EXT a b c 0, 32, u, false⟩) := by
    intro v
    have h := heuristic_on_signature (decimal a) (decimal b) (decimal c)
      (if u = true then bytes " (u)" else []) v (64 - (signature_text a b c u).length)
      na da2 (by omega) nb db2 (by omega) nc dc2 (by omega) hsfx
    rw [va, vb, vc, hsfxu] at h
    exact h
  have hPlen : (bytes "Inno Setup Setup Data (").length = 23 := by decide
  have hsfxlen : (if u = true then bytes " (u)" else []).length ≤ 4 := by
    cases u <;> decide
  have hlen : (pad64 (signature_text a b c u)).length = 64 := by
    simp only [pad64, signature_text, List.length_append, List.length_cons,
      List.length_replicate, hPlen]
    omega
  have hfirst : (pad64 (signature_text a b c u)).getD 0 0 = 73 := by
    simp [pad64, signature_text, signature_head]
  have hleg : ¬ ((pad64 (signature_text a b c u)).getD 0 0 = 105
      ∧ (pad64 (signature_text a b c u)).getD 11 0 = 26) := by
    rw [hfirst]; simp
  rw [load_eq_modern self _ rest hlen hleg]
  unfold load_modern
  cases hfind : versions.find? (fun e => e.name == pad64 (signature_text a b c u)) with
  | none =>
    have hany : versions.any (fun e => e.name == pad64 (signature_text a b c u)) = false := by
      rw [List.any_eq_false]
      intro e he
      have := List.find?_eq_none.mp hfind e he
      simpa using this
    simp only [hheur, hany]
  | some e =>
    have hmem : e ∈ versions := List.mem_of_find?_eq_some hfind
    have hname : e.name = pad64 (signature_text a b c u) := by
      have := List.find?_some hfind
      simpa using this
    have hrow := heuristic_on_rows e hmem (by rw [hname]; exact hfirst)
    rw [hname, hheur] at hrow
    have hany : versions.any (fun e => e.name == pad64 (signature_text a b c u)) = true := by
      rw [List.any_eq_true]
      exact ⟨e, hmem, by simp [hname]⟩
    have hv : e.version = INNO_VERSION_EXT a b c 0 := by
      have := congrArg (fun r => r.2.value) hrow
      exact this.symm
    have hu : e.unicode = u := by
      have := congrArg (fun r => r.2.unicode) hrow
      exact this.symm
    simp only [hv, hu, hany]

/-- C3 at the text `Inno Setup Setup Data (6.0.0) (u)`, which is no catalog
row: version 6.0.0, `unicode = true`, `known = false`. -/
theorem load_signature_text_witness :
    version.load ⟨0, 0, false, false⟩
        (char_array 64 "Inno Setup Setup Data (6.0.0) (u)" ++ [7, 7])
      = (outcome.returned,
          { value := INNO_VERSION 6 0 0, bits := 32, unicode := true, known := false },
          [7, 7]) := by
  have h := load_signature_text 6 0 0 true ⟨0, 0, false, false⟩ [7, 7]
    (by decide) (by decide) (by decide)
  have e1 : pad64 (signature_text 6 0 0 true)
      = char_array 64 "Inno Setup Setup Data (6.0.0) (u)" := by decide
  have e2 : versions.any
      (fun e => e.name == char_array 64 "Inno Setup Setup Data (6.0.0) (u)") = false := by
    decide!
  rw [e1, e2] at h
  exact h


/-! ## Claims on the bytes that `version::load` consumes -/

/-- C13: `load` consumes exactly the signature region. When the first 12
bytes start with `'i'` and end with `0x1a`, exactly these 12 bytes are read,
otherwise exactly 64 bytes are; what follows the region is left in the stream
and changes neither how the call ends nor the descriptor. -/
theorem load_consumes_signature_region (self : version) (block rest rest2 : List Nat)
    (hregion : (block.length = 12 ∧ block.getD 0 0 = 105 ∧ block.getD 11 0 = 26)
      ∨ (block.length = 64 ∧ ¬ (block.getD 0 0 = 105 ∧ block.getD 11 0 = 26))) :
    (self.load (block ++ rest)).2.2 = rest
    ∧ (self.load (block ++ rest)).1 = (self.load (block ++ rest2)).1
    ∧ (self.load (block ++ rest)).2.1 = (self.load (block ++ rest2)).2.1 := by
  rcases hregion with ⟨hlen, h0, h11⟩ | ⟨hlen, hleg⟩
  · rw [load_eq_legacy self block rest hlen h0 h11,
      load_eq_legacy self block rest2 hlen h0 h11]
    exact ⟨rfl, rfl, rfl⟩
  · rw [load_eq_modern self block rest hlen hleg, load_eq_modern self block rest2 hlen hleg]
    exact ⟨rfl, rfl, rfl⟩

/-- C13 at the legacy signature `i1.2.10--16\x1a` followed by two different
continuations. -/
theorem load_consumes_signature_region_witness :
    (version.load ⟨0, 0, false, false⟩ (bytes "i1.2.10--16\x1a" ++ [1, 2, 3])).2.2 = [1, 2, 3]
    ∧ (version.load ⟨0, 0, false, false⟩ (bytes "i1.2.10--16\x1a" ++ [1, 2, 3])).1
        = (version.load ⟨0, 0, false, false⟩ (bytes "i1.2.10--16\x1a" ++ [9])).1
    ∧ (version.load ⟨0, 0, false, false⟩ (bytes "i1.2.10--16\x1a" ++ [1, 2, 3])).2.1
        = (version.load ⟨0, 0, false, false⟩ (bytes "i1.2.10--16\x1a" ++ [9])).2.1 :=
  load_consumes_signature_region ⟨0, 0, false, false⟩ (bytes "i1.2.10--16\x1a") [1, 2, 3] [9]
    (Or.inl (by decide))

/-- C14: a stream with fewer than 12 bytes, or with fewer than 64 bytes whose
first 12 bytes do not take the legacy branch, ends the call at the short read
with the descriptor unchanged. -/
theorem load_truncated_stream (self : version) (is : List Nat)
    (hshort : is.length < 12
      ∨ (is.length < 64 ∧ ¬ ((is.take 12).getD 0 0 = 105 ∧ (is.take 12).getD 11 0 = 26))) :
    self.load is = (short_read, self, []) := by
  unfold version.load
  by_cases h12 : is.length < 12
  · have hr : read 12 is = none := by simp [read]; omega
    rw [hr]
  · rcases hshort with h | ⟨h64, hleg⟩
    · exact absurd h h12
    · have hr : read 12 is = some (is.take 12, is.drop 12) := by
        simp [read]; omega
      have hr2 : read (64 - 12) (is.drop 12) = none := by
        simp [read]; omega
      simp only [hr, hr2]
      rw [if_neg hleg]

/-- C14 at a stream that holds only the first 30 bytes of a modern
signature. -/
theorem load_truncated_stream_witness :
    version.load ⟨0, 0, false, false⟩ (bytes "Inno Setup Setup Data (5.5.6)")
      = (short_read, ⟨0, 0, false, false⟩, []) :=
  load_truncated_stream ⟨0, 0, false, false⟩ (bytes "Inno Setup Setup Data (5.5.6)")
    (Or.inr (by decide))

/-! ## Texts without a version group -/

theorem find_at_some (p : Nat → Bool) :
    ∀ (l : List Nat) (i j : Nat), find_at p l i = some j →
      ∃ ds x r, l = ds ++ x :: r ∧ (∀ d ∈ ds, p d = false) ∧ p x = true
        ∧ j = i + ds.length := by
  intro l
  induction l with
  | nil => intro i j h; simp [find_at] at h
  | cons c rest ih =>
    intro i j h
    rw [find_at] at h
    by_cases hp : p c = true
    · rw [if_pos hp] at h
      exact ⟨[], c, rest, rfl, by simp, hp, by simpa using (Option.some.inj h).symm⟩
    · rw [if_neg hp] at h
      obtain ⟨ds, x, r, hl, hds, hx, hj⟩ := ih (i + 1) j h
      refine ⟨c :: ds, x, r, by rw [hl]; rfl, ?_, hx, by simp only [List.length_cons]; omega⟩
      intro d hd
      rcases List.mem_cons.mp hd with h1 | h1
      · rw [h1]; simpa using hp
      · exact hds d h1

/-- The character that `find` returns the index of is the one searched
for. -/
theorem find_char_getD (s : List Nat) (c pos j : Nat) (h : find_char s c pos = some j) :
    s.getD j 0 = c := by
  obtain ⟨ds, x, r, hl, -, hx, hj⟩ := find_at_some _ _ _ _ h
  have hs : s = (s.take pos ++ ds) ++ x :: r := by
    rw [List.append_assoc, ← hl, List.take_append_drop]
  have hb := find_char_bounds s c pos j h
  have hlen : (s.take pos ++ ds).length = j := by
    rw [List.length_append, List.length_take]
    have : min pos s.length = pos := by omega
    omega
  rw [hs, getD_append_cons _ x r j hlen]
  simpa using hx

/-- A successful search for the end of a run of digits, read backwards: the
text from `n` on is a run of digits, one character that is not a digit, and
the text from `e + 1` on. -/
theorem digit_run_of_find (s : List Nat) (n e : Nat)
    (h : find_first_not_of_digits s n = some e) :
    ∃ ds x, s.drop n = ds ++ x :: s.drop (e + 1) ∧ ds.all is_digit = true
      ∧ is_digit x = false ∧ e = n + ds.length ∧ s.getD e 0 = x
      ∧ substr s n (e - n) = ds := by
  obtain ⟨ds, x, r, hl, hds, hx, hj⟩ := find_at_some _ _ _ _ h
  have hb := find_at_bounds _ _ _ _ h
  rw [List.length_drop] at hb
  have hn : (s.take n).length = n := by
    rw [List.length_take]; omega
  have hds2 : ds.all is_digit = true := by
    rw [List.all_eq_true]
    intro d hd
    simpa using hds d hd
  have hx2 : is_digit x = false := by simpa using hx
  have hs : s = s.take n ++ (ds ++ x :: r) := by
    rw [← hl, List.take_append_drop]
  have hrun := digit_run (s.take n) ds x r n hn hds2 hx2
  rw [← hs] at hrun
  have hr : s.drop (e + 1) = r := by
    have e1 : s = (s.take n ++ (ds ++ [x])) ++ r :=
      calc s = s.take n ++ (ds ++ x :: r) := hs
        _ = (s.take n ++ (ds ++ [x])) ++ r := by simp
    have e2 : (s.take n ++ (ds ++ [x])).length = e + 1 := by
      simp [hn]; omega
    rw [e1, List.drop_left' e2]
  refine ⟨ds, x, ?_, hds2, hx2, hj, ?_, ?_⟩
  · rw [hr]; exact hl
  · rw [hj]; exact hrun.2.1
  · rw [hj]; exact hrun.2.2

theorem to_unsigned_ne_nil (chars : List Nat) (v : Nat) (h : to_unsigned chars = some v) :
    chars ≠ [] := by
  intro hn
  rw [hn] at h
  simp [to_unsigned] at h

/-- When the loop body accepts the group at `bracket`, the text behind
`bracket` starts with three runs of digits separated by `'.'` and followed by
a character that is not a digit. -/
theorem parse_group_some (s : List Nat) (bracket v : Nat) (h : parse_group s bracket = some v) :
    ∃ da db dc x r, s.drop (bracket + 1) = da ++ 46 :: (db ++ 46 :: (dc ++ x :: r))
      ∧ da ≠ [] ∧ db ≠ [] ∧ dc ≠ []
      ∧ da.all is_digit = true ∧ db.all is_digit = true ∧ dc.all is_digit = true
      ∧ is_digit x = false := by
  unfold parse_group at h
  simp only [] at h
  split at h
  · exact absurd h (by simp)
  · cases h1 : find_first_not_of_digits s (bracket + 1) with
    | none => simp [h1] at h
    | some a_end =>
      simp only [h1] at h
      split at h
      · exact absurd h (by simp)
      · rename_i ha46
        cases h2 : to_unsigned (substr s (bracket + 1) (a_end - (bracket + 1))) with
        | none => simp [h2] at h
        | some a =>
          simp only [h2] at h
          cases h3 : find_first_not_of_digits s (a_end + 1) with
          | none => simp [h3] at h
          | some b_end =>
            simp only [h3] at h
            split at h
            · exact absurd h (by simp)
            · rename_i hb46
              cases h4 : to_unsigned (substr s (a_end + 1) (b_end - (a_end + 1))) with
              | none => simp [h4] at h
              | some b =>
                simp only [h4] at h
                cases h5 : find_first_not_of_digits s (b_end + 1) with
                | none => simp [h5] at h
                | some c_end =>
                  simp only [h5] at h
                  cases h6 : to_unsigned (substr s (b_end + 1) (c_end - (b_end + 1))) with
                  | none => simp [h6] at h
                  | some c =>
                    obtain ⟨da, xa, ea, da2, -, -, gxa, sa⟩ := digit_run_of_find s _ _ h1
                    obtain ⟨db, xb, eb, db2, -, -, gxb, sb⟩ := digit_run_of_find s _ _ h3
                    obtain ⟨dc, xc, ec, dc2, hxc, -, -, sc⟩ := digit_run_of_find s _ _ h5
                    have ha : xa = 46 := by
                      rw [← gxa]; simpa using ha46
                    have hb : xb = 46 := by
                      rw [← gxb]; simpa using hb46
                    rw [sa] at h2
                    rw [sb] at h4
                    rw [sc] at h6
                    refine ⟨da, db, dc, xc, s.drop (c_end + 1), ?_,
                      to_unsigned_ne_nil _ _ h2, to_unsigned_ne_nil _ _ h4,
                      to_unsigned_ne_nil _ _ h6, da2, db2, dc2, hxc⟩
                    rw [ea, eb, ec, ha, hb]

/-- Without a version group in the text the scanning loop ends with
`bracket == npos`. -/
theorem scan_without_group (s : List Nat) (hno : ¬ has_version_group s) :
    ∀ fuel pos, scan s fuel (find_char s 40 pos) = none := by
  intro fuel
  induction fuel with
  | zero =>
    intro pos
    cases find_char s 40 pos <;> rfl
  | succ fuel ih =>
    intro pos
    cases hf : find_char s 40 pos with
    | none => rfl
    | some j =>
      have hj := find_char_getD s 40 pos j hf
      have hb := find_char_bounds s 40 pos j hf
      cases hp : parse_group s j with
      | none =>
        simp only [scan, hp]
        exact ih (j + 1)
      | some v =>
        exfalso
        apply hno
        obtain ⟨da, db, dc, x, r, hd, h1, h2, h3, h4, h5, h6, h7⟩ := parse_group_some s j v hp
        refine ⟨s.take j, da, db, dc, x, r, ?_, h1, h2, h3, h4, h5, h6, h7⟩
        rw [← hd]
        have : s.drop j = s.getD j 0 :: s.drop (j + 1) := by
          rw [List.getD_eq_getElem s 0 hb.2]
          exact List.drop_eq_getElem_cons hb.2
        rw [← hj, ← this, List.take_append_drop]

theorem no_group_of_brackets (s : List Nat)
    (h : ∀ i : Fin s.length, s.getD i 0 = 40 → is_digit (s.getD (i + 1) 0) = false) :
    ¬ has_version_group s := by
  rintro ⟨pre, da, db, dc, x, r, hs, hda, -, -, hda2, -, -, -⟩
  obtain ⟨d, da', rfl⟩ := List.exists_cons_of_ne_nil hda
  have hd : is_digit d = true := (List.all_eq_true.mp hda2) d (List.mem_cons_self d da')
  have h40 : s.getD pre.length 0 = 40 := by
    rw [hs]; exact getD_append_cons pre 40 _ pre.length rfl
  have hnext : s.getD (pre.length + 1) 0 = d := by
    have e : s = (pre ++ [40]) ++ d :: (da' ++ 46 :: (db ++ 46 :: (dc ++ x :: r))) := by
      rw [hs]; simp
    rw [e]; exact getD_append_cons _ d _ _ (by simp)
  have hlt : pre.length < s.length := by
    rw [hs]; simp
  have := h ⟨pre.length, hlt⟩ h40
  simp only [hnext] at this
  rw [hd] at this
  exact Bool.noConfusion this

/-! ## Claims on the heuristic of `version::load` -/

/-- C11 (as stated, refuted): the text `Inno Setup (1.2.3x` holds no closing
`')'`, hence no parenthesized group, and `load` still returns version 1.2.3
for it. -/
theorem load_accepts_unclosed_group :
    version.load ⟨0, 0, false, false⟩ (char_array 64 "Inno Setup (1.2.3x")
      = (outcome.returned, ⟨INNO_VERSION 1 2 3, 32, false, false⟩, [])
    ∧ 41 ∉ bytes "Inno Setup (1.2.3x"
    ∧ versions.all (fun e => e.name != char_array 64 "Inno Setup (1.2.3x") = true := by
  decide!

/-- C11 (amended): a 64-byte block that does not take the legacy branch, is
no row of the modern catalog and whose text holds no `'('` followed by
digits `'.'` digits `'.'` digits and one more character (a closing `')'` is
not required) makes `load` throw `version_error`; the descriptor is left as
it was. -/
theorem load_without_group_fails (block : List Nat) (self : version) (rest : List Nat)
    (hlen : block.length = 64)
    (hleg : ¬ (block.getD 0 0 = 105 ∧ block.getD 11 0 = 26))
    (hcat : ∀ e ∈ versions, e.name ≠ block)
    (hno : ¬ has_version_group (block.takeWhile (fun c => c != 0))) :
    self.load (block ++ rest) = (outcome.version_error, self, rest) := by
  rw [load_eq_modern self block rest hlen hleg]
  have hnone := versions_find_none block hcat
  have hscan := scan_without_group _ hno (block.takeWhile (fun c => c != 0)).length 0
  simp only [load_modern, load_heuristic, hnone, hscan]
  split <;> rfl

/-- The amended C11 at the padded text `Inno Setup (x86)`. -/
theorem load_without_group_fails_witness :
    version.load ⟨0, 0, false, false⟩ (char_array 64 "Inno Setup (x86)" ++ [7, 7])
      = (outcome.version_error, ⟨0, 0, false, false⟩, [7, 7]) :=
  load_without_group_fails (char_array 64 "Inno Setup (x86)") ⟨0, 0, false, false⟩
    [7, 7] (by decide) (by decide) (by decide!)
    (no_group_of_brackets _ (by decide!))

/-! ## The heuristic on groups with a fourth number or an `a` -/

/-- The loop body on a group `(a.b.c.d` with a non-empty fourth run of
digits: the value is `(a, b, c, d)`. -/
theorem parse_group_four (s : List Nat) (bracket a_end b_end c_end d_end va vb vc vd : Nat)
    (h0 : ¬ s.length - bracket < 6)
    (h1 : find_first_not_of_digits s (bracket + 1) = some a_end)
    (h2 : s.getD a_end 0 = 46)
    (h3 : to_unsigned (substr s (bracket + 1) (a_end - (bracket + 1))) = some va)
    (h4 : find_first_not_of_digits s (a_end + 1) = some b_end)
    (h5 : s.getD b_end 0 = 46)
    (h6 : to_unsigned (substr s (a_end + 1) (b_end - (a_end + 1))) = some vb)
    (h7 : find_first_not_of_digits s (b_end + 1) = some c_end)
    (h8 : to_unsigned (substr s (b_end + 1) (c_end - (b_end + 1))) = some vc)
    (h9 : s.getD c_end 0 = 46)
    (h10 : find_first_not_of_digits s (c_end + 1) = some d_end)
    (h11 : d_end ≠ c_end + 1)
    (h12 : to_unsigned (substr s (c_end + 1) (d_end - (c_end + 1))) = some vd) :
    parse_group s bracket = some (INNO_VERSION_EXT va vb vc vd) := by
  unfold parse_group
  simp only [h0, h1, h2, h3, h4, h5, h6, h7, h8, h9, h10, h11, h12, if_false, if_true, ne_eq,
    not_true_eq_false, not_false_eq_true, false_and, Nat.reduceEqDiff]

/-- The loop body on a group `(a.b.ca` whose `a` is followed by a character
other than `'.'`: the value is `(a, b, c, 0)`. -/
theorem parse_group_a (s : List Nat) (bracket a_end b_end c_end va vb vc : Nat)
    (h0 : ¬ s.length - bracket < 6)
    (h1 : find_first_not_of_digits s (bracket + 1) = some a_end)
    (h2 : s.getD a_end 0 = 46)
    (h3 : to_unsigned (substr s (bracket + 1) (a_end - (bracket + 1))) = some va)
    (h4 : find_first_not_of_digits s (a_end + 1) = some b_end)
    (h5 : s.getD b_end 0 = 46)
    (h6 : to_unsigned (substr s (a_end + 1) (b_end - (a_end + 1))) = some vb)
    (h7 : find_first_not_of_digits s (b_end + 1) = some c_end)
    (h8 : to_unsigned (substr s (b_end + 1) (c_end - (b_end + 1))) = some vc)
    (h9 : s.getD c_end 0 = 97)
    (h10 : ¬ c_end + 1 ≥ s.length)
    (h11 : s.getD (c_end + 1) 0 ≠ 46) :
    parse_group s bracket = some (INNO_VERSION_EXT va vb vc 0) := by
  unfold parse_group
  simp only [h0, h1, h2, h3, h4, h5, h6, h7, h8, h9, h10, h11, if_false, if_true, ne_eq,
    not_true_eq_false, not_false_eq_true, false_and, and_false]

/-- The loop body on a group `(a.b.ca.d` with a non-empty fourth run of
digits: the value is `(a, b, c, d)`. -/
theorem parse_group_a_four (s : List Nat)
    (bracket a_end b_end c_end d_end va vb vc vd : Nat)
    (h0 : ¬ s.length - bracket < 6)
    (h1 : find_first_not_of_digits s (bracket + 1) = some a_end)
    (h2 : s.getD a_end 0 = 46)
    (h3 : to_unsigned (substr s (bracket + 1) (a_end - (bracket + 1))) = some va)
    (h4 : find_first_not_of_digits s (a_end + 1) = some b_end)
    (h5 : s.getD b_end 0 = 46)
    (h6 : to_unsigned (substr s (a_end + 1) (b_end - (a_end + 1))) = some vb)
    (h7 : find_first_not_of_digits s (b_end + 1) = some c_end)
    (h8 : to_unsigned (substr s (b_end + 1) (c_end - (b_end + 1))) = some vc)
    (h9 : s.getD c_end 0 = 97)
    (h10 : ¬ c_end + 1 ≥ s.length)
    (h11 : s.getD (c_end + 1) 0 = 46)
    (h12 : find_first_not_of_digits s (c_end + 1 + 1) = some d_end)
    (h13 : d_end ≠ c_end + 1 + 1)
    (h14 : to_unsigned (substr s (c_end + 1 + 1) (d_end - (c_end + 1 + 1))) = some vd) :
    parse_group s bracket = some (INNO_VERSION_EXT va vb vc vd) := by
  unfold parse_group
  simp only [h0, h1, h2, h3, h4, h5, h6, h7, h8, h9, h10, h11, h12, h13, h14, if_false,
    if_true, ne_eq, not_true_eq_false, not_false_eq_true, false_and, and_false]

/-- What the first three runs of digits of `Inno Setup Setup Data (A.B.C`
give the loop body, whatever character `x`, not a digit, comes next. -/
theorem signature_runs (da db dc : List Nat) (x : Nat) (r : List Nat)
    (hda : da ≠ []) (hda2 : da.all is_digit = true) (hva : digits_value da < 2 ^ 32)
    (hdb : db ≠ []) (hdb2 : db.all is_digit = true) (hvb : digits_value db < 2 ^ 32)
    (hdc : dc ≠ []) (hdc2 : dc.all is_digit = true) (hvc : digits_value dc < 2 ^ 32)
    (hx : is_digit x = false) (s : List Nat)
    (hs : s = bytes "Inno Setup Setup Data (" ++ (da ++ 46 :: (db ++ 46 :: (dc ++ x :: r)))) :
    (¬ s.length - 22 < 6)
    ∧ find_first_not_of_digits s (22 + 1) = some (22 + 1 + da.length)
    ∧ s.getD (22 + 1 + da.length) 0 = 46
    ∧ to_unsigned (substr s (22 + 1) (22 + 1 + da.length - (22 + 1))) = some (digits_value da)
    ∧ find_first_not_of_digits s (22 + 1 + da.length + 1)
        = some (22 + 1 + da.length + 1 + db.length)
    ∧ s.getD (22 + 1 + da.length + 1 + db.length) 0 = 46
    ∧ to_unsigned (substr s (22 + 1 + da.length + 1)
        (22 + 1 + da.length + 1 + db.length - (22 + 1 + da.length + 1)))
        = some (digits_value db)
    ∧ find_first_not_of_digits s (22 + 1 + da.length + 1 + db.length + 1)
        = some (22 + 1 + da.length + 1 + db.length + 1 + dc.length)
    ∧ to_unsigned (substr s (22 + 1 + da.length + 1 + db.length + 1)
        (22 + 1 + da.length + 1 + db.length + 1 + dc.length
          - (22 + 1 + da.length + 1 + db.length + 1)))
        = some (digits_value dc)
    ∧ s.getD (22 + 1 + da.length + 1 + db.length + 1 + dc.length) 0 = x
    ∧ s.length = 22 + 1 + da.length + 1 + db.length + 1 + dc.length + 1 + r.length
    ∧ find_char s 40 0 = some 22
    ∧ find_str s (bytes "Inno Setup") ≠ none := by
  have hPlen : (bytes "Inno Setup Setup Data (").length = 22 + 1 := by decide
  have hmk : bytes "Inno Setup" = [73, 110, 110, 111, 32, 83, 101, 116, 117, 112] := by decide
  have la : 0 < da.length := List.length_pos.mpr hda
  have lb : 0 < db.length := List.length_pos.mpr hdb
  have lc : 0 < dc.length := List.length_pos.mpr hdc
  have run1 := digit_run (bytes "Inno Setup Setup Data (") da 46
    (db ++ 46 :: (dc ++ x :: r)) (22 + 1) hPlen hda2 (by decide)
  have run2 := digit_run (bytes "Inno Setup Setup Data (" ++ (da ++ [46])) db 46
    (dc ++ x :: r) (22 + 1 + da.length + 1) (by simp [hPlen]; omega) hdb2 (by decide)
  have run3 := digit_run (bytes "Inno Setup Setup Data (" ++ (da ++ 46 :: (db ++ [46]))) dc x
    r (22 + 1 + da.length + 1 + db.length + 1) (by simp [hPlen]; omega) hdc2 hx
  have e2 : (bytes "Inno Setup Setup Data (" ++ (da ++ [46])) ++ (db ++ 46 :: (dc ++ x :: r))
      = s := by rw [hs]; simp
  have e3 : (bytes "Inno Setup Setup Data (" ++ (da ++ 46 :: (db ++ [46]))) ++ (dc ++ x :: r)
      = s := by rw [hs]; simp
  rw [e2] at run2
  rw [e3] at run3
  rw [← hs] at run1
  have hslen : s.length
      = 22 + 1 + da.length + 1 + db.length + 1 + dc.length + 1 + r.length := by
    rw [hs]; simp [hPlen]; omega
  have hmark : find_str s (bytes "Inno Setup") ≠ none := by
    intro h
    apply (find_sub_eq_none_iff _ _ 0).mp h
    refine ⟨[], [32, 83, 101, 116, 117, 112, 32, 68, 97, 116, 97, 32, 40]
      ++ (da ++ 46 :: (db ++ 46 :: (dc ++ x :: r))), ?_⟩
    rw [hs, signature_head, hmk]
    simp
  have hbr : find_char s 40 0 = some 22 := by
    have := find_at_append (fun x => x == 40)
      [73, 110, 110, 111, 32, 83, 101, 116, 117, 112, 32, 83, 101, 116, 117, 112, 32, 68,
        97, 116, 97, 32] 40 (da ++ 46 :: (db ++ 46 :: (dc ++ x :: r)))
      (by decide) (by decide) 0
    rw [find_char, List.drop_zero, hs, signature_head]
    simpa using this
  refine ⟨by omega, run1.1, run1.2.1, ?_, run2.1, run2.2.1, ?_, run3.1, ?_, run3.2.1, hslen,
    hbr, hmark⟩
  · rw [run1.2.2]; exact to_unsigned_digits da hda hda2 hva
  · rw [run2.2.2]; exact to_unsigned_digits db hdb hdb2 hvb
  · rw [run3.2.2]; exact to_unsigned_digits dc hdc hdc2 hvc

/-- The heuristic returns the value of the group at the first `'('` once the
loop body accepts it. -/
theorem heuristic_of_first_group (s : List Nat) (k bracket value : Nat) (self : version)
    (hnz : ∀ c ∈ s, c ≠ 0) (hmark : find_str s (bytes "Inno Setup") ≠ none)
    (hbr : find_char s 40 0 = some bracket) (hlen : 0 < s.length)
    (hgroup : parse_group s bracket = some value) :
    load_heuristic self (s ++ List.replicate k 0)
      = (outcome.returned,
          ⟨value, 32, decide (find_str s (bytes "(u)") ≠ none), false⟩) := by
  have htw := takeWhile_text_padding s k hnz
  have hscan : scan s s.length (find_char s 40 0) = some value := by
    rw [hbr]
    exact scan_found s s.length bracket _ hlen hgroup
  unfold load_heuristic
  simp only [htw, hmark, if_false, hscan]

/-- A 64-byte block that starts with `'I'` and on which the heuristic finds
`value` resolves to `value`, whether or not it is a row of the catalog. -/
theorem load_value_of_heuristic (block : List Nat) (self : version) (rest : List Nat)
    (value : Nat) (hlen : block.length = 64) (hfirst : block.getD 0 0 = 73)
    (hheur : ∀ w : version, ∃ u, load_heuristic w block
      = (outcome.returned, ⟨value, 32, u, false⟩)) :
    (self.load (block ++ rest)).1 = outcome.returned
    ∧ (self.load (block ++ rest)).2.1.value = value
    ∧ (self.load (block ++ rest)).2.1.bits = 32
    ∧ (self.load (block ++ rest)).2.2 = rest := by
  have hleg : ¬ (block.getD 0 0 = 105 ∧ block.getD 11 0 = 26) := by
    rw [hfirst]; simp
  rw [load_eq_modern self block rest hlen hleg]
  unfold load_modern
  cases hfind : versions.find? (fun e => e.name == block) with
  | none =>
    obtain ⟨u, hu⟩ := hheur self
    simp only [hu, and_self]
  | some e =>
    have hmem : e ∈ versions := List.mem_of_find?_eq_some hfind
    have hname : e.name = block := by
      have := List.find?_some hfind
      simpa using this
    have hrow := heuristic_on_rows e hmem (by rw [hname]; exact hfirst)
    obtain ⟨u, hu⟩ := hheur ⟨0, 0, false, false⟩
    rw [hname, hu] at hrow
    have hv : e.version = value := by
      have := congrArg (fun r => r.2.value) hrow
      exact this.symm
    simp only [hv, and_self]

/-- The heuristic on `Inno Setup Setup Data (A.B.C.D)` for runs of digits
that fit 32 bits, padded with `k` NUL bytes: the value is `(A, B, C, D)`. -/
theorem heuristic_on_four (da db dc dd : List Nat) (self : version) (k : Nat)
    (hda : da ≠ []) (hda2 : da.all is_digit = true) (hva : digits_value da < 2 ^ 32)
    (hdb : db ≠ []) (hdb2 : db.all is_digit = true) (hvb : digits_value db < 2 ^ 32)
    (hdc : dc ≠ []) (hdc2 : dc.all is_digit = true) (hvc : digits_value dc < 2 ^ 32)
    (hdd : dd ≠ []) (hdd2 : dd.all is_digit = true) (hvd : digits_value dd < 2 ^ 32) :
    ∃ u, load_heuristic self
        ((bytes "Inno Setup Setup Data ("
            ++ (da ++ 46 :: (db ++ 46 :: (dc ++ 46 :: (dd ++ [41])))))
          ++ List.replicate k 0)
      = (outcome.returned,
          ⟨INNO_VERSION_EXT (digits_value da) (digits_value db) (digits_value dc)
            (digits_value dd), 32, u, false⟩) := by
  obtain ⟨s, hs⟩ : ∃ s, s = bytes "Inno Setup Setup Data ("
      ++ (da ++ 46 :: (db ++ 46 :: (dc ++ 46 :: (dd ++ [41])))) := ⟨_, rfl⟩
  rw [← hs]
  obtain ⟨f0, f1, f2, f3, f4, f5, f6, f7, f8, f9, flen, fbr, fmark⟩ :=
    signature_runs da db dc 46 (dd ++ [41]) hda hda2 hva hdb hdb2 hvb hdc hdc2 hvc
      (by decide) s hs
  have ld : 0 < dd.length := List.length_pos.mpr hdd
  have hPlen : (bytes "Inno Setup Setup Data (").length = 22 + 1 := by decide
  have run4 := digit_run
    (bytes "Inno Setup Setup Data (" ++ (da ++ 46 :: (db ++ 46 :: (dc ++ [46])))) dd 41 []
    (22 + 1 + da.length + 1 + db.length + 1 + dc.length + 1) (by simp [hPlen]; omega) hdd2
    (by decide)
  have e4 : (bytes "Inno Setup Setup Data (" ++ (da ++ 46 :: (db ++ 46 :: (dc ++ [46]))))
      ++ (dd ++ [41]) = s := by rw [hs]; simp
  rw [e4] at run4
  have hnz : ∀ c ∈ s, c ≠ 0 := by
    intro c hc
    rw [hs, signature_head] at hc
    simp only [List.mem_append, List.mem_cons, List.mem_nil_iff, or_false] at hc
    have ba := digit_bounds da hda2
    have bb := digit_bounds db hdb2
    have bc := digit_bounds dc hdc2
    have bd := digit_bounds dd hdd2
    rcases hc with h | h | h | h | h | h | h | h | h
    · simp at h; omega
    · have := ba c h; omega
    · omega
    · have := bb c h; omega
    · omega
    · have := bc c h; omega
    · omega
    · have := bd c h; omega
    · omega
  have hgroup := parse_group_four s 22 _ _ _ _ _ _ _ _ f0 f1 f2 f3 f4 f5 f6 f7 f8 f9 run4.1
    (by omega) (by rw [run4.2.2]; exact to_unsigned_digits dd hdd hdd2 hvd)
  exact ⟨_, heuristic_of_first_group s k 22 _ self hnz fmark fbr (by omega) hgroup⟩

/-- The heuristic on `Inno Setup Setup Data (A.B.Ca)`: the value is
`(A, B, C, 0)`. -/
theorem heuristic_on_a (da db dc : List Nat) (self : version) (k : Nat)
    (hda : da ≠ []) (hda2 : da.all is_digit = true) (hva : digits_value da < 2 ^ 32)
    (hdb : db ≠ []) (hdb2 : db.all is_digit = true) (hvb : digits_value db < 2 ^ 32)
    (hdc : dc ≠ []) (hdc2 : dc.all is_digit = true) (hvc : digits_value dc < 2 ^ 32) :
    ∃ u, load_heuristic self
        ((bytes "Inno Setup Setup Data (" ++ (da ++ 46 :: (db ++ 46 :: (dc ++ [97, 41]))))
          ++ List.replicate k 0)
      = (outcome.returned,
          ⟨INNO_VERSION_EXT (digits_value da) (digits_value db) (digits_value dc) 0, 32, u,
            false⟩) := by
  obtain ⟨s, hs⟩ : ∃ s, s = bytes "Inno Setup Setup Data ("
      ++ (da ++ 46 :: (db ++ 46 :: (dc ++ [97, 41]))) := ⟨_, rfl⟩
  rw [← hs]
  obtain ⟨f0, f1, f2, f3, f4, f5, f6, f7, f8, f9, flen, fbr, fmark⟩ :=
    signature_runs da db dc 97 [41] hda hda2 hva hdb hdb2 hvb hdc hdc2 hvc
      (by decide) s hs
  have hPlen : (bytes "Inno Setup Setup Data (").length = 22 + 1 := by decide
  have hnext : s.getD (22 + 1 + da.length + 1 + db.length + 1 + dc.length + 1) 0 = 41 := by
    have e : (bytes "Inno Setup Setup Data (" ++ (da ++ 46 :: (db ++ 46 :: (dc ++ [97]))))
        ++ 41 :: [] = s := by rw [hs]; simp
    rw [← e]
    exact getD_append_cons _ 41 [] _ (by simp [hPlen]; omega)
  have hnz : ∀ c ∈ s, c ≠ 0 := by
    intro c hc
    rw [hs, signature_head] at hc
    simp only [List.mem_append, List.mem_cons, List.mem_nil_iff, or_false] at hc
    have ba := digit_bounds da hda2
    have bb := digit_bounds db hdb2
    have bc := digit_bounds dc hdc2
    rcases hc with h | h | h | h | h | h | h | h
    · simp at h; omega
    · have := ba c h; omega
    · omega
    · have := bb c h; omega
    · omega
    · have := bc c h; omega
    · omega
    · omega
  simp only [List.length_cons, List.length_nil] at flen
  have hgroup := parse_group_a s 22 _ _ _ _ _ _ f0 f1 f2 f3 f4 f5 f6 f7 f8 f9
    (by omega) (by rw [hnext]; decide)
  exact ⟨_, heuristic_of_first_group s k 22 _ self hnz fmark fbr (by omega) hgroup⟩

/-- The heuristic on `Inno Setup Setup Data (A.B.Ca.D)`: the value is
`(A, B, C, D)`. -/
theorem heuristic_on_a_four (da db dc dd : List Nat) (self : version) (k : Nat)
    (hda : da ≠ []) (hda2 : da.all is_digit = true) (hva : digits_value da < 2 ^ 32)
    (hdb : db ≠ []) (hdb2 : db.all is_digit = true) (hvb : digits_value db < 2 ^ 32)
    (hdc : dc ≠ []) (hdc2 : dc.all is_digit = true) (hvc : digits_value dc < 2 ^ 32)
    (hdd : dd ≠ []) (hdd2 : dd.all is_digit = true) (hvd : digits_value dd < 2 ^ 32) :
    ∃ u, load_heuristic self
        ((bytes "Inno Setup Setup Data ("
            ++ (da ++ 46 :: (db ++ 46 :: (dc ++ 97 :: 46 :: (dd ++ [41])))))
          ++ List.replicate k 0)
      = (outcome.returned,
          ⟨INNO_VERSION_EXT (digits_value da) (digits_value db) (digits_value dc)
            (digits_value dd), 32, u, false⟩) := by
  obtain ⟨s, hs⟩ : ∃ s, s = bytes "Inno Setup Setup Data ("
      ++ (da ++ 46 :: (db ++ 46 :: (dc ++ 97 :: 46 :: (dd ++ [41])))) := ⟨_, rfl⟩
  rw [← hs]
  obtain ⟨f0, f1, f2, f3, f4, f5, f6, f7, f8, f9, flen, fbr, fmark⟩ :=
    signature_runs da db dc 97 (46 :: (dd ++ [41])) hda hda2 hva hdb hdb2 hvb hdc hdc2 hvc
      (by decide) s hs
  have ld : 0 < dd.length := List.length_pos.mpr hdd
  have hPlen : (bytes "Inno Setup Setup Data (").length = 22 + 1 := by decide
  have hnext : s.getD (22 + 1 + da.length + 1 + db.length + 1 + dc.length + 1) 0 = 46 := by
    have e : (bytes "Inno Setup Setup Data (" ++ (da ++ 46 :: (db ++ 46 :: (dc ++ [97]))))
        ++ 46 :: (dd ++ [41]) = s := by rw [hs]; simp
    rw [← e]
    exact getD_append_cons _ 46 _ _ (by simp [hPlen]; omega)
  have run4 := digit_run
    (bytes "Inno Setup Setup Data (" ++ (da ++ 46 :: (db ++ 46 :: (dc ++ [97, 46])))) dd 41 []
    (22 + 1 + da.length + 1 + db.length + 1 + dc.length + 1 + 1) (by simp [hPlen]; omega)
    hdd2 (by decide)
  have e4 : (bytes "Inno Setup Setup Data (" ++ (da ++ 46 :: (db ++ 46 :: (dc ++ [97, 46]))))
      ++ (dd ++ [41]) = s := by rw [hs]; simp
  rw [e4] at run4
  have hnz : ∀ c ∈ s, c ≠ 0 := by
    intro c hc
    rw [hs, signature_head] at hc
    simp only [List.mem_append, List.mem_cons, List.mem_nil_iff, or_false] at hc
    have ba := digit_bounds da hda2
    have bb := digit_bounds db hdb2
    have bc := digit_bounds dc hdc2
    have bd := digit_bounds dd hdd2
    rcases hc with h | h | h | h | h | h | h | h | h | h
    · simp at h; omega
    · have := ba c h; omega
    · omega
    · have := bb c h; omega
    · omega
    · have := bc c h; omega
    · omega
    · omega
    · have := bd c h; omega
    · omega
  simp only [List.length_cons, List.length_append, List.length_nil] at flen
  have hgroup := parse_group_a_four s 22 _ _ _ _ _ _ _ _ f0 f1 f2 f3 f4 f5 f6 f7 f8 f9
    (by omega) hnext run4.1 (by omega)
    (by rw [run4.2.2]; exact to_unsigned_digits dd hdd hdd2 hvd)
  exact ⟨_, heuristic_of_first_group s k 22 _ self hnz fmark fbr (by omega) hgroup⟩

theorem signature_text_with_block (a b c : Nat) (tail : List Nat)
    (ha : a < 256) (hb : b < 256) (hc : c < 256) (ht : tail.length ≤ 6) :
    (pad64 (signature_text_with a b c tail)).length = 64
    ∧ (pad64 (signature_text_with a b c tail)).getD 0 0 = 73 := by
  obtain ⟨-, -, -, la⟩ := decimal_facts ⟨a, ha⟩
  obtain ⟨-, -, -, lb⟩ := decimal_facts ⟨b, hb⟩
  obtain ⟨-, -, -, lc⟩ := decimal_facts ⟨c, hc⟩
  simp only at la lb lc
  have hPlen : (bytes "Inno Setup Setup Data (").length = 23 := by decide
  constructor
  · simp only [pad64, signature_text_with, List.length_append, List.length_cons,
      List.length_replicate, hPlen]
    omega
  · simp [pad64, signature_text_with, signature_head]

/-- A search finds the first element that satisfies `p`: when the element at
offset `n` of the list does, the search succeeds at or before it. -/
theorem find_at_exists (p : Nat → Bool) :
    ∀ (l : List Nat) (i n : Nat), n < l.length → p (l.getD n 0) = true →
      ∃ k, find_at p l i = some k ∧ k ≤ i + n := by
  intro l
  induction l with
  | nil => intro i n h; simp at h
  | cons c rest ih =>
    intro i n hn hp
    rw [find_at]
    by_cases hc : p c = true
    · rw [if_pos hc]
      exact ⟨i, rfl, by omega⟩
    · rw [if_neg hc]
      cases n with
      | zero => exact absurd hp hc
      | succ m =>
        have hm : m < rest.length := by simpa using hn
        obtain ⟨k, hk, hle⟩ := ih (i + 1) m hm (by simpa using hp)
        exact ⟨k, hk, by omega⟩

/-- The call `find(c, pos)` succeeds at or before any index from `pos` on
that holds `c`. -/
theorem find_char_exists (s : List Nat) (c pos j : Nat) (hpos : pos ≤ j) (hj : j < s.length)
    (hc : s.getD j 0 = c) : ∃ k, find_char s c pos = some k ∧ pos ≤ k ∧ k ≤ j := by
  have hlen : j - pos < (s.drop pos).length := by
    rw [List.length_drop]
    omega
  have hget : (s.drop pos).getD (j - pos) 0 = s.getD j 0 := by
    rw [List.getD_eq_getElem _ _ hlen, List.getD_eq_getElem _ _ hj, List.getElem_drop]
    congr 1
    omega
  obtain ⟨k, hk, hle⟩ := find_at_exists (fun x => x == c) (s.drop pos) pos (j - pos) hlen
    (by rw [hget, hc]; simp)
  exact ⟨k, hk, (find_char_bounds s c pos k hk).1, by omega⟩

/-- The scanning loop from `pos` on returns the value of the first `'('`
whose group the body accepts: the brackets before it are passed over. -/
theorem scan_first_accepted (s : List Nat) (j value : Nat) (hj : j < s.length)
    (hbr : s.getD j 0 = 40) (hp : parse_group s j = some value) :
    ∀ (fuel pos : Nat), pos ≤ j →
      (∀ i, pos ≤ i → i < j → s.getD i 0 = 40 → parse_group s i = none) →
      s.length - pos ≤ fuel → scan s fuel (find_char s 40 pos) = some value := by
  intro fuel
  induction fuel with
  | zero => intro pos hpos _ hf; omega
  | succ fuel ih =>
    intro pos hpos hfail hf
    obtain ⟨k, hk, hk1, hk2⟩ := find_char_exists s 40 pos j hpos hj hbr
    rw [hk, scan]
    by_cases hkj : k = j
    · rw [hkj, hp]
    · have hklt : k < j := by omega
      rw [hfail k hk1 hklt (find_char_getD s 40 pos k hk)]
      exact ih (k + 1) (by omega) (fun i hi1 hi2 => hfail i (by omega) hi2) (by omega)

/-- A 64-byte block that is neither a legacy signature nor a row of the
catalog, whose text contains `Inno Setup`, resolves to the value of the first
`'('` of the text whose group the body accepts. -/
theorem load_first_accepted (block : List Nat) (self : version) (rest : List Nat)
    (j value : Nat) (hlen : block.length = 64)
    (hleg : ¬ (block.getD 0 0 = 105 ∧ block.getD 11 0 = 26))
    (hrow : ∀ e ∈ versions, e.name ≠ block)
    (hmark : find_str (block.takeWhile (fun c => c != 0)) (bytes "Inno Setup") ≠ none)
    (hj : j < (block.takeWhile (fun c => c != 0)).length)
    (hbr : (block.takeWhile (fun c => c != 0)).getD j 0 = 40)
    (hp : parse_group (block.takeWhile (fun c => c != 0)) j = some value)
    (hfail : ∀ i, i < j → (block.takeWhile (fun c => c != 0)).getD i 0 = 40 →
      parse_group (block.takeWhile (fun c => c != 0)) i = none) :
    self.load (block ++ rest)
      = (outcome.returned,
          ⟨value, 32,
            decide (find_str (block.takeWhile (fun c => c != 0)) (bytes "(u)") ≠ none),
            false⟩,
          rest) := by
  rw [load_eq_modern self block rest hlen hleg]
  have hscan := scan_first_accepted _ j value hj hbr hp
    (block.takeWhile (fun c => c != 0)).length 0 (Nat.zero_le _)
    (fun i _ hi => hfail i hi) (by omega)
  unfold load_modern
  rw [versions_find_none block hrow]
  unfold load_heuristic
  simp only [hmark, if_false, hscan]

/-- C12: for all `a`, `b`, `c`, `d` in 0..255 the NUL-padded texts
`Inno Setup Setup Data (a.b.c.d)`, `(a.b.ca)` and `(a.b.ca.d)` make `load`
return with the values `(a, b, c, d)`, `(a, b, c, 0)` and `(a, b, c, d)`; on
`Inno Setup (x86) Data (6.1.2)`, where the body rejects the first group
`(x86)`, the later group gives 6.1.2; and in general, for every 64-byte block
that is neither a legacy signature nor a row of the catalog and whose text
contains `Inno Setup`, when the body accepts the group of the `'('` at index
`j` and rejects the group of every `'('` before it, `load` returns with the
value of the group at `j`. -/
theorem load_signature_variants (a b c d : Nat) (self : version) (rest : List Nat)
    (ha : a < 256) (hb : b < 256) (hc : c < 256) (hd : d < 256) :
    ((self.load (pad64 (signature_text_with a b c (46 :: (decimal d ++ [41]))) ++ rest)).1
        = outcome.returned
      ∧ (self.load (pad64 (signature_text_with a b c (46 :: (decimal d ++ [41]))) ++ rest)
          ).2.1.value = INNO_VERSION_EXT a b c d)
    ∧ ((self.load (pad64 (signature_text_with a b c [97, 41]) ++ rest)).1 = outcome.returned
      ∧ (self.load (pad64 (signature_text_with a b c [97, 41]) ++ rest)).2.1.value
          = INNO_VERSION_EXT a b c 0)
    ∧ ((self.load (pad64 (signature_text_with a b c (97 :: 46 :: (decimal d ++ [41])))
          ++ rest)).1 = outcome.returned
      ∧ (self.load (pad64 (signature_text_with a b c (97 :: 46 :: (decimal d ++ [41])))
          ++ rest)).2.1.value = INNO_VERSION_EXT a b c d)
    ∧ parse_group (bytes "Inno Setup (x86) Data (6.1.2)") 11 = none
    ∧ self.load (char_array 64 "Inno Setup (x86) Data (6.1.2)" ++ rest)
        = (outcome.returned, ⟨INNO_VERSION 6 1 2, 32, false, false⟩, rest)
    ∧ (∀ (block : List Nat) (j value : Nat), block.length = 64 →
        ¬ (block.getD 0 0 = 105 ∧ block.getD 11 0 = 26) →
        (∀ e ∈ versions, e.name ≠ block) →
        find_str (block.takeWhile (fun c => c != 0)) (bytes "Inno Setup") ≠ none →
        j < (block.takeWhile (fun c => c != 0)).length →
        (block.takeWhile (fun c => c != 0)).getD j 0 = 40 →
        parse_group (block.takeWhile (fun c => c != 0)) j = some value →
        (∀ i, i < j → (block.takeWhile (fun c => c != 0)).getD i 0 = 40 →
          parse_group (block.takeWhile (fun c => c != 0)) i = none) →
        self.load (block ++ rest)
          = (outcome.returned,
              ⟨value, 32,
                decide (find_str (block.takeWhile (fun c => c != 0)) (bytes "(u)") ≠ none),
                false⟩,
              rest)) := by
  obtain ⟨na, da2, va, la⟩ := decimal_facts ⟨a, ha⟩
  obtain ⟨nb, db2, vb, lb⟩ := decimal_facts ⟨b, hb⟩
  obtain ⟨nc, dc2, vc, lc⟩ := decimal_facts ⟨c, hc⟩
  obtain ⟨nd, dd2, vd, ld⟩ := decimal_facts ⟨d, hd⟩
  simp only at na da2 va la nb db2 vb lb nc dc2 vc lc nd dd2 vd ld
  refine ⟨?_, ?_, ?_, by decide!, ?_,
    fun block j value h1 h2 h3 h4 h5 h6 h7 h8 =>
      load_first_accepted block self rest j value h1 h2 h3 h4 h5 h6 h7 h8⟩
  · obtain ⟨hlen, hfirst⟩ := signature_text_with_block a b c (46 :: (decimal d ++ [41]))
      ha hb hc (by simp; omega)
    have hh : ∀ w : version, ∃ u, load_heuristic w
        (pad64 (signature_text_with a b c (46 :: (decimal d ++ [41]))))
        = (outcome.returned, ⟨INNO_VERSION_EXT a b c d, 32, u, false⟩) := by
      intro w
      have h := heuristic_on_four (decimal a) (decimal b) (decimal c) (decimal d) w
        (64 - (signature_text_with a b c (46 :: (decimal d ++ [41]))).length)
        na da2 (by omega) nb db2 (by omega) nc dc2 (by omega) nd dd2 (by omega)
      rw [va, vb, vc, vd] at h
      exact h
    have := load_value_of_heuristic _ self rest _ hlen hfirst hh
    exact ⟨this.1, this.2.1⟩
  · obtain ⟨hlen, hfirst⟩ := signature_text_with_block a b c [97, 41] ha hb hc (by simp)
    have hh : ∀ w : version, ∃ u, load_heuristic w
        (pad64 (signature_text_with a b c [97, 41]))
        = (outcome.returned, ⟨INNO_VERSION_EXT a b c 0, 32, u, false⟩) := by
      intro w
      have h := heuristic_on_a (decimal a) (decimal b) (decimal c) w
        (64 - (signature_text_with a b c [97, 41]).length)
        na da2 (by omega) nb db2 (by omega) nc dc2 (by omega)
      rw [va, vb, vc] at h
      exact h
    have := load_value_of_heuristic _ self rest _ hlen hfirst hh
    exact ⟨this.1, this.2.1⟩
  · obtain ⟨hlen, hfirst⟩ := signature_text_with_block a b c
      (97 :: 46 :: (decimal d ++ [41])) ha hb hc (by simp; omega)
    have hh : ∀ w : version, ∃ u, load_heuristic w
        (pad64 (signature_text_with a b c (97 :: 46 :: (decimal d ++ [41]))))
        = (outcome.returned, ⟨INNO_VERSION_EXT a b c d, 32, u, false⟩) := by
      intro w
      have h := heuristic_on_a_four (decimal a) (decimal b) (decimal c) (decimal d) w
        (64 - (signature_text_with a b c (97 :: 46 :: (decimal d ++ [41]))).length)
        na da2 (by omega) nb db2 (by omega) nc dc2 (by omega) nd dd2 (by omega)
      rw [va, vb, vc, vd] at h
      exact h
    have := load_value_of_heuristic _ self rest _ hlen hfirst hh
    exact ⟨this.1, this.2.1⟩
  · have hl : (char_array 64 "Inno Setup (x86) Data (6.1.2)").length = 64 := by decide
    have hg : ¬ ((char_array 64 "Inno Setup (x86) Data (6.1.2)").getD 0 0 = 105
        ∧ (char_array 64 "Inno Setup (x86) Data (6.1.2)").getD 11 0 = 26) := by decide
    rw [load_eq_modern self _ rest hl hg]
    have hm : ∀ w : version, load_modern w (char_array 64 "Inno Setup (x86) Data (6.1.2)")
        = (outcome.returned, ⟨INNO_VERSION 6 1 2, 32, false, false⟩) := by
      intro w
      have hnone : versions.find?
          (fun e => e.name == char_array 64 "Inno Setup (x86) Data (6.1.2)") = none := by
        decide!
      have hmk : find_str ((char_array 64 "Inno Setup (x86) Data (6.1.2)").takeWhile
          (fun c => c != 0)) (bytes "Inno Setup") ≠ none := by decide!
      have hsc : scan ((char_array 64 "Inno Setup (x86) Data (6.1.2)").takeWhile
            (fun c => c != 0))
          ((char_array 64 "Inno Setup (x86) Data (6.1.2)").takeWhile (fun c => c != 0)).length
          (find_char ((char_array 64 "Inno Setup (x86) Data (6.1.2)").takeWhile
            (fun c => c != 0)) 40 0)
          = some (INNO_VERSION 6 1 2) := by decide!
      have hu : decide (find_str ((char_array 64 "Inno Setup (x86) Data (6.1.2)").takeWhile
          (fun c => c != 0)) (bytes "(u)") ≠ none) = false := by decide!
      simp only [load_modern, load_heuristic, hnone, hmk, hsc, hu, if_false]
    rw [hm]

/-- C12 at the text `Inno Setup Setup Data (3.0.6.1)` and its variants with
`a`, and the general clause at `Inno Setup (x86) (u) Data (6.1.2)`, where the
body rejects the groups `(x86)` and `(u)` and accepts the `'('` at index
26. -/
theorem load_signature_variants_witness :
    ((version.load ⟨0, 0, false, false⟩
          (pad64 (signature_text_with 3 0 6 (46 :: (decimal 1 ++ [41]))) ++ [7])).1
        = outcome.returned
      ∧ (version.load ⟨0, 0, false, false⟩
          (pad64 (signature_text_with 3 0 6 (46 :: (decimal 1 ++ [41]))) ++ [7])
          ).2.1.value = INNO_VERSION_EXT 3 0 6 1)
    ∧ ((version.load ⟨0, 0, false, false⟩
          (pad64 (signature_text_with 3 0 6 [97, 41]) ++ [7])).1 = outcome.returned
      ∧ (version.load ⟨0, 0, false, false⟩
          (pad64 (signature_text_with 3 0 6 [97, 41]) ++ [7])).2.1.value
          = INNO_VERSION_EXT 3 0 6 0)
    ∧ ((version.load ⟨0, 0, false, false⟩
          (pad64 (signature_text_with 3 0 6 (97 :: 46 :: (decimal 1 ++ [41]))) ++ [7])).1
        = outcome.returned
      ∧ (version.load ⟨0, 0, false, false⟩
          (pad64 (signature_text_with 3 0 6 (97 :: 46 :: (decimal 1 ++ [41]))) ++ [7])
          ).2.1.value = INNO_VERSION_EXT 3 0 6 1)
    ∧ parse_group (bytes "Inno Setup (x86) Data (6.1.2)") 11 = none
    ∧ version.load ⟨0, 0, false, false⟩
        (char_array 64 "Inno Setup (x86) Data (6.1.2)" ++ [7])
        = (outcome.returned, ⟨INNO_VERSION 6 1 2, 32, false, false⟩, [7])
    ∧ version.load ⟨0, 0, false, false⟩
        (char_array 64 "Inno Setup (x86) (u) Data (6.1.2)" ++ [7])
        = (outcome.returned,
            ⟨INNO_VERSION 6 1 2, 32,
              decide (find_str
                ((char_array 64 "Inno Setup (x86) (u) Data (6.1.2)").takeWhile
                  (fun c => c != 0)) (bytes "(u)") ≠ none),
              false⟩,
            [7])
    ∧ decide (find_str
        ((char_array 64 "Inno Setup (x86) (u) Data (6.1.2)").takeWhile (fun c => c != 0))
        (bytes "(u)") ≠ none) = true :=
  ⟨(load_signature_variants 3 0 6 1 ⟨0, 0, false, false⟩ [7]
      (by decide) (by decide) (by decide) (by decide)).1,
    (load_signature_variants 3 0 6 1 ⟨0, 0, false, false⟩ [7]
      (by decide) (by decide) (by decide) (by decide)).2.1,
    (load_signature_variants 3 0 6 1 ⟨0, 0, false, false⟩ [7]
      (by decide) (by decide) (by decide) (by decide)).2.2.1,
    (load_signature_variants 3 0 6 1 ⟨0, 0, false, false⟩ [7]
      (by decide) (by decide) (by decide) (by decide)).2.2.2.1,
    (load_signature_variants 3 0 6 1 ⟨0, 0, false, false⟩ [7]
      (by decide) (by decide) (by decide) (by decide)).2.2.2.2.1,
    (load_signature_variants 3 0 6 1 ⟨0, 0, false, false⟩ [7]
      (by decide) (by decide) (by decide) (by decide)).2.2.2.2.2
      (char_array 64 "Inno Setup (x86) (u) Data (6.1.2)") 26 (INNO_VERSION 6 1 2)
      (by decide) (by decide) (by decide!) (by decide!) (by decide!) (by decide!)
      (by decide!) (by decide!),
    by decide!⟩

/-! ## The version thresholds of the record decoders -/

theorem inno_1_3_21 : INNO_VERSION 1 3 21 = 16979200 := by decide

theorem inno_2_0_0 : INNO_VERSION 2 0 0 = 33554432 := by decide

theorem inno_2_0_1 : INNO_VERSION 2 0 1 = 33554688 := by decide

theorem inno_2_0_6 : INNO_VERSION 2 0 6 = 33555968 := by decide

theorem inno_2_0_7 : INNO_VERSION 2 0 7 = 33556224 := by decide

theorem inno_2_0_17 : INNO_VERSION 2 0 17 = 33558784 := by decide

theorem inno_2_0_18 : INNO_VERSION 2 0 18 = 33559040 := by decide

theorem inno_3_0_0 : INNO_VERSION 3 0 0 = 50331648 := by decide

theorem inno_3_0_1 : INNO_VERSION 3 0 1 = 50331904 := by decide

theorem inno_3_0_3 : INNO_VERSION 3 0 3 = 50332416 := by decide

theorem inno_3_0_4 : INNO_VERSION 3 0 4 = 50332672 := by decide

theorem inno_3_0_6_1 : INNO_VERSION_EXT 3 0 6 1 = 50333185 := by decide

theorem inno_4_0_0 : INNO_VERSION 4 0 0 = 67108864 := by decide

theorem inno_4_0_1 : INNO_VERSION 4 0 1 = 67109120 := by decide

theorem inno_4_0_9 : INNO_VERSION 4 0 9 = 67111168 := by decide

theorem inno_4_0_10 : INNO_VERSION 4 0 10 = 67111424 := by decide

theorem inno_4_0_11 : INNO_VERSION 4 0 11 = 67111680 := by decide

theorem inno_4_1_0 : INNO_VERSION 4 1 0 = 67174400 := by decide

theorem inno_4_1_2 : INNO_VERSION 4 1 2 = 67174912 := by decide

theorem inno_4_1_3 : INNO_VERSION 4 1 3 = 67175168 := by decide

theorem inno_4_1_5 : INNO_VERSION 4 1 5 = 67175680 := by decide

theorem inno_4_1_8 : INNO_VERSION 4 1 8 = 67176448 := by decide

theorem inno_4_2_0 : INNO_VERSION 4 2 0 = 67239936 := by decide

theorem inno_4_2_1 : INNO_VERSION 4 2 1 = 67240192 := by decide

theorem inno_4_2_2 : INNO_VERSION 4 2 2 = 67240448 := by decide

theorem inno_4_2_4 : INNO_VERSION 4 2 4 = 67240960 := by decide

theorem inno_4_2_5 : INNO_VERSION 4 2 5 = 67241216 := by decide

theorem inno_4_2_6 : INNO_VERSION 4 2 6 = 67241472 := by decide

theorem inno_5_0_0 : INNO_VERSION 5 0 0 = 83886080 := by decide

theorem inno_5_0_4 : INNO_VERSION 5 0 4 = 83887104 := by decide

theorem inno_5_1_0 : INNO_VERSION 5 1 0 = 83951616 := by decide

theorem inno_5_1_7 : INNO_VERSION 5 1 7 = 83953408 := by decide

theorem inno_5_1_13 : INNO_VERSION 5 1 13 = 83954944 := by decide

theorem inno_5_2_1 : INNO_VERSION 5 2 1 = 84017408 := by decide

theorem inno_5_2_5 : INNO_VERSION 5 2 5 = 84018432 := by decide

theorem inno_5_3_3 : INNO_VERSION 5 3 3 = 84083456 := by decide

theorem inno_5_3_6 : INNO_VERSION 5 3 6 = 84084224 := by decide

theorem inno_5_3_7 : INNO_VERSION 5 3 7 = 84084480 := by decide

theorem inno_5_3_8 : INNO_VERSION 5 3 8 = 84084736 := by decide

theorem inno_5_3_9 : INNO_VERSION 5 3 9 = 84084992 := by decide

theorem inno_5_3_10 : INNO_VERSION 5 3 10 = 84085248 := by decide

theorem inno_5_5_0 : INNO_VERSION 5 5 0 = 84213760 := by decide

theorem inno_5_5_0_1 : INNO_VERSION_EXT 5 5 0 1 = 84213761 := by decide

/-! ## Running a sequence of statements -/

theorem run_append {F O : Type} [DecidableEq F] [DecidableEq O] (ext : externals)
    (v : version) (a b : List (step F O)) :
    ∀ (r : record F O) (is : List Nat),
      run ext v (a ++ b) r is
        = match run ext v a r is with
          | none => none
          | some (r1, is1) => run ext v b r1 is1 := by
  induction a with
  | nil => intro r is; rfl
  | cons s rest ih =>
    intro r is
    simp only [List.cons_append, run]
    cases exec ext v s r is with
    | none => rfl
    | some p => exact ih p.1 p.2

theorem assign_field_same {F O : Type} [DecidableEq F] (r : record F O) (f : F) (x : value) :
    (r.assign f x).field f = x := by
  simp [record.assign]

theorem assign_field_ne {F O : Type} [DecidableEq F] (r : record F O) (f g : F) (x : value)
    (h : g ≠ f) : (r.assign f x).field g = r.field g := by
  simp [record.assign, h]

/-- A statement that does not assign the member `f` leaves it as it is. -/
theorem exec_field_of_ne {F O : Type} [DecidableEq F] [DecidableEq O] (ext : externals)
    (v : version) (f : F) (s : step F O) (r r1 : record F O) (is is1 : List Nat)
    (ht : s.target ≠ some f) (h : exec ext v s r is = some (r1, is1)) :
    r1.field f = r.field f := by
  cases s <;> simp only [exec] at h <;> simp only [step.target, ne_eq, Option.some.injEq,
    not_false_eq_true] at ht
  case clear_options =>
    obtain ⟨rfl, -⟩ := Prod.mk.inj (Option.some.inj h); rfl
  case discard n =>
    cases hr : read n is with
    | none => simp [hr] at h
    | some p => simp only [hr] at h; obtain ⟨rfl, -⟩ := Prod.mk.inj (Option.some.inj h); rfl
  case load_string k g =>
    cases hr : load_string is with
    | none => simp [hr] at h
    | some p =>
      simp only [hr] at h; obtain ⟨rfl, -⟩ := Prod.mk.inj (Option.some.inj h)
      exact assign_field_ne r g f _ (fun e => ht e.symm)
  case clear g =>
    obtain ⟨rfl, -⟩ := Prod.mk.inj (Option.some.inj h)
    exact assign_field_ne r g f _ (fun e => ht e.symm)
  case load_number g n sg =>
    cases hr : load_number n sg is with
    | none => simp [hr] at h
    | some p =>
      simp only [hr] at h; obtain ⟨rfl, -⟩ := Prod.mk.inj (Option.some.inj h)
      exact assign_field_ne r g f _ (fun e => ht e.symm)
  case assign g x =>
    obtain ⟨rfl, -⟩ := Prod.mk.inj (Option.some.inj h)
    exact assign_field_ne r g f _ (fun e => ht e.symm)
  case read_buffer g n =>
    cases hr : read n is with
    | none => simp [hr] at h
    | some p =>
      simp only [hr] at h; obtain ⟨rfl, -⟩ := Prod.mk.inj (Option.some.inj h)
      exact assign_field_ne r g f _ (fun e => ht e.symm)
  case load_enum g m =>
    cases hr : read 1 is with
    | none => simp [hr] at h
    | some p =>
      simp only [hr] at h; obtain ⟨rfl, -⟩ := Prod.mk.inj (Option.some.inj h)
      exact assign_field_ne r g f _ (fun e => ht e.symm)
  case load_flags g tb =>
    cases hr : read (mask_bytes tb.length) is with
    | none => simp [hr] at h
    | some p =>
      simp only [hr] at h; obtain ⟨rfl, -⟩ := Prod.mk.inj (Option.some.inj h)
      exact assign_field_ne r g f _ (fun e => ht e.symm)
  case option_enum m ch =>
    cases hr : read 1 is with
    | none => simp [hr] at h
    | some p => simp only [hr] at h; obtain ⟨rfl, -⟩ := Prod.mk.inj (Option.some.inj h); rfl
  case flag_reader a =>
    cases hr : read (mask_bytes (registered a).length) is with
    | none => simp [hr] at h
    | some p => simp only [hr] at h; obtain ⟨rfl, -⟩ := Prod.mk.inj (Option.some.inj h); rfl
  case flag_reader_assign a =>
    cases hr : read (mask_bytes (registered a).length) is with
    | none => simp [hr] at h
    | some p => simp only [hr] at h; obtain ⟨rfl, -⟩ := Prod.mk.inj (Option.some.inj h); rfl
  case derive g fl y n =>
    obtain ⟨rfl, -⟩ := Prod.mk.inj (Option.some.inj h)
    exact assign_field_ne r g f _ (fun e => ht e.symm)
  case tail_text g sz =>
    cases hv : r.field sz with
    | num n =>
      simp only [hv] at h
      by_cases hn : 0 < n
      · simp only [hn, if_true] at h
        cases hr : read n.toNat is with
        | none => simp [hr] at h
        | some p =>
          simp only [hr] at h; obtain ⟨rfl, -⟩ := Prod.mk.inj (Option.some.inj h)
          exact assign_field_ne r g f _ (fun e => ht e.symm)
      · simp only [hn, if_false] at h
        obtain ⟨rfl, -⟩ := Prod.mk.inj (Option.some.inj h); rfl
    | str b => simp only [hv] at h; obtain ⟨rfl, -⟩ := Prod.mk.inj (Option.some.inj h); rfl
    | sym b => simp only [hv] at h; obtain ⟨rfl, -⟩ := Prod.mk.inj (Option.some.inj h); rfl
    | set b => simp only [hv] at h; obtain ⟨rfl, -⟩ := Prod.mk.inj (Option.some.inj h); rfl
  case load_external e g =>
    cases hr : ext e v is with
    | none => simp [hr] at h
    | some p =>
      simp only [hr] at h; obtain ⟨rfl, -⟩ := Prod.mk.inj (Option.some.inj h)
      exact assign_field_ne r g f _ (fun e => ht e.symm)
  case load_hive g =>
    cases hr : read 4 is with
    | none => simp [hr] at h
    | some p =>
      simp only [hr] at h; obtain ⟨rfl, -⟩ := Prod.mk.inj (Option.some.inj h)
      exact assign_field_ne r g f _ (fun e => ht e.symm)

/-- A sequence without a statement that assigns `f` leaves `f` as it is. -/
theorem run_field_of_no_target {F O : Type} [DecidableEq F] [DecidableEq O] (ext : externals)
    (v : version) (f : F) :
    ∀ (steps : List (step F O)) (r r1 : record F O) (is is1 : List Nat),
      steps.filter (fun s => decide (s.target = some f)) = [] →
      run ext v steps r is = some (r1, is1) → r1.field f = r.field f := by
  intro steps
  induction steps with
  | nil =>
    intro r r1 is is1 _ h
    obtain ⟨rfl, -⟩ := Prod.mk.inj (Option.some.inj h); rfl
  | cons s rest ih =>
    intro r r1 is is1 hf h
    rw [List.filter_eq_nil_iff] at hf
    have hs : s.target ≠ some f := by
      simpa using hf s (List.mem_cons_self s rest)
    simp only [run] at h
    cases he : exec ext v s r is with
    | none => simp [he] at h
    | some p =>
      simp only [he] at h
      have h1 := exec_field_of_ne ext v f s r p.1 is p.2 hs he
      have h2 := ih p.1 r1 p.2 is1 (List.filter_eq_nil_iff.mpr
        (fun a ha => hf a (List.mem_cons_of_mem s ha))) h
      rw [h2, h1]

/-! ## Readers look only at the bytes they consume -/

theorem read_local (n : Nat) : reader_local (read n) := by
  intro is a is1 h
  unfold read at h
  by_cases hn : n ≤ is.length
  · rw [if_pos hn] at h
    obtain ⟨rfl, rfl⟩ := Prod.mk.inj (Option.some.inj h)
    refine ⟨is.take n, (List.take_append_drop n is).symm, fun t => ?_⟩
    have := read_append (is.take n) t
    rw [List.length_take, Nat.min_eq_left hn] at this
    exact this
  · rw [if_neg hn] at h
    exact absurd h (by simp)

theorem load_number_local (n : Nat) (signed : Bool) : reader_local (load_number n signed) := by
  intro is a is1 h
  unfold load_number at h
  cases hr : read n is with
  | none => simp [hr] at h
  | some p =>
    obtain ⟨bs, is2⟩ := p
    simp only [hr] at h
    obtain ⟨rfl, rfl⟩ := Prod.mk.inj (Option.some.inj h)
    obtain ⟨pre, hpre, hall⟩ := read_local n is bs is2 hr
    exact ⟨pre, hpre, fun t => by simp only [load_number, hall t]⟩

theorem load_string_local : reader_local load_string := by
  intro is a is1 h
  unfold load_string at h
  cases hr : read 4 is with
  | none => simp [hr] at h
  | some p =>
    obtain ⟨len, is2⟩ := p
    simp only [hr] at h
    obtain ⟨p1, hp1, hall1⟩ := read_local 4 is len is2 hr
    obtain ⟨p2, hp2, hall2⟩ := read_local _ is2 a is1 h
    refine ⟨p1 ++ p2, by rw [hp1, hp2, List.append_assoc], fun t => ?_⟩
    simp only [load_string, List.append_assoc, hall1 (p2 ++ t), hall2 t]

/-- A statement looks only at the bytes it consumes, provided the loaders
that are not among the sources do. -/
theorem exec_local {F O : Type} [DecidableEq F] [DecidableEq O] (ext : externals)
    (v : version) (hext : ∀ e, reader_local (ext e v)) (s : step F O) (r : record F O) :
    reader_local (exec ext v s r) := by
  intro is r1 is1 h
  cases s
  case clear_options =>
    simp only [exec] at h
    obtain ⟨rfl, rfl⟩ := Prod.mk.inj (Option.some.inj h)
    exact ⟨[], rfl, fun t => by simp only [exec, List.nil_append]⟩
  case discard n =>
    simp only [exec] at h
    cases hr : read n is with
    | none => simp [hr] at h
    | some p =>
      obtain ⟨a, is2⟩ := p
      simp only [hr] at h
      obtain ⟨rfl, rfl⟩ := Prod.mk.inj (Option.some.inj h)
      obtain ⟨pre, hpre, hall⟩ := read_local n is a is2 hr
      exact ⟨pre, hpre, fun t => by simp only [exec, hall t]⟩
  case load_string k g =>
    simp only [exec] at h
    cases hr : load_string is with
    | none => simp [hr] at h
    | some p =>
      obtain ⟨a, is2⟩ := p
      simp only [hr] at h
      obtain ⟨rfl, rfl⟩ := Prod.mk.inj (Option.some.inj h)
      obtain ⟨pre, hpre, hall⟩ := load_string_local is a is2 hr
      exact ⟨pre, hpre, fun t => by simp only [exec, hall t]⟩
  case clear g =>
    simp only [exec] at h
    obtain ⟨rfl, rfl⟩ := Prod.mk.inj (Option.some.inj h)
    exact ⟨[], rfl, fun t => by simp only [exec, List.nil_append]⟩
  case load_number g n sg =>
    simp only [exec] at h
    cases hr : load_number n sg is with
    | none => simp [hr] at h
    | some p =>
      obtain ⟨a, is2⟩ := p
      simp only [hr] at h
      obtain ⟨rfl, rfl⟩ := Prod.mk.inj (Option.some.inj h)
      obtain ⟨pre, hpre, hall⟩ := load_number_local n sg is a is2 hr
      exact ⟨pre, hpre, fun t => by simp only [exec, hall t]⟩
  case assign g x =>
    simp only [exec] at h
    obtain ⟨rfl, rfl⟩ := Prod.mk.inj (Option.some.inj h)
    exact ⟨[], rfl, fun t => by simp only [exec, List.nil_append]⟩
  case read_buffer g n =>
    simp only [exec] at h
    cases hr : read n is with
    | none => simp [hr] at h
    | some p =>
      obtain ⟨a, is2⟩ := p
      simp only [hr] at h
      obtain ⟨rfl, rfl⟩ := Prod.mk.inj (Option.some.inj h)
      obtain ⟨pre, hpre, hall⟩ := read_local n is a is2 hr
      exact ⟨pre, hpre, fun t => by simp only [exec, hall t]⟩
  case load_enum g m =>
    simp only [exec] at h
    cases hr : read 1 is with
    | none => simp [hr] at h
    | some p =>
      obtain ⟨a, is2⟩ := p
      simp only [hr] at h
      obtain ⟨rfl, rfl⟩ := Prod.mk.inj (Option.some.inj h)
      obtain ⟨pre, hpre, hall⟩ := read_local 1 is a is2 hr
      exact ⟨pre, hpre, fun t => by simp only [exec, hall t]⟩
  case load_flags g tb =>
    simp only [exec] at h
    cases hr : read (mask_bytes tb.length) is with
    | none => simp [hr] at h
    | some p =>
      obtain ⟨a, is2⟩ := p
      simp only [hr] at h
      obtain ⟨rfl, rfl⟩ := Prod.mk.inj (Option.some.inj h)
      obtain ⟨pre, hpre, hall⟩ := read_local _ is a is2 hr
      exact ⟨pre, hpre, fun t => by simp only [exec, hall t]⟩
  case option_enum m ch =>
    simp only [exec] at h
    cases hr : read 1 is with
    | none => simp [hr] at h
    | some p =>
      obtain ⟨a, is2⟩ := p
      simp only [hr] at h
      obtain ⟨rfl, rfl⟩ := Prod.mk.inj (Option.some.inj h)
      obtain ⟨pre, hpre, hall⟩ := read_local 1 is a is2 hr
      exact ⟨pre, hpre, fun t => by simp only [exec, hall t]⟩
  case flag_reader ac =>
    simp only [exec] at h
    cases hr : read (mask_bytes (registered ac).length) is with
    | none => simp [hr] at h
    | some p =>
      obtain ⟨a, is2⟩ := p
      simp only [hr] at h
      obtain ⟨rfl, rfl⟩ := Prod.mk.inj (Option.some.inj h)
      obtain ⟨pre, hpre, hall⟩ := read_local _ is a is2 hr
      exact ⟨pre, hpre, fun t => by simp only [exec, hall t]⟩
  case flag_reader_assign ac =>
    simp only [exec] at h
    cases hr : read (mask_bytes (registered ac).length) is with
    | none => simp [hr] at h
    | some p =>
      obtain ⟨a, is2⟩ := p
      simp only [hr] at h
      obtain ⟨rfl, rfl⟩ := Prod.mk.inj (Option.some.inj h)
      obtain ⟨pre, hpre, hall⟩ := read_local _ is a is2 hr
      exact ⟨pre, hpre, fun t => by simp only [exec, hall t]⟩
  case derive g fl y n =>
    simp only [exec] at h
    obtain ⟨rfl, rfl⟩ := Prod.mk.inj (Option.some.inj h)
    exact ⟨[], rfl, fun t => by simp only [exec, List.nil_append]⟩
  case tail_text g sz =>
    simp only [exec] at h
    cases hv : r.field sz with
    | num n =>
      simp only [hv] at h
      by_cases hn : 0 < n
      · simp only [hn, if_true] at h
        cases hr : read n.toNat is with
        | none => simp [hr] at h
        | some p =>
          obtain ⟨a, is2⟩ := p
          simp only [hr] at h
          obtain ⟨rfl, rfl⟩ := Prod.mk.inj (Option.some.inj h)
          obtain ⟨pre, hpre, hall⟩ := read_local n.toNat is a is2 hr
          exact ⟨pre, hpre, fun t => by simp only [exec, hv, hn, if_true, hall t]⟩
      · simp only [hn, if_false] at h
        obtain ⟨rfl, rfl⟩ := Prod.mk.inj (Option.some.inj h)
        exact ⟨[], rfl, fun t => by simp only [exec, hv, hn, if_false, List.nil_append]⟩
    | str b =>
      simp only [hv] at h
      obtain ⟨rfl, rfl⟩ := Prod.mk.inj (Option.some.inj h)
      exact ⟨[], rfl, fun t => by simp only [exec, hv, List.nil_append]⟩
    | sym b =>
      simp only [hv] at h
      obtain ⟨rfl, rfl⟩ := Prod.mk.inj (Option.some.inj h)
      exact ⟨[], rfl, fun t => by simp only [exec, hv, List.nil_append]⟩
    | set b =>
      simp only [hv] at h
      obtain ⟨rfl, rfl⟩ := Prod.mk.inj (Option.some.inj h)
      exact ⟨[], rfl, fun t => by simp only [exec, hv, List.nil_append]⟩
  case load_external e g =>
    simp only [exec] at h
    cases hr : ext e v is with
    | none => simp [hr] at h
    | some p =>
      obtain ⟨a, is2⟩ := p
      simp only [hr] at h
      obtain ⟨rfl, rfl⟩ := Prod.mk.inj (Option.some.inj h)
      obtain ⟨pre, hpre, hall⟩ := hext e is a is2 hr
      exact ⟨pre, hpre, fun t => by simp only [exec, hall t]⟩
  case load_hive g =>
    simp only [exec] at h
    cases hr : read 4 is with
    | none => simp [hr] at h
    | some p =>
      obtain ⟨a, is2⟩ := p
      simp only [hr] at h
      obtain ⟨rfl, rfl⟩ := Prod.mk.inj (Option.some.inj h)
      obtain ⟨pre, hpre, hall⟩ := read_local 4 is a is2 hr
      exact ⟨pre, hpre, fun t => by simp only [exec, hall t]⟩

/-- A sequence of statements looks only at the bytes it consumes. -/
theorem run_local {F O : Type} [DecidableEq F] [DecidableEq O] (ext : externals)
    (v : version) (hext : ∀ e, reader_local (ext e v)) :
    ∀ (steps : List (step F O)) (r : record F O), reader_local (run ext v steps r) := by
  intro steps
  induction steps with
  | nil =>
    intro r is r1 is1 h
    simp only [run] at h
    obtain ⟨rfl, rfl⟩ := Prod.mk.inj (Option.some.inj h)
    exact ⟨[], rfl, fun t => by simp only [run, List.nil_append]⟩
  | cons s rest ih =>
    intro r is r1 is1 h
    simp only [run] at h
    cases he : exec ext v s r is with
    | none => simp [he] at h
    | some p =>
      obtain ⟨r2, is2⟩ := p
      simp only [he] at h
      obtain ⟨p1, hp1, hall1⟩ := exec_local ext v hext s r is r2 is2 he
      obtain ⟨p2, hp2, hall2⟩ := ih r2 is2 r1 is1 h
      refine ⟨p1 ++ p2, by rw [hp1, hp2, List.append_assoc], fun t => ?_⟩
      simp only [run, List.append_assoc, hall1 (p2 ++ t), hall2 t]

/-- The member that a sequence assigns last by a statement with a fixed
result holds that result at the end. -/
theorem run_field_of_single {F O : Type} [DecidableEq F] [DecidableEq O] (ext : externals)
    (v : version) (f : F) (s : step F O) (x : value)
    (hs : ∀ (r r1 : record F O) (is is1 : List Nat),
      exec ext v s r is = some (r1, is1) → r1.field f = x)
    (steps : List (step F O)) (r r1 : record F O) (is is1 : List Nat)
    (hf : steps.filter (fun s => decide (s.target = some f)) = [s])
    (h : run ext v steps r is = some (r1, is1)) : r1.field f = x := by
  obtain ⟨l1, l2, hl, -, -, hl2⟩ := List.filter_eq_cons_iff.mp hf
  rw [hl, run_append] at h
  cases h1 : run ext v l1 r is with
  | none => simp [h1] at h
  | some p =>
    simp only [h1, run] at h
    cases h2 : exec ext v s p.1 p.2 with
    | none => simp [h2] at h
    | some q =>
      simp only [h2] at h
      have hq := hs p.1 q.1 p.2 q.2 h2
      rw [run_field_of_no_target ext v f l2 q.1 r1 q.2 is1 hl2 h, hq]

theorem exec_clear_field {F O : Type} [DecidableEq F] [DecidableEq O] (ext : externals)
    (v : version) (f : F) (r r1 : record F O) (is is1 : List Nat)
    (h : exec ext v (step.clear f) r is = some (r1, is1)) : r1.field f = value.str [] := by
  simp only [exec] at h
  obtain ⟨rfl, -⟩ := Prod.mk.inj (Option.some.inj h)
  exact assign_field_same r f _

theorem exec_assign_field {F O : Type} [DecidableEq F] [DecidableEq O] (ext : externals)
    (v : version) (f : F) (x : value) (r r1 : record F O) (is is1 : List Nat)
    (h : exec ext v (step.assign f x) r is = some (r1, is1)) : r1.field f = x := by
  simp only [exec] at h
  obtain ⟨rfl, -⟩ := Prod.mk.inj (Option.some.inj h)
  exact assign_field_same r f _

/-- A read of `n` bytes from a stream that starts with a block of `n` bytes
gives the block and leaves the rest. -/
theorem read_append_of_length (block rest : List Nat) (n : Nat) (h : block.length = n) :
    read n (block ++ rest) = some (block, rest) := by
  subst h
  exact read_append block rest

/-! ## Claims on `header::load` -/

/-- C15: in `header::load` the statements on the password members are those
of source lines 310 to 324 and no others; run on a stream that starts with a
hash of 4 bytes before 4.2.0, of 16 bytes from 4.2.0 and before 5.3.9, of 20
bytes from 5.3.9, followed by a salt of 8 bytes from 4.2.2 and of no byte
before, they consume exactly these bytes, set `password.type` to CRC32, MD5
or SHA1 by the version alone, store the hash in the member of that algorithm
and store the salt read, or eight zero bytes before 4.2.2. -/
theorem password_selected_by_version (ext : externals) (version : version) (r : header)
    (hash salt rest : List Nat)
    (hhash : hash.length = if version.value < INNO_VERSION 4 2 0 then 4
      else if version.value < INNO_VERSION 5 3 9 then 16 else 20)
    (hsalt : salt.length = if version.value ≥ INNO_VERSION 4 2 2 then 8 else 0) :
    (header_steps version).filter (fun s => decide (s.target = some header_field.password_crc32
        ∨ s.target = some header_field.password_md5
        ∨ s.target = some header_field.password_sha1
        ∨ s.target = some header_field.password_type
        ∨ s.target = some header_field.password_salt)) = password_steps version
    ∧ run ext version (password_steps version) r (hash ++ (salt ++ rest))
      = some (((r.assign
            (if version.value < INNO_VERSION 4 2 0 then header_field.password_crc32
              else if version.value < INNO_VERSION 5 3 9 then header_field.password_md5
              else header_field.password_sha1)
            (if version.value < INNO_VERSION 4 2 0 then value.num (little_endian hash)
              else value.str hash)).assign
          header_field.password_type
            (value.sym (if version.value < INNO_VERSION 4 2 0 then symbol.CRC32
              else if version.value < INNO_VERSION 5 3 9 then symbol.MD5
              else symbol.SHA1))).assign
          header_field.password_salt
            (value.str (if version.value ≥ INNO_VERSION 4 2 2 then salt
              else List.replicate 8 0)), rest) := by
  constructor
  · simp only [header_steps, header_field_steps, header_steps_129_166, header_steps_167_195,
    header_steps_196_239, header_steps_241_293, header_steps_295_332, header_steps_334_365,
    header_steps_367_386, header_steps_388_414, password_steps, header_extra_byte,
    header_derived_steps, List.flatten_cons, List.flatten_nil, List.filter_append,
    apply_ite (List.filter _), List.filter_cons, List.filter_nil, step.target, List.append_nil,
    List.nil_append, Option.some.injEq, reduceCtorEq, decide_False, decide_True, if_true,
    if_false, ite_self, Bool.false_eq_true, or_false, false_or, or_self, or_true, true_or,
    inno_1_3_21, inno_2_0_0, inno_2_0_1, inno_2_0_6, inno_2_0_7, inno_2_0_17, inno_2_0_18,
    inno_3_0_0, inno_3_0_1, inno_3_0_3, inno_3_0_4, inno_3_0_6_1, inno_4_0_0, inno_4_0_1,
    inno_4_0_9, inno_4_0_10, inno_4_0_11, inno_4_1_0, inno_4_1_2, inno_4_1_3, inno_4_1_5,
    inno_4_1_8, inno_4_2_0, inno_4_2_1, inno_4_2_2, inno_4_2_4, inno_4_2_5, inno_4_2_6,
    inno_5_0_0, inno_5_0_4, inno_5_1_0, inno_5_1_7, inno_5_1_13, inno_5_2_1, inno_5_2_5,
    inno_5_3_3, inno_5_3_6, inno_5_3_7, inno_5_3_8, inno_5_3_9, inno_5_3_10, inno_5_5_0,
    inno_5_5_0_1, inno_5_5_6, ge_iff_le]
  · by_cases h1 : version.value < INNO_VERSION 4 2 0
    · have h2 : ¬ version.value ≥ INNO_VERSION 4 2 2 := by
        rw [inno_4_2_0] at h1
        rw [inno_4_2_2]
        omega
      rw [if_pos h1] at hhash
      rw [if_neg h2, List.length_eq_zero] at hsalt
      subst hsalt
      have rd := read_append_of_length hash rest 4 hhash
      simp only [password_steps, if_pos h1, if_neg h2, List.cons_append, List.nil_append,
        run, exec, load_number, rd, Bool.false_eq_true, false_and, if_false]
    · by_cases h3 : version.value < INNO_VERSION 5 3 9
      · rw [if_neg h1, if_pos h3] at hhash
        by_cases h2 : version.value ≥ INNO_VERSION 4 2 2
        · rw [if_pos h2] at hsalt
          have rd := read_append_of_length hash (salt ++ rest) 16 hhash
          have rs := read_append_of_length salt rest 8 hsalt
          simp only [password_steps, if_neg h1, if_pos h3, if_pos h2, List.cons_append,
            List.nil_append, run, exec, rd, rs]
        · rw [if_neg h2, List.length_eq_zero] at hsalt
          subst hsalt
          have rd := read_append_of_length hash rest 16 hhash
          simp only [password_steps, if_neg h1, if_pos h3, if_neg h2, List.cons_append,
            List.nil_append, run, exec, rd]
      · have h2 : version.value ≥ INNO_VERSION 4 2 2 := by
          rw [inno_5_3_9] at h3
          rw [inno_4_2_2]
          omega
        rw [if_neg h1, if_neg h3] at hhash
        rw [if_pos h2] at hsalt
        have rd := read_append_of_length hash (salt ++ rest) 20 hhash
        have rs := read_append_of_length salt rest 8 hsalt
        simp only [password_steps, if_neg h1, if_neg h3, if_pos h2, List.cons_append,
          List.nil_append, run, exec, rd, rs]

/-- C15 at version 5.2.3: sixteen hash bytes and eight salt bytes are read
and the type is MD5. -/
theorem password_selected_by_version_witness :
    (header_steps ⟨INNO_VERSION 5 2 3, 32, false, true⟩).filter
        (fun s => decide (s.target = some header_field.password_crc32
        ∨ s.target = some header_field.password_md5
        ∨ s.target = some header_field.password_sha1
        ∨ s.target = some header_field.password_type
        ∨ s.target = some header_field.password_salt))
      = password_steps ⟨INNO_VERSION 5 2 3, 32, false, true⟩
    ∧ run (fun _ _ is => some (value.str [], is)) ⟨INNO_VERSION 5 2 3, 32, false, true⟩
        (password_steps ⟨INNO_VERSION 5 2 3, 32, false, true⟩) ⟨fun _ => value.str [], []⟩
        (List.range 16 ++ ([1, 2, 3, 4, 5, 6, 7, 8] ++ [77]))
      = some (((record.assign ⟨fun _ => value.str [], []⟩
            (if (⟨INNO_VERSION 5 2 3, 32, false, true⟩ : setup.version).value
                < INNO_VERSION 4 2 0 then header_field.password_crc32
              else if (⟨INNO_VERSION 5 2 3, 32, false, true⟩ : setup.version).value
                < INNO_VERSION 5 3 9 then header_field.password_md5
              else header_field.password_sha1)
            (if (⟨INNO_VERSION 5 2 3, 32, false, true⟩ : setup.version).value
                < INNO_VERSION 4 2 0 then value.num (little_endian (List.range 16))
              else value.str (List.range 16))).assign
          header_field.password_type
            (value.sym (if (⟨INNO_VERSION 5 2 3, 32, false, true⟩ : setup.version).value
                < INNO_VERSION 4 2 0 then symbol.CRC32
              else if (⟨INNO_VERSION 5 2 3, 32, false, true⟩ : setup.version).value
                < INNO_VERSION 5 3 9 then symbol.MD5
              else symbol.SHA1))).assign
          header_field.password_salt
            (value.str (if (⟨INNO_VERSION 5 2 3, 32, false, true⟩ : setup.version).value
                ≥ INNO_VERSION 4 2 2 then [1, 2, 3, 4, 5, 6, 7, 8]
              else List.replicate 8 0)), [77]) :=
  password_selected_by_version (fun _ _ is => some (value.str [], is))
    ⟨INNO_VERSION 5 2 3, 32, false, true⟩ ⟨fun _ => value.str [], []⟩
    (List.range 16) [1, 2, 3, 4, 5, 6, 7, 8] [77] (by decide) (by decide)

/-- C16: in `header::load` each of the members `privileges_required`,
`show_language_dialog`, `language_detection`, `compression`,
`disable_dir_page` and `disable_program_group_page` is assigned by exactly one
statement: by the stored enum of its own on-disk field, before the flag
reader, when the version is at least its threshold (3.0.4, 4.0.10, 4.0.10,
4.1.5, 5.3.3, 5.3.3), and otherwise by the statement after
`options |= flagreader` that derives it from the options. -/
theorem derived_fields_assigned_once (version : version) :
    header_steps version
      = (header_field_steps version ++ header_extra_byte version)
          ++ step.flag_reader (header_flag_actions version) :: header_derived_steps version
    ∧ (((header_steps version).filter
          (fun s => decide (s.target = some header_field.privileges_required))).length = 1
      ∧ (header_field_steps version ++ header_extra_byte version).filter
          (fun s => decide (s.target = some header_field.privileges_required))
        = (if version.value ≥ INNO_VERSION 5 3 7 then
            [step.load_enum header_field.privileges_required stored_privileges_1]
          else if version.value ≥ INNO_VERSION 3 0 4 then
            [step.load_enum header_field.privileges_required stored_privileges_0]
          else [])
      ∧ (header_derived_steps version).filter
          (fun s => decide (s.target = some header_field.privileges_required))
        = (if version.value ≥ INNO_VERSION 3 0 4 then []
          else [step.derive header_field.privileges_required
            header_flag.AdminPrivilegesRequired symbol.AdminPriviliges symbol.NoPrivileges]))
    ∧ (((header_steps version).filter
          (fun s => decide (s.target = some header_field.show_language_dialog))).length = 1
      ∧ (header_field_steps version ++ header_extra_byte version).filter
          (fun s => decide (s.target = some header_field.show_language_dialog))
        = (if version.value ≥ INNO_VERSION 4 0 10 then
            [step.load_enum header_field.show_language_dialog stored_bool_yes_no_auto]
          else [])
      ∧ (header_derived_steps version).filter
          (fun s => decide (s.target = some header_field.show_language_dialog))
        = (if version.value ≥ INNO_VERSION 4 0 10 then []
          else [step.derive header_field.show_language_dialog header_flag.ShowLanguageDialog symbol.Yes symbol.No]))
    ∧ (((header_steps version).filter
          (fun s => decide (s.target = some header_field.language_detection))).length = 1
      ∧ (header_field_steps version ++ header_extra_byte version).filter
          (fun s => decide (s.target = some header_field.language_detection))
        = (if version.value ≥ INNO_VERSION 4 0 10 then
            [step.load_enum header_field.language_detection stored_language_detection_method]
          else [])
      ∧ (header_derived_steps version).filter
          (fun s => decide (s.target = some header_field.language_detection))
        = (if version.value ≥ INNO_VERSION 4 0 10 then []
          else [step.derive header_field.language_detection header_flag.DetectLanguageUsingLocale symbol.LocaleLanguage symbol.UILanguage]))
    ∧ (((header_steps version).filter
          (fun s => decide (s.target = some header_field.compression))).length = 1
      ∧ (header_field_steps version ++ header_extra_byte version).filter
          (fun s => decide (s.target = some header_field.compression))
        = (if version.value ≥ INNO_VERSION 5 3 9 then
            [step.load_enum header_field.compression stored_compression_method_3]
          else if version.value ≥ INNO_VERSION 4 2 6 then
            [step.load_enum header_field.compression stored_compression_method_2]
          else if version.value ≥ INNO_VERSION 4 2 5 then
            [step.load_enum header_field.compression stored_compression_method_1]
          else if version.value ≥ INNO_VERSION 4 1 5 then
            [step.load_enum header_field.compression stored_compression_method_0]
          else [])
      ∧ (header_derived_steps version).filter
          (fun s => decide (s.target = some header_field.compression))
        = (if version.value ≥ INNO_VERSION 4 1 5 then []
          else [step.derive header_field.compression header_flag.BzipUsed
            symbol.BZip2 symbol.Zlib]))
    ∧ (((header_steps version).filter
          (fun s => decide (s.target = some header_field.disable_dir_page))).length = 1
      ∧ (header_field_steps version ++ header_extra_byte version).filter
          (fun s => decide (s.target = some header_field.disable_dir_page))
        = (if version.value ≥ INNO_VERSION 5 3 3 then
            [step.load_enum header_field.disable_dir_page stored_bool_auto_no_yes]
          else [])
      ∧ (header_derived_steps version).filter
          (fun s => decide (s.target = some header_field.disable_dir_page))
        = (if version.value ≥ INNO_VERSION 5 3 3 then []
          else [step.derive header_field.disable_dir_page header_flag.DisableDirPage symbol.Yes symbol.No]))
    ∧ (((header_steps version).filter
          (fun s => decide (s.target = some header_field.disable_program_group_page))).length = 1
      ∧ (header_field_steps version ++ header_extra_byte version).filter
          (fun s => decide (s.target = some header_field.disable_program_group_page))
        = (if version.value ≥ INNO_VERSION 5 3 3 then
            [step.load_enum header_field.disable_program_group_page stored_bool_auto_no_yes]
          else [])
      ∧ (header_derived_steps version).filter
          (fun s => decide (s.target = some header_field.disable_program_group_page))
        = (if version.value ≥ INNO_VERSION 5 3 3 then []
          else [step.derive header_field.disable_program_group_page header_flag.DisableProgramGroupPage symbol.Yes symbol.No])) := by
  refine ⟨by simp only [header_steps, List.append_assoc], ?_, ?_, ?_, ?_, ?_, ?_⟩
  all_goals
    simp only [header_steps, header_field_steps, header_steps_129_166, header_steps_167_195,
      header_steps_196_239, header_steps_241_293, header_steps_295_332, header_steps_334_365,
      header_steps_367_386, header_steps_388_414, password_steps, header_extra_byte,
      header_derived_steps, List.flatten_cons, List.flatten_nil, List.filter_append,
      apply_ite (List.filter _), List.filter_cons, List.filter_nil, step.target, List.append_nil,
      List.nil_append, Option.some.injEq, reduceCtorEq, decide_False, decide_True, if_true,
      if_false, ite_self, Bool.false_eq_true, inno_1_3_21, inno_2_0_0, inno_2_0_1, inno_2_0_6,
      inno_2_0_7, inno_2_0_17, inno_2_0_18, inno_3_0_0, inno_3_0_1, inno_3_0_3, inno_3_0_4,
      inno_3_0_6_1, inno_4_0_0, inno_4_0_1, inno_4_0_9, inno_4_0_10, inno_4_0_11, inno_4_1_0,
      inno_4_1_2, inno_4_1_3, inno_4_1_5, inno_4_1_8, inno_4_2_0, inno_4_2_1, inno_4_2_2,
      inno_4_2_4, inno_4_2_5, inno_4_2_6, inno_5_0_0, inno_5_0_4, inno_5_1_0, inno_5_1_7,
      inno_5_1_13, inno_5_2_1, inno_5_2_5, inno_5_3_3, inno_5_3_6, inno_5_3_7, inno_5_3_8,
      inno_5_3_9, inno_5_3_10, inno_5_5_0, inno_5_5_0_1, inno_5_5_6, List.length_append,
      ge_iff_le]
    refine ⟨?_, ?_, ?_⟩ <;> first | trivial | (split_ifs <;> first | rfl | omega)

/-- A statement has the same effect under two version descriptors on which
the loaders outside the sources agree. -/
theorem exec_congr_version {F O : Type} [DecidableEq F] [DecidableEq O] (ext : externals)
    (v1 v0 : version) (hext : ∀ e, ext e v1 = ext e v0) (s : step F O) (r : record F O)
    (is : List Nat) : exec ext v1 s r is = exec ext v0 s r is := by
  cases s <;> simp only [exec, hext]

/-- A sequence of statements has the same effect under two version
descriptors on which the loaders outside the sources agree. -/
theorem run_congr_version {F O : Type} [DecidableEq F] [DecidableEq O] (ext : externals)
    (v1 v0 : version) (hext : ∀ e, ext e v1 = ext e v0) :
    ∀ (steps : List (step F O)) (r : record F O) (is : List Nat),
      run ext v1 steps r is = run ext v0 steps r is := by
  intro steps
  induction steps with
  | nil => intro r is; rfl
  | cons s rest ih =>
    intro r is
    simp only [run, exec_congr_version ext v1 v0 hext]
    cases exec ext v0 s r is with
    | none => rfl
    | some p => exact ih p.1 p.2

/-- The statements of `header::load` before the flag reader are the same for
the values 5.5.0.1 and 5.5.0. -/
theorem header_field_steps_5_5_0_1 (bits : Nat) (unicode k1 k0 : Bool) :
    header_field_steps ⟨INNO_VERSION_EXT 5 5 0 1, bits, unicode, k1⟩
      = header_field_steps ⟨INNO_VERSION 5 5 0, bits, unicode, k0⟩ := by
  simp [header_steps, header_field_steps, header_steps_129_166, header_steps_167_195,
    header_steps_196_239, header_steps_241_293, header_steps_295_332, header_steps_334_365,
    header_steps_367_386, header_steps_388_414, password_steps, header_extra_byte,
    header_derived_steps, inno_1_3_21, inno_2_0_0, inno_2_0_1, inno_2_0_6, inno_2_0_7,
    inno_2_0_17, inno_2_0_18, inno_3_0_0, inno_3_0_1, inno_3_0_3, inno_3_0_4, inno_3_0_6_1,
    inno_4_0_0, inno_4_0_1, inno_4_0_9, inno_4_0_10, inno_4_0_11, inno_4_1_0, inno_4_1_2,
    inno_4_1_3, inno_4_1_5, inno_4_1_8, inno_4_2_0, inno_4_2_1, inno_4_2_2, inno_4_2_4,
    inno_4_2_5, inno_4_2_6, inno_5_0_0, inno_5_0_4, inno_5_1_0, inno_5_1_7, inno_5_1_13,
    inno_5_2_1, inno_5_2_5, inno_5_3_3, inno_5_3_6, inno_5_3_7, inno_5_3_8, inno_5_3_9,
    inno_5_3_10, inno_5_5_0, inno_5_5_0_1, inno_5_5_6]

/-- The flag-reader block of `header::load` is the same for the values
5.5.0.1 and 5.5.0. -/
theorem header_flag_actions_5_5_0_1 (bits : Nat) (unicode k1 k0 : Bool) :
    header_flag_actions ⟨INNO_VERSION_EXT 5 5 0 1, bits, unicode, k1⟩
      = header_flag_actions ⟨INNO_VERSION 5 5 0, bits, unicode, k0⟩ := by
  simp [header_flag_actions, header_flags_431_463, header_flags_464_484, header_flags_485_507,
    header_flags_508_522, header_flags_523_543, header_flags_544_562, inno_1_3_21, inno_2_0_0,
      inno_2_0_1, inno_2_0_6, inno_2_0_7, inno_2_0_17, inno_2_0_18, inno_3_0_0, inno_3_0_1,
      inno_3_0_3, inno_3_0_4, inno_3_0_6_1, inno_4_0_0, inno_4_0_1, inno_4_0_9, inno_4_0_10,
      inno_4_0_11, inno_4_1_0, inno_4_1_2, inno_4_1_3, inno_4_1_5, inno_4_1_8, inno_4_2_0,
      inno_4_2_1, inno_4_2_2, inno_4_2_4, inno_4_2_5, inno_4_2_6, inno_5_0_0, inno_5_0_4,
      inno_5_1_0, inno_5_1_7, inno_5_1_13, inno_5_2_1, inno_5_2_5, inno_5_3_3, inno_5_3_6,
      inno_5_3_7, inno_5_3_8, inno_5_3_9, inno_5_3_10, inno_5_5_0, inno_5_5_0_1, inno_5_5_6]

/-- The statements of `header::load` after the flag reader are the same for
the values 5.5.0.1 and 5.5.0. -/
theorem header_derived_steps_5_5_0_1 (bits : Nat) (unicode k1 k0 : Bool) :
    header_derived_steps ⟨INNO_VERSION_EXT 5 5 0 1, bits, unicode, k1⟩
      = header_derived_steps ⟨INNO_VERSION 5 5 0, bits, unicode, k0⟩ := by
  simp [header_derived_steps, inno_1_3_21, inno_2_0_0, inno_2_0_1, inno_2_0_6, inno_2_0_7,
    inno_2_0_17, inno_2_0_18, inno_3_0_0, inno_3_0_1, inno_3_0_3, inno_3_0_4, inno_3_0_6_1,
    inno_4_0_0, inno_4_0_1, inno_4_0_9, inno_4_0_10, inno_4_0_11, inno_4_1_0, inno_4_1_2,
    inno_4_1_3, inno_4_1_5, inno_4_1_8, inno_4_2_0, inno_4_2_1, inno_4_2_2, inno_4_2_4,
    inno_4_2_5, inno_4_2_6, inno_5_0_0, inno_5_0_4, inno_5_1_0, inno_5_1_7, inno_5_1_13,
    inno_5_2_1, inno_5_2_5, inno_5_3_3, inno_5_3_6, inno_5_3_7, inno_5_3_8, inno_5_3_9,
    inno_5_3_10, inno_5_5_0, inno_5_5_0_1, inno_5_5_6]

/-- The statements of `header::load` that assign no member: `options = 0`,
the size prefix, the stored enum of lines 359 to 364, the extra byte and the
flag reader. -/
theorem header_steps_without_target (v : version) :
    (header_field_steps v).filter (fun s => decide (s.target = none))
      = step.clear_options :: ((if v.value < INNO_VERSION 1 3 21 then [step.discard 4] else [])
        ++ (if v.value ≥ INNO_VERSION 3 0 0 ∧ v.value < INNO_VERSION 3 0 3 then
            [step.option_enum stored_bool_auto_no_yes
              [(symbol.Yes, header_flag.AlwaysRestart),
               (symbol.Auto, header_flag.RestartIfNeededByRun)]]
          else []))
    ∧ (header_derived_steps v).filter (fun s => decide (s.target = none)) = [] := by
  constructor
  · simp only [header_steps, header_field_steps, header_steps_129_166, header_steps_167_195,
    header_steps_196_239, header_steps_241_293, header_steps_295_332, header_steps_334_365,
    header_steps_367_386, header_steps_388_414, password_steps, header_extra_byte,
    header_derived_steps, List.flatten_cons, List.flatten_nil, List.filter_append,
    apply_ite (List.filter _), List.filter_cons, List.filter_nil, step.target, List.append_nil,
    List.nil_append, Option.some.injEq, reduceCtorEq, decide_False, decide_True, if_true,
    if_false, ite_self, Bool.false_eq_true, inno_1_3_21, inno_2_0_0, inno_2_0_1, inno_2_0_6,
    inno_2_0_7, inno_2_0_17, inno_2_0_18, inno_3_0_0, inno_3_0_1, inno_3_0_3, inno_3_0_4,
    inno_3_0_6_1, inno_4_0_0, inno_4_0_1, inno_4_0_9, inno_4_0_10, inno_4_0_11, inno_4_1_0,
    inno_4_1_2, inno_4_1_3, inno_4_1_5, inno_4_1_8, inno_4_2_0, inno_4_2_1, inno_4_2_2,
    inno_4_2_4, inno_4_2_5, inno_4_2_6, inno_5_0_0, inno_5_0_4, inno_5_1_0, inno_5_1_7,
    inno_5_1_13, inno_5_2_1, inno_5_2_5, inno_5_3_3, inno_5_3_6, inno_5_3_7, inno_5_3_8,
    inno_5_3_9, inno_5_3_10, inno_5_5_0, inno_5_5_0_1, inno_5_5_6, ge_iff_le, List.cons_append]
  · simp only [header_steps, header_field_steps, header_steps_129_166, header_steps_167_195,
    header_steps_196_239, header_steps_241_293, header_steps_295_332, header_steps_334_365,
    header_steps_367_386, header_steps_388_414, password_steps, header_extra_byte,
    header_derived_steps, List.flatten_cons, List.flatten_nil, List.filter_append,
    apply_ite (List.filter _), List.filter_cons, List.filter_nil, step.target, List.append_nil,
    List.nil_append, Option.some.injEq, reduceCtorEq, decide_False, decide_True, if_true,
    if_false, ite_self, Bool.false_eq_true, inno_1_3_21, inno_2_0_0, inno_2_0_1, inno_2_0_6,
    inno_2_0_7, inno_2_0_17, inno_2_0_18, inno_3_0_0, inno_3_0_1, inno_3_0_3, inno_3_0_4,
    inno_3_0_6_1, inno_4_0_0, inno_4_0_1, inno_4_0_9, inno_4_0_10, inno_4_0_11, inno_4_1_0,
    inno_4_1_2, inno_4_1_3, inno_4_1_5, inno_4_1_8, inno_4_2_0, inno_4_2_1, inno_4_2_2,
    inno_4_2_4, inno_4_2_5, inno_4_2_6, inno_5_0_0, inno_5_0_4, inno_5_1_0, inno_5_1_7,
    inno_5_1_13, inno_5_2_1, inno_5_2_5, inno_5_3_3, inno_5_3_6, inno_5_3_7, inno_5_3_8,
    inno_5_3_9, inno_5_3_10, inno_5_5_0, inno_5_5_0_1, inno_5_5_6, ge_iff_le]

/-- C17: `header::load` reads and drops one byte right before the flag reader
exactly when the version value is 5.5.0.1, and no other statement drops a
byte but the size prefix; for the value 5.5.0.1 the statements before the flag
reader, the flag-reader block and the statements after it are those of the
value 5.5.0 with the same `bits` and `unicode`; hence, when the loaders outside
the sources act alike under both descriptors, a stream of 5.5.0 on which the
statements before the flag reader succeed, with one arbitrary byte inserted
where they stop, decodes as 5.5.0.1 to the result of decoding the original
stream as 5.5.0. -/
theorem extra_byte_at_5_5_0_1 (ext : externals) (self : header) (bits : Nat)
    (unicode k1 k0 : Bool) (is is1 : List Nat)
    (hext : ∀ e, ext e ⟨INNO_VERSION_EXT 5 5 0 1, bits, unicode, k1⟩
      = ext e ⟨INNO_VERSION 5 5 0, bits, unicode, k0⟩)
    (hloc : ∀ e, reader_local (ext e ⟨INNO_VERSION 5 5 0, bits, unicode, k0⟩))
    (hrun : (run ext ⟨INNO_VERSION 5 5 0, bits, unicode, k0⟩
        (header_field_steps ⟨INNO_VERSION 5 5 0, bits, unicode, k0⟩) self is).map
          (fun p => p.2) = some is1) :
    (∀ v : setup.version, header_steps v
      = header_field_steps v
        ++ ((if v.value = INNO_VERSION_EXT 5 5 0 1 then [step.discard 1] else [])
          ++ step.flag_reader (header_flag_actions v) :: header_derived_steps v))
    ∧ (∀ v : setup.version,
      (header_field_steps v).filter (fun s => decide (s.target = none))
        = step.clear_options :: ((if v.value < INNO_VERSION 1 3 21 then [step.discard 4]
            else [])
          ++ (if v.value ≥ INNO_VERSION 3 0 0 ∧ v.value < INNO_VERSION 3 0 3 then
              [step.option_enum stored_bool_auto_no_yes
                [(symbol.Yes, header_flag.AlwaysRestart),
                 (symbol.Auto, header_flag.RestartIfNeededByRun)]]
            else []))
      ∧ (header_derived_steps v).filter (fun s => decide (s.target = none)) = [])
    ∧ header_field_steps ⟨INNO_VERSION_EXT 5 5 0 1, bits, unicode, k1⟩
        = header_field_steps ⟨INNO_VERSION 5 5 0, bits, unicode, k0⟩
    ∧ header_flag_actions ⟨INNO_VERSION_EXT 5 5 0 1, bits, unicode, k1⟩
        = header_flag_actions ⟨INNO_VERSION 5 5 0, bits, unicode, k0⟩
    ∧ header_derived_steps ⟨INNO_VERSION_EXT 5 5 0 1, bits, unicode, k1⟩
        = header_derived_steps ⟨INNO_VERSION 5 5 0, bits, unicode, k0⟩
    ∧ ∃ pre, is = pre ++ is1
      ∧ ∀ x, header.load ext self (pre ++ x :: is1)
            ⟨INNO_VERSION_EXT 5 5 0 1, bits, unicode, k1⟩
          = header.load ext self is ⟨INNO_VERSION 5 5 0, bits, unicode, k0⟩ := by
  have hstruct : ∀ v : setup.version, header_steps v
      = header_field_steps v
        ++ ((if v.value = INNO_VERSION_EXT 5 5 0 1 then [step.discard 1] else [])
          ++ step.flag_reader (header_flag_actions v) :: header_derived_steps v) := by
    intro v
    simp only [header_steps, header_extra_byte, List.append_assoc]
  refine ⟨hstruct, header_steps_without_target, header_field_steps_5_5_0_1 bits unicode k1 k0,
    header_flag_actions_5_5_0_1 bits unicode k1 k0,
    header_derived_steps_5_5_0_1 bits unicode k1 k0, ?_⟩
  cases hr : run ext ⟨INNO_VERSION 5 5 0, bits, unicode, k0⟩
      (header_field_steps ⟨INNO_VERSION 5 5 0, bits, unicode, k0⟩) self is with
  | none =>
    rw [hr] at hrun
    exact absurd hrun (by simp)
  | some p =>
    obtain ⟨r1, is2⟩ := p
    rw [hr] at hrun
    simp only [Option.map_some', Option.some.injEq] at hrun
    subst hrun
    obtain ⟨pre, hpre, hall⟩ := run_local ext _ hloc _ self is r1 is2 hr
    refine ⟨pre, hpre, fun x => ?_⟩
    have hne : ¬ (INNO_VERSION 5 5 0 = INNO_VERSION_EXT 5 5 0 1) := by decide
    have hread : read 1 (x :: is2) = some ([x], is2) := read_append_of_length [x] is2 1 rfl
    unfold header.load
    rw [run_congr_version ext _ _ hext, hstruct, hstruct, run_append, run_append,
      header_field_steps_5_5_0_1 bits unicode k1 k0, header_flag_actions_5_5_0_1 bits unicode k1 k0,
      header_derived_steps_5_5_0_1 bits unicode k1 k0, hall, hr]
    rw [if_pos rfl, if_neg hne]
    simp only [List.cons_append, List.nil_append]
    rw [run]
    simp only [exec, hread]

/-- C17 on a 32-bit unicode record: the stream of 5.5.0 made of 258 zero
bytes and a flag mask of six bytes decodes, and with the byte 255 inserted
before the flag mask it decodes as 5.5.0.1 to the same result. -/
theorem extra_byte_at_5_5_0_1_witness :
    (header.load (fun _ _ is => some (value.str [], is)) ⟨fun _ => value.str [], []⟩
        (List.replicate 258 0 ++ [1, 2, 3, 4, 5, 6])
        ⟨INNO_VERSION 5 5 0, 32, true, true⟩).map (fun p => p.2) = some []
    ∧ header.load (fun _ _ is => some (value.str [], is)) ⟨fun _ => value.str [], []⟩
        (List.replicate 258 0 ++ 255 :: [1, 2, 3, 4, 5, 6])
        ⟨INNO_VERSION_EXT 5 5 0 1, 32, true, true⟩
      = header.load (fun _ _ is => some (value.str [], is)) ⟨fun _ => value.str [], []⟩
        (List.replicate 258 0 ++ [1, 2, 3, 4, 5, 6])
        ⟨INNO_VERSION 5 5 0, 32, true, true⟩ := by
  refine ⟨by decide!, ?_⟩
  obtain ⟨-, -, -, -, -, pre, hpre, h⟩ :=
    extra_byte_at_5_5_0_1 (fun _ _ is => some (value.str [], is)) ⟨fun _ => value.str [], []⟩
      32 true true true (List.replicate 258 0 ++ [1, 2, 3, 4, 5, 6]) [1, 2, 3, 4, 5, 6]
      (fun _ => rfl)
      (fun _ is a is1 h => by
        obtain ⟨rfl, rfl⟩ := Prod.mk.inj (Option.some.inj h)
        exact ⟨[], rfl, fun t => rfl⟩)
      (by decide!)
  have hp : pre = List.replicate 258 0 := (List.append_cancel_right hpre).symm
  subst hp
  exact h 255

/-- C19 (what the code does): for a version before 1.3.21 no statement of
`header::load` assigns `app_id`, so the member keeps what the header held
before the call, while the sibling members `app_publisher`, `app_support_url`,
`app_version` and `uninstall_files_dir` are cleared. -/
theorem header_app_id_not_cleared (ext : externals) (self : header) (is : List Nat)
    (version : version) (hv : version.value < INNO_VERSION 1 3 21) :
    (header_steps version).filter (fun s => decide (s.target = some header_field.app_id)) = []
    ∧ holds_after (header.load ext self is version)
        (fun r => r.field header_field.app_id = self.field header_field.app_id
          ∧ r.field header_field.app_publisher = value.str []
          ∧ r.field header_field.app_support_url = value.str []
          ∧ r.field header_field.app_version = value.str []
          ∧ r.field header_field.uninstall_files_dir = value.str []) := by
  rw [inno_1_3_21] at hv
  have h0 : (header_steps version).filter
      (fun s => decide (s.target = some header_field.app_id)) = [] := by
    simp only [header_steps, header_field_steps, header_steps_129_166, header_steps_167_195,
      header_steps_196_239, header_steps_241_293, header_steps_295_332, header_steps_334_365,
      header_steps_367_386, header_steps_388_414, password_steps, header_extra_byte,
      header_derived_steps, List.flatten_cons, List.flatten_nil, List.filter_append,
      apply_ite (List.filter _), List.filter_cons, List.filter_nil, step.target, List.append_nil,
      List.nil_append, Option.some.injEq, reduceCtorEq, decide_False, decide_True, if_true,
      if_false, ite_self, Bool.false_eq_true, inno_1_3_21, inno_2_0_0, inno_2_0_1, inno_2_0_6,
      inno_2_0_7, inno_2_0_17, inno_2_0_18, inno_3_0_0, inno_3_0_1, inno_3_0_3, inno_3_0_4,
      inno_3_0_6_1, inno_4_0_0, inno_4_0_1, inno_4_0_9, inno_4_0_10, inno_4_0_11, inno_4_1_0,
      inno_4_1_2, inno_4_1_3, inno_4_1_5, inno_4_1_8, inno_4_2_0, inno_4_2_1, inno_4_2_2,
      inno_4_2_4, inno_4_2_5, inno_4_2_6, inno_5_0_0, inno_5_0_4, inno_5_1_0, inno_5_1_7,
      inno_5_1_13, inno_5_2_1, inno_5_2_5, inno_5_3_3, inno_5_3_6, inno_5_3_7, inno_5_3_8,
      inno_5_3_9, inno_5_3_10, inno_5_5_0, inno_5_5_0_1, inno_5_5_6, ge_iff_le]
    split_ifs <;> first | rfl | omega
  have h1 : (header_steps version).filter
      (fun s => decide (s.target = some header_field.app_publisher))
      = [step.clear header_field.app_publisher] := by
    simp only [header_steps, header_field_steps, header_steps_129_166, header_steps_167_195,
      header_steps_196_239, header_steps_241_293, header_steps_295_332, header_steps_334_365,
      header_steps_367_386, header_steps_388_414, password_steps, header_extra_byte,
      header_derived_steps, List.flatten_cons, List.flatten_nil, List.filter_append,
      apply_ite (List.filter _), List.filter_cons, List.filter_nil, step.target, List.append_nil,
      List.nil_append, Option.some.injEq, reduceCtorEq, decide_False, decide_True, if_true,
      if_false, ite_self, Bool.false_eq_true, inno_1_3_21, inno_2_0_0, inno_2_0_1, inno_2_0_6,
      inno_2_0_7, inno_2_0_17, inno_2_0_18, inno_3_0_0, inno_3_0_1, inno_3_0_3, inno_3_0_4,
      inno_3_0_6_1, inno_4_0_0, inno_4_0_1, inno_4_0_9, inno_4_0_10, inno_4_0_11, inno_4_1_0,
      inno_4_1_2, inno_4_1_3, inno_4_1_5, inno_4_1_8, inno_4_2_0, inno_4_2_1, inno_4_2_2,
      inno_4_2_4, inno_4_2_5, inno_4_2_6, inno_5_0_0, inno_5_0_4, inno_5_1_0, inno_5_1_7,
      inno_5_1_13, inno_5_2_1, inno_5_2_5, inno_5_3_3, inno_5_3_6, inno_5_3_7, inno_5_3_8,
      inno_5_3_9, inno_5_3_10, inno_5_5_0, inno_5_5_0_1, inno_5_5_6, ge_iff_le]
    split_ifs <;> first | rfl | omega
  have h2 : (header_steps version).filter
      (fun s => decide (s.target = some header_field.app_support_url))
      = [step.clear header_field.app_support_url] := by
    simp only [header_steps, header_field_steps, header_steps_129_166, header_steps_167_195,
      header_steps_196_239, header_steps_241_293, header_steps_295_332, header_steps_334_365,
      header_steps_367_386, header_steps_388_414, password_steps, header_extra_byte,
      header_derived_steps, List.flatten_cons, List.flatten_nil, List.filter_append,
      apply_ite (List.filter _), List.filter_cons, List.filter_nil, step.target, List.append_nil,
      List.nil_append, Option.some.injEq, reduceCtorEq, decide_False, decide_True, if_true,
      if_false, ite_self, Bool.false_eq_true, inno_1_3_21, inno_2_0_0, inno_2_0_1, inno_2_0_6,
      inno_2_0_7, inno_2_0_17, inno_2_0_18, inno_3_0_0, inno_3_0_1, inno_3_0_3, inno_3_0_4,
      inno_3_0_6_1, inno_4_0_0, inno_4_0_1, inno_4_0_9, inno_4_0_10, inno_4_0_11, inno_4_1_0,
      inno_4_1_2, inno_4_1_3, inno_4_1_5, inno_4_1_8, inno_4_2_0, inno_4_2_1, inno_4_2_2,
      inno_4_2_4, inno_4_2_5, inno_4_2_6, inno_5_0_0, inno_5_0_4, inno_5_1_0, inno_5_1_7,
      inno_5_1_13, inno_5_2_1, inno_5_2_5, inno_5_3_3, inno_5_3_6, inno_5_3_7, inno_5_3_8,
      inno_5_3_9, inno_5_3_10, inno_5_5_0, inno_5_5_0_1, inno_5_5_6, ge_iff_le]
    split_ifs <;> first | rfl | omega
  have h3 : (header_steps version).filter
      (fun s => decide (s.target = some header_field.app_version))
      = [step.clear header_field.app_version] := by
    simp only [header_steps, header_field_steps, header_steps_129_166, header_steps_167_195,
      header_steps_196_239, header_steps_241_293, header_steps_295_332, header_steps_334_365,
      header_steps_367_386, header_steps_388_414, password_steps, header_extra_byte,
      header_derived_steps, List.flatten_cons, List.flatten_nil, List.filter_append,
      apply_ite (List.filter _), List.filter_cons, List.filter_nil, step.target, List.append_nil,
      List.nil_append, Option.some.injEq, reduceCtorEq, decide_False, decide_True, if_true,
      if_false, ite_self, Bool.false_eq_true, inno_1_3_21, inno_2_0_0, inno_2_0_1, inno_2_0_6,
      inno_2_0_7, inno_2_0_17, inno_2_0_18, inno_3_0_0, inno_3_0_1, inno_3_0_3, inno_3_0_4,
      inno_3_0_6_1, inno_4_0_0, inno_4_0_1, inno_4_0_9, inno_4_0_10, inno_4_0_11, inno_4_1_0,
      inno_4_1_2, inno_4_1_3, inno_4_1_5, inno_4_1_8, inno_4_2_0, inno_4_2_1, inno_4_2_2,
      inno_4_2_4, inno_4_2_5, inno_4_2_6, inno_5_0_0, inno_5_0_4, inno_5_1_0, inno_5_1_7,
      inno_5_1_13, inno_5_2_1, inno_5_2_5, inno_5_3_3, inno_5_3_6, inno_5_3_7, inno_5_3_8,
      inno_5_3_9, inno_5_3_10, inno_5_5_0, inno_5_5_0_1, inno_5_5_6, ge_iff_le]
    split_ifs <;> first | rfl | omega
  have h4 : (header_steps version).filter
      (fun s => decide (s.target = some header_field.uninstall_files_dir))
      = [step.clear header_field.uninstall_files_dir] := by
    simp only [header_steps, header_field_steps, header_steps_129_166, header_steps_167_195,
      header_steps_196_239, header_steps_241_293, header_steps_295_332, header_steps_334_365,
      header_steps_367_386, header_steps_388_414, password_steps, header_extra_byte,
      header_derived_steps, List.flatten_cons, List.flatten_nil, List.filter_append,
      apply_ite (List.filter _), List.filter_cons, List.filter_nil, step.target, List.append_nil,
      List.nil_append, Option.some.injEq, reduceCtorEq, decide_False, decide_True, if_true,
      if_false, ite_self, Bool.false_eq_true, inno_1_3_21, inno_2_0_0, inno_2_0_1, inno_2_0_6,
      inno_2_0_7, inno_2_0_17, inno_2_0_18, inno_3_0_0, inno_3_0_1, inno_3_0_3, inno_3_0_4,
      inno_3_0_6_1, inno_4_0_0, inno_4_0_1, inno_4_0_9, inno_4_0_10, inno_4_0_11, inno_4_1_0,
      inno_4_1_2, inno_4_1_3, inno_4_1_5, inno_4_1_8, inno_4_2_0, inno_4_2_1, inno_4_2_2,
      inno_4_2_4, inno_4_2_5, inno_4_2_6, inno_5_0_0, inno_5_0_4, inno_5_1_0, inno_5_1_7,
      inno_5_1_13, inno_5_2_1, inno_5_2_5, inno_5_3_3, inno_5_3_6, inno_5_3_7, inno_5_3_8,
      inno_5_3_9, inno_5_3_10, inno_5_5_0, inno_5_5_0_1, inno_5_5_6, ge_iff_le]
    split_ifs <;> first | rfl | omega
  refine ⟨h0, ?_⟩
  intro r is1 h
  unfold header.load at h
  exact ⟨run_field_of_no_target ext version _ _ self r is is1 h0 h,
    run_field_of_single ext version _ _ _ (exec_clear_field ext version _) _ self r is is1 h1 h,
    run_field_of_single ext version _ _ _ (exec_clear_field ext version _) _ self r is is1 h2 h,
    run_field_of_single ext version _ _ _ (exec_clear_field ext version _) _ self r is is1 h3 h,
    run_field_of_single ext version _ _ _ (exec_clear_field ext version _) _ self r is is1 h4 h⟩

/-- C19 at the failing input: a 32-bit record of version 1.2.10 made of zero
bytes, decoded into a header whose members all hold the text `x`, with
loaders for the Windows version range that read nothing. The call returns and
`app_id` still holds `x`. -/
theorem header_app_id_not_cleared_witness :
    (header.load (fun _ _ is => some (value.str [], is)) ⟨fun _ => value.str [120], []⟩
        (List.replicate 103 0) ⟨INNO_VERSION 1 2 10, 32, false, true⟩).map
        (fun p => (p.1.field header_field.app_id, p.2))
      = some (value.str [120], [])
    ∧ (header_steps ⟨INNO_VERSION 1 2 10, 32, false, true⟩).filter
        (fun s => decide (s.target = some header_field.app_id)) = []
    ∧ holds_after
        (header.load (fun _ _ is => some (value.str [], is)) ⟨fun _ => value.str [120], []⟩
          (List.replicate 103 0) ⟨INNO_VERSION 1 2 10, 32, false, true⟩)
        (fun r => r.field header_field.app_id = value.str [120]
          ∧ r.field header_field.app_publisher = value.str []
          ∧ r.field header_field.app_support_url = value.str []
          ∧ r.field header_field.app_version = value.str []
          ∧ r.field header_field.uninstall_files_dir = value.str []) :=
  ⟨by decide!,
    header_app_id_not_cleared (fun _ _ is => some (value.str [], is))
      ⟨fun _ => value.str [120], []⟩ (List.replicate 103 0)
      ⟨INNO_VERSION 1 2 10, 32, false, true⟩ (by decide)⟩

/-! ## Claims on `RegistryEntry::load` and on the size prefix -/

/-- C20: in `RegistryEntry::load`, `name` is read when `bits != 16` and
cleared otherwise; `permissions` is read when `4.0.11 <= version < 4.1.0` and
cleared otherwise; `hive` is read when `bits != 16` and set to `Unset`
otherwise; `permission` is read when `version >= 4.1.0` and set to -1
otherwise. Each member is assigned by that one statement, so a returned entry
holds the default of an absent member whatever it held before, and the
statement for an absent member leaves the stream as it is. -/
theorem registry_absent_fields (ext : externals) (self : RegistryEntry) (is : List Nat)
    (version : version) :
    ((registry_steps version).filter (fun s => decide (s.target = some registry_field.name))
        = (if version.bits ≠ 16 then
            [step.load_string string_kind.encoded registry_field.name]
          else [step.clear registry_field.name]))
    ∧ ((registry_steps version).filter
          (fun s => decide (s.target = some registry_field.permissions))
        = (if version.value ≥ INNO_VERSION 4 0 11 ∧ version.value < INNO_VERSION 4 1 0 then
            [step.load_string string_kind.encoded registry_field.permissions]
          else [step.clear registry_field.permissions]))
    ∧ ((registry_steps version).filter (fun s => decide (s.target = some registry_field.hive))
        = (if version.bits ≠ 16 then [step.load_hive registry_field.hive]
          else [step.assign registry_field.hive (value.sym symbol.Unset)]))
    ∧ ((registry_steps version).filter
          (fun s => decide (s.target = some registry_field.permission))
        = (if version.value ≥ INNO_VERSION 4 1 0 then
            [step.load_number registry_field.permission 2 true]
          else [step.assign registry_field.permission (value.num (-1))]))
    ∧ holds_after (RegistryEntry.load ext self is version)
        (fun r => (version.bits ≠ 16 ∨ r.field registry_field.name = value.str [])
          ∧ ((version.value ≥ INNO_VERSION 4 0 11 ∧ version.value < INNO_VERSION 4 1 0)
              ∨ r.field registry_field.permissions = value.str [])
          ∧ (version.bits ≠ 16 ∨ r.field registry_field.hive = value.sym symbol.Unset)
          ∧ (version.value ≥ INNO_VERSION 4 1 0
              ∨ r.field registry_field.permission = value.num (-1)))
    ∧ (exec ext version (step.clear registry_field.name) self is).map (fun p => p.2) = some is
    ∧ (exec ext version (step.clear registry_field.permissions) self is).map (fun p => p.2)
        = some is
    ∧ (exec ext version (step.assign registry_field.hive (value.sym symbol.Unset)) self is).map
        (fun p => p.2) = some is
    ∧ (exec ext version (step.assign registry_field.permission (value.num (-1))) self is).map
        (fun p => p.2) = some is := by
  have f1 : (registry_steps version).filter
      (fun s => decide (s.target = some registry_field.name))
      = (if version.bits ≠ 16 then
          [step.load_string string_kind.encoded registry_field.name]
        else [step.clear registry_field.name]) := by
    simp only [registry_steps, List.flatten_cons, List.flatten_nil, List.filter_append,
      apply_ite (List.filter _), List.filter_cons, List.filter_nil, step.target, List.append_nil,
      List.nil_append, Option.some.injEq, reduceCtorEq, decide_False, decide_True, if_true,
      if_false, ite_self, Bool.false_eq_true]
  have f2 : (registry_steps version).filter
      (fun s => decide (s.target = some registry_field.permissions))
      = (if version.value ≥ INNO_VERSION 4 0 11 ∧ version.value < INNO_VERSION 4 1 0 then
          [step.load_string string_kind.encoded registry_field.permissions]
        else [step.clear registry_field.permissions]) := by
    simp only [registry_steps, List.flatten_cons, List.flatten_nil, List.filter_append,
      apply_ite (List.filter _), List.filter_cons, List.filter_nil, step.target, List.append_nil,
      List.nil_append, Option.some.injEq, reduceCtorEq, decide_False, decide_True, if_true,
      if_false, ite_self, Bool.false_eq_true]
  have f3 : (registry_steps version).filter
      (fun s => decide (s.target = some registry_field.hive))
      = (if version.bits ≠ 16 then [step.load_hive registry_field.hive]
        else [step.assign registry_field.hive (value.sym symbol.Unset)]) := by
    simp only [registry_steps, List.flatten_cons, List.flatten_nil, List.filter_append,
      apply_ite (List.filter _), List.filter_cons, List.filter_nil, step.target, List.append_nil,
      List.nil_append, Option.some.injEq, reduceCtorEq, decide_False, decide_True, if_true,
      if_false, ite_self, Bool.false_eq_true]
  have f4 : (registry_steps version).filter
      (fun s => decide (s.target = some registry_field.permission))
      = (if version.value ≥ INNO_VERSION 4 1 0 then
          [step.load_number registry_field.permission 2 true]
        else [step.assign registry_field.permission (value.num (-1))]) := by
    simp only [registry_steps, List.flatten_cons, List.flatten_nil, List.filter_append,
      apply_ite (List.filter _), List.filter_cons, List.filter_nil, step.target, List.append_nil,
      List.nil_append, Option.some.injEq, reduceCtorEq, decide_False, decide_True, if_true,
      if_false, ite_self, Bool.false_eq_true]
  refine ⟨f1, f2, f3, f4, ?_, rfl, rfl, rfl, rfl⟩
  intro r is1 h
  unfold RegistryEntry.load at h
  refine ⟨?_, ?_, ?_, ?_⟩
  · by_cases hb : version.bits ≠ 16
    · exact Or.inl hb
    · rw [if_neg hb] at f1
      exact Or.inr (run_field_of_single ext version _ _ _ (exec_clear_field ext version _) _
        self r is is1 f1 h)
  · by_cases hb : version.value ≥ INNO_VERSION 4 0 11 ∧ version.value < INNO_VERSION 4 1 0
    · exact Or.inl hb
    · rw [if_neg hb] at f2
      exact Or.inr (run_field_of_single ext version _ _ _ (exec_clear_field ext version _) _
        self r is is1 f2 h)
  · by_cases hb : version.bits ≠ 16
    · exact Or.inl hb
    · rw [if_neg hb] at f3
      exact Or.inr (run_field_of_single ext version _ _ _
        (exec_assign_field ext version _ _) _ self r is is1 f3 h)
  · by_cases hb : version.value ≥ INNO_VERSION 4 1 0
    · exact Or.inl hb
    · rw [if_neg hb] at f4
      exact Or.inr (run_field_of_single ext version _ _ _
        (exec_assign_field ext version _ _) _ self r is is1 f4 h)

/-- C20 on a 16-bit entry of version 1.2.10 made of fourteen zero bytes,
decoded into an entry whose members all hold the text `x`: the call returns,
consumes the fourteen bytes, and the four absent members hold their
defaults. -/
theorem registry_absent_fields_witness :
    (RegistryEntry.load (fun _ _ is => some (value.str [], is)) ⟨fun _ => value.str [120], []⟩
        (List.replicate 14 0) ⟨INNO_VERSION 1 2 10, 16, false, true⟩).map
        (fun p => (p.1.field registry_field.name, p.1.field registry_field.permissions,
          p.1.field registry_field.hive, p.1.field registry_field.permission, p.2))
      = some (value.str [], value.str [], value.sym symbol.Unset, value.num (-1), [])
    ∧ holds_after
        (RegistryEntry.load (fun _ _ is => some (value.str [], is))
          ⟨fun _ => value.str [120], []⟩ (List.replicate 14 0)
          ⟨INNO_VERSION 1 2 10, 16, false, true⟩)
        (fun r => ((16 : Nat) ≠ 16 ∨ r.field registry_field.name = value.str [])
          ∧ ((INNO_VERSION 1 2 10 ≥ INNO_VERSION 4 0 11
                ∧ INNO_VERSION 1 2 10 < INNO_VERSION 4 1 0)
              ∨ r.field registry_field.permissions = value.str [])
          ∧ ((16 : Nat) ≠ 16 ∨ r.field registry_field.hive = value.sym symbol.Unset)
          ∧ (INNO_VERSION 1 2 10 ≥ INNO_VERSION 4 1 0
              ∨ r.field registry_field.permission = value.num (-1))) :=
  ⟨by decide!,
    (registry_absent_fields (fun _ _ is => some (value.str [], is))
      ⟨fun _ => value.str [120], []⟩ (List.replicate 14 0)
      ⟨INNO_VERSION 1 2 10, 16, false, true⟩).2.2.2.2.1⟩

/-- The first chunk of `header::load` starts by emptying `options`, then the
size prefix before 1.3.21, then `app_name`. -/
theorem header_chunk_start (v : setup.version) : ∃ tail, header_steps_129_166 v
      = step.clear_options :: ((if v.value < INNO_VERSION 1 3 21 then [step.discard 4]
          else []) ++ step.load_string string_kind.encoded header_field.app_name :: tail) :=
  ⟨_, rfl⟩

/-- The statements of `header::load` start by emptying `options`, then the
size prefix before 1.3.21, then `app_name`. -/
theorem header_steps_start (v : setup.version) : ∃ tail, header_steps v
      = step.clear_options :: ((if v.value < INNO_VERSION 1 3 21 then [step.discard 4]
          else []) ++ step.load_string string_kind.encoded header_field.app_name :: tail) := by
  obtain ⟨t, ht⟩ := header_chunk_start v
  unfold header_steps header_field_steps
  rw [List.flatten_cons, ht]
  simp only [List.cons_append, List.append_assoc]
  exact ⟨_, rfl⟩

/-- The statements of `RegistryEntry::load` start with the size prefix before
1.3.21, then `key`. -/
theorem registry_steps_start (v : setup.version) : ∃ tail, registry_steps v
      = (if v.value < INNO_VERSION 1 3 21 then [step.discard 4] else [])
          ++ step.load_string string_kind.encoded registry_field.key :: tail :=
  ⟨_, rfl⟩

/-- C18: for a version before 1.3.21, `header::load` and
`RegistryEntry::load` start by reading four bytes, whatever `bits` is, and
what they return does not depend on these bytes; for every version the
statements start with this read exactly when the version is before 1.3.21,
the first string (`app_name`, `key`) following at once. -/
theorem size_prefix_discarded (ext : externals) (version : version) (hself : header)
    (eself : RegistryEntry) (b b2 is : List Nat) (hb : b.length = 4) (hb2 : b2.length = 4)
    (hv : version.value < INNO_VERSION 1 3 21) :
    header.load ext hself (b ++ is) version = header.load ext hself (b2 ++ is) version
    ∧ RegistryEntry.load ext eself (b ++ is) version
        = RegistryEntry.load ext eself (b2 ++ is) version
    ∧ (∀ v : setup.version, ∃ tail, header_steps v
        = step.clear_options :: ((if v.value < INNO_VERSION 1 3 21 then [step.discard 4]
            else []) ++ step.load_string string_kind.encoded header_field.app_name :: tail))
    ∧ (∀ v : setup.version, ∃ tail, registry_steps v
        = (if v.value < INNO_VERSION 1 3 21 then [step.discard 4] else [])
            ++ step.load_string string_kind.encoded registry_field.key :: tail) := by
  have r1 := read_append_of_length b is 4 hb
  have r2 := read_append_of_length b2 is 4 hb2
  refine ⟨?_, ?_, header_steps_start, registry_steps_start⟩
  · obtain ⟨tail, ht⟩ := header_steps_start version
    rw [if_pos hv] at ht
    unfold header.load
    rw [ht]
    simp only [List.cons_append, List.nil_append, run, exec, r1, r2]
  · obtain ⟨tail, ht⟩ := registry_steps_start version
    rw [if_pos hv] at ht
    unfold RegistryEntry.load
    rw [ht]
    simp only [List.cons_append, List.nil_append, run, exec, r1, r2]

/-- C18 at version 1.2.10 with two different size prefixes before the same
bytes: the header decoder returns at the end of the stream, and both decoders
give the same result for either prefix. -/
theorem size_prefix_discarded_witness :
    (header.load (fun _ _ is => some (value.str [], is)) ⟨fun _ => value.str [], []⟩
        ([1, 2, 3, 4] ++ List.replicate 99 0) ⟨INNO_VERSION 1 2 10, 32, false, true⟩).map
        (fun p => p.2) = some []
    ∧ header.load (fun _ _ is => some (value.str [], is)) ⟨fun _ => value.str [], []⟩
        ([1, 2, 3, 4] ++ List.replicate 99 0) ⟨INNO_VERSION 1 2 10, 32, false, true⟩
      = header.load (fun _ _ is => some (value.str [], is)) ⟨fun _ => value.str [], []⟩
        ([9, 9, 9, 9] ++ List.replicate 99 0) ⟨INNO_VERSION 1 2 10, 32, false, true⟩
    ∧ RegistryEntry.load (fun _ _ is => some (value.str [], is)) ⟨fun _ => value.str [], []⟩
        ([1, 2, 3, 4] ++ List.replicate 99 0) ⟨INNO_VERSION 1 2 10, 32, false, true⟩
      = RegistryEntry.load (fun _ _ is => some (value.str [], is)) ⟨fun _ => value.str [], []⟩
        ([9, 9, 9, 9] ++ List.replicate 99 0) ⟨INNO_VERSION 1 2 10, 32, false, true⟩
    ∧ (∀ v : setup.version, ∃ tail, header_steps v
        = step.clear_options :: ((if v.value < INNO_VERSION 1 3 21 then [step.discard 4]
            else []) ++ step.load_string string_kind.encoded header_field.app_name :: tail))
    ∧ (∀ v : setup.version, ∃ tail, registry_steps v
        = (if v.value < INNO_VERSION 1 3 21 then [step.discard 4] else [])
            ++ step.load_string string_kind.encoded registry_field.key :: tail) :=
  ⟨by decide!, size_prefix_discarded (fun _ _ is => some (value.str [], is))
    ⟨INNO_VERSION 1 2 10, 32, false, true⟩ ⟨fun _ => value.str [], []⟩
    ⟨fun _ => value.str [], []⟩ [1, 2, 3, 4] [9, 9, 9, 9] (List.replicate 99 0)
    (by decide) (by decide) (by decide)⟩

/-! ## The options along a sequence of statements -/

/-- A statement that does not write to `options` leaves them as they are. -/
theorem exec_options_of_not_sets {F O : Type} [DecidableEq F] [DecidableEq O]
    (ext : externals) (v : version) (s : step F O) (hs : s.sets_options = false)
    (r r1 : record F O) (is is1 : List Nat) (h : exec ext v s r is = some (r1, is1)) :
    r1.options = r.options := by
  cases s <;> simp only [step.sets_options, reduceCtorEq] at hs <;> simp only [exec] at h
  case discard n =>
    cases hr : read n is with
    | none => simp [hr] at h
    | some p =>
      simp only [hr, Option.some.injEq, Prod.mk.injEq] at h
      rw [← h.1]
  case load_string k f =>
    cases hr : load_string is with
    | none => simp [hr] at h
    | some p =>
      simp only [hr, Option.some.injEq, Prod.mk.injEq] at h
      rw [← h.1]
      rfl
  case clear f =>
    simp only [Option.some.injEq, Prod.mk.injEq] at h
    rw [← h.1]
    rfl
  case load_number f n sg =>
    cases hr : load_number n sg is with
    | none => simp [hr] at h
    | some p =>
      simp only [hr, Option.some.injEq, Prod.mk.injEq] at h
      rw [← h.1]
      rfl
  case assign f x =>
    simp only [Option.some.injEq, Prod.mk.injEq] at h
    rw [← h.1]
    rfl
  case read_buffer f n =>
    cases hr : read n is with
    | none => simp [hr] at h
    | some p =>
      simp only [hr, Option.some.injEq, Prod.mk.injEq] at h
      rw [← h.1]
      rfl
  case load_enum f m =>
    cases hr : read 1 is with
    | none => simp [hr] at h
    | some p =>
      simp only [hr, Option.some.injEq, Prod.mk.injEq] at h
      rw [← h.1]
      rfl
  case load_flags f t =>
    cases hr : read (mask_bytes t.length) is with
    | none => simp [hr] at h
    | some p =>
      simp only [hr, Option.some.injEq, Prod.mk.injEq] at h
      rw [← h.1]
      rfl
  case derive f flag yes no =>
    simp only [Option.some.injEq, Prod.mk.injEq] at h
    rw [← h.1]
    rfl
  case tail_text f size =>
    cases hz : r.field size with
    | num n =>
      simp only [hz] at h
      by_cases hn : 0 < n
      · simp only [if_pos hn] at h
        cases hr : read n.toNat is with
        | none => simp [hr] at h
        | some p =>
          simp only [hr, Option.some.injEq, Prod.mk.injEq] at h
          rw [← h.1]
          rfl
      · simp only [if_neg hn, Option.some.injEq, Prod.mk.injEq] at h
        rw [← h.1]
    | str x =>
      simp only [hz, Option.some.injEq, Prod.mk.injEq] at h
      rw [← h.1]
    | sym x =>
      simp only [hz, Option.some.injEq, Prod.mk.injEq] at h
      rw [← h.1]
    | set x =>
      simp only [hz, Option.some.injEq, Prod.mk.injEq] at h
      rw [← h.1]
  case load_external e f =>
    cases hr : ext e v is with
    | none => simp [hr] at h
    | some p =>
      simp only [hr, Option.some.injEq, Prod.mk.injEq] at h
      rw [← h.1]
      rfl
  case load_hive f =>
    cases hr : read 4 is with
    | none => simp [hr] at h
    | some p =>
      simp only [hr, Option.some.injEq, Prod.mk.injEq] at h
      rw [← h.1]
      rfl

/-- A sequence without a statement that writes to `options` leaves them as
they are. -/
theorem run_options_of_filter_nil {F O : Type} [DecidableEq F] [DecidableEq O]
    (ext : externals) (v : version) :
    ∀ (steps : List (step F O)) (r r1 : record F O) (is is1 : List Nat),
      steps.filter (fun s => s.sets_options) = [] →
      run ext v steps r is = some (r1, is1) → r1.options = r.options := by
  intro steps
  induction steps with
  | nil =>
    intro r r1 is is1 _ h
    simp only [run, Option.some.injEq, Prod.mk.injEq] at h
    rw [← h.1]
  | cons s rest ih =>
    intro r r1 is is1 hf h
    have hs : s.sets_options = false := by
      cases hb : s.sets_options with
      | false => rfl
      | true => simp [List.filter_cons, hb] at hf
    have hrest : rest.filter (fun s => s.sets_options) = [] := by
      simpa [List.filter_cons, hs] using hf
    simp only [run] at h
    cases he : exec ext v s r is with
    | none => simp [he] at h
    | some p =>
      simp only [he] at h
      rw [ih p.1 r1 p.2 is1 hrest h, exec_options_of_not_sets ext v s hs r p.1 is p.2 he]

/-- A sequence whose first statement that writes to `options` is `s` runs `s`
on the options it started with, and what follows `s` holds the other
statements that write to `options`. -/
theorem run_split_of_filter_cons {F O : Type} [DecidableEq F] [DecidableEq O]
    (ext : externals) (v : version) (steps : List (step F O)) (s : step F O)
    (others : List (step F O)) (r r1 : record F O) (is is1 : List Nat)
    (hf : steps.filter (fun s => s.sets_options) = s :: others)
    (h : run ext v steps r is = some (r1, is1)) :
    ∃ (ra rb : record F O) (isa isb : List Nat) (rest : List (step F O)),
      ra.options = r.options ∧ exec ext v s ra isa = some (rb, isb)
      ∧ rest.filter (fun s => s.sets_options) = others
      ∧ run ext v rest rb isb = some (r1, is1) := by
  obtain ⟨l1, l2, hl, hl1, -, hl2⟩ := List.filter_eq_cons_iff.mp hf
  rw [hl, run_append] at h
  have hl1nil : l1.filter (fun s => s.sets_options) = [] := by
    rw [List.filter_eq_nil_iff]
    intro a ha
    exact hl1 a ha
  cases h1 : run ext v l1 r is with
  | none => simp [h1] at h
  | some p =>
    simp only [h1, run] at h
    cases h2 : exec ext v s p.1 p.2 with
    | none => simp [h2] at h
    | some q =>
      simp only [h2] at h
      exact ⟨p.1, q.1, p.2, q.2, l2,
        run_options_of_filter_nil ext v l1 r p.1 is p.2 hl1nil h1, h2, hl2, h⟩

/-- The statements of `header::load` that write to `options`, in order:
`options = 0`, the stored enum of lines 358 to 365 for a version from 3.0.0
and before 3.0.3, and the flag reader. -/
theorem header_steps_set_options (v : version) :
    (header_steps v).filter (fun s => s.sets_options)
      = step.clear_options
        :: ((if v.value ≥ INNO_VERSION 3 0 0 ∧ v.value < INNO_VERSION 3 0 3 then
            [step.option_enum stored_bool_auto_no_yes
              [(symbol.Yes, header_flag.AlwaysRestart),
               (symbol.Auto, header_flag.RestartIfNeededByRun)]]
          else [])
        ++ [step.flag_reader (header_flag_actions v)]) := by
  simp only [header_steps, header_field_steps, header_steps_129_166, header_steps_167_195,
    header_steps_196_239, header_steps_241_293, header_steps_295_332, header_steps_334_365,
    header_steps_367_386, header_steps_388_414, password_steps, header_extra_byte,
    header_derived_steps, List.flatten_cons, List.flatten_nil, List.filter_append,
    apply_ite (List.filter _), List.filter_cons, List.filter_nil, step.sets_options,
    List.append_nil, List.nil_append, if_true, if_false, ite_self, Bool.false_eq_true,
    inno_1_3_21, inno_2_0_0, inno_2_0_1, inno_2_0_6, inno_2_0_7, inno_2_0_17, inno_2_0_18,
    inno_3_0_0, inno_3_0_1, inno_3_0_3, inno_3_0_4, inno_3_0_6_1, inno_4_0_0, inno_4_0_1,
    inno_4_0_9, inno_4_0_10, inno_4_0_11, inno_4_1_0, inno_4_1_2, inno_4_1_3, inno_4_1_5,
    inno_4_1_8, inno_4_2_0, inno_4_2_1, inno_4_2_2, inno_4_2_4, inno_4_2_5, inno_4_2_6,
    inno_5_0_0, inno_5_0_4, inno_5_1_0, inno_5_1_7, inno_5_1_13, inno_5_2_1, inno_5_2_5,
    inno_5_3_3, inno_5_3_6, inno_5_3_7, inno_5_3_8, inno_5_3_9, inno_5_3_10, inno_5_5_0,
    inno_5_5_0_1, inno_5_5_6, ge_iff_le, List.cons_append]

/-- The one statement of `RegistryEntry::load` that writes to `options` is
the flag reader. -/
theorem registry_steps_set_options (v : version) :
    (registry_steps v).filter (fun s => s.sets_options)
      = [step.flag_reader_assign (registry_flag_actions v)] := by
  simp only [registry_steps, List.flatten_cons, List.flatten_nil, List.filter_append,
    apply_ite (List.filter _), List.filter_cons, List.filter_nil, step.sets_options,
    List.append_nil, List.nil_append, if_true, if_false, ite_self, Bool.false_eq_true,
    List.cons_append]

/-- A successful read gives the first `n` bytes and leaves the others. -/
theorem read_some (n : Nat) (is bs is1 : List Nat) (h : read n is = some (bs, is1)) :
    bs.length = n ∧ is = bs ++ is1 := by
  unfold read at h
  by_cases hn : n ≤ is.length
  · rw [if_pos hn] at h
    obtain ⟨rfl, rfl⟩ := Prod.mk.inj (Option.some.inj h)
    exact ⟨by rw [List.length_take]; omega, (List.take_append_drop n is).symm⟩
  · rw [if_neg hn] at h
    exact absurd h (by simp)

/-- After `options = 0` the options are empty. -/
theorem exec_clear_options {F O : Type} [DecidableEq F] [DecidableEq O] (ext : externals)
    (v : version) (r r1 : record F O) (is is1 : List Nat)
    (h : exec ext v step.clear_options r is = some (r1, is1)) : r1.options = [] := by
  simp only [exec, Option.some.injEq, Prod.mk.injEq] at h
  rw [← h.1]

/-- The stored enum whose value sets options appends the options chosen by
one ordinal. -/
theorem exec_option_enum {F O : Type} [DecidableEq F] [DecidableEq O] (ext : externals)
    (v : version) (map : enum_map) (choices : List (symbol × O)) (r r1 : record F O)
    (is is1 : List Nat) (h : exec ext v (step.option_enum map choices) r is = some (r1, is1)) :
    ∃ n, r1.options = r.options
      ++ (choices.filter (fun c => decide (c.1 = map.values.getD n map.default))).map
        (fun c => c.2) := by
  simp only [exec] at h
  cases hr : read 1 is with
  | none => simp [hr] at h
  | some p =>
    simp only [hr, Option.some.injEq, Prod.mk.injEq] at h
    exact ⟨little_endian p.1, by rw [← h.1]⟩

/-- The flag reader of `header::load` appends the flags set without reading
and the flags whose bit is set in the mask it reads. -/
theorem exec_flag_reader {F O : Type} [DecidableEq F] [DecidableEq O] (ext : externals)
    (v : version) (actions : List (flag_action O)) (r r1 : record F O)
    (is is1 : List Nat) (h : exec ext v (step.flag_reader actions) r is = some (r1, is1)) :
    ∃ mask, mask.length = mask_bytes (registered actions).length ∧ is = mask ++ is1
      ∧ r1.options = r.options ++ presets actions
          ++ decode_flags (registered actions) 0 mask := by
  simp only [exec] at h
  cases hr : read (mask_bytes (registered actions).length) is with
  | none => simp [hr] at h
  | some p =>
    simp only [hr, Option.some.injEq, Prod.mk.injEq] at h
    obtain ⟨h1, h2⟩ := read_some _ _ _ _ hr
    exact ⟨p.1, h1, by rw [← h.2]; exact h2, by rw [← h.1]⟩

/-- The flag reader of `RegistryEntry::load` sets the options to the flags
whose bit is set in the mask it reads. -/
theorem exec_flag_reader_assign {F O : Type} [DecidableEq F] [DecidableEq O]
    (ext : externals) (v : version) (actions : List (flag_action O)) (r r1 : record F O)
    (is is1 : List Nat)
    (h : exec ext v (step.flag_reader_assign actions) r is = some (r1, is1)) :
    ∃ mask, mask.length = mask_bytes (registered actions).length ∧ is = mask ++ is1
      ∧ r1.options = decode_flags (registered actions) 0 mask := by
  simp only [exec] at h
  cases hr : read (mask_bytes (registered actions).length) is with
  | none => simp [hr] at h
  | some p =>
    simp only [hr, Option.some.injEq, Prod.mk.injEq] at h
    obtain ⟨h1, h2⟩ := read_some _ _ _ _ hr
    exact ⟨p.1, h1, by rw [← h.2]; exact h2, by rw [← h.1]⟩

/-- The options that `header::load` returns: what the stored enum of lines 358
to 365 chose, if the version has it, then the flags set without reading, then
the flags whose bit is set in the mask. -/
theorem header_options_after_load (ext : externals) (self r1 : header) (is is1 : List Nat)
    (v : version) (h : header.load ext self is v = some (r1, is1)) :
    ∃ (chosen : List header_flag) (mask : List Nat),
      (chosen = [] ∨ ((v.value ≥ INNO_VERSION 3 0 0 ∧ v.value < INNO_VERSION 3 0 3)
        ∧ ∃ n, chosen = ([(symbol.Yes, header_flag.AlwaysRestart),
            (symbol.Auto, header_flag.RestartIfNeededByRun)].filter
              (fun c => decide (c.1 = stored_bool_auto_no_yes.values.getD n
                stored_bool_auto_no_yes.default))).map (fun c => c.2)))
      ∧ mask.length = mask_bytes (registered (header_flag_actions v)).length
      ∧ r1.options = chosen ++ presets (header_flag_actions v)
          ++ decode_flags (registered (header_flag_actions v)) 0 mask := by
  unfold header.load at h
  obtain ⟨ra, rb, isa, isb, rest, -, hexec, hrest, hrun⟩ :=
    run_split_of_filter_cons ext v _ _ _ self r1 is is1 (header_steps_set_options v) h
  have hb := exec_clear_options ext v ra rb isa isb hexec
  by_cases hc : v.value ≥ INNO_VERSION 3 0 0 ∧ v.value < INNO_VERSION 3 0 3
  · rw [if_pos hc] at hrest
    simp only [List.cons_append, List.nil_append] at hrest
    obtain ⟨ra2, rb2, isa2, isb2, rest2, hopt2, hexec2, hrest2, hrun2⟩ :=
      run_split_of_filter_cons ext v _ _ _ rb r1 isb is1 hrest hrun
    obtain ⟨n, hn⟩ := exec_option_enum ext v _ _ ra2 rb2 isa2 isb2 hexec2
    obtain ⟨ra3, rb3, isa3, isb3, rest3, hopt3, hexec3, hrest3, hrun3⟩ :=
      run_split_of_filter_cons ext v _ _ _ rb2 r1 isb2 is1 hrest2 hrun2
    obtain ⟨mask, hm, -, ho⟩ := exec_flag_reader ext v _ ra3 rb3 isa3 isb3 hexec3
    have hfin := run_options_of_filter_nil ext v rest3 rb3 r1 isb3 is1 hrest3 hrun3
    refine ⟨_, mask, Or.inr ⟨hc, n, rfl⟩, hm, ?_⟩
    rw [hfin, ho, hopt3, hn, hopt2, hb, List.nil_append]
  · rw [if_neg hc] at hrest
    simp only [List.nil_append] at hrest
    obtain ⟨ra3, rb3, isa3, isb3, rest3, hopt3, hexec3, hrest3, hrun3⟩ :=
      run_split_of_filter_cons ext v _ _ _ rb r1 isb is1 hrest hrun
    obtain ⟨mask, hm, -, ho⟩ := exec_flag_reader ext v _ ra3 rb3 isa3 isb3 hexec3
    have hfin := run_options_of_filter_nil ext v rest3 rb3 r1 isb3 is1 hrest3 hrun3
    refine ⟨[], mask, Or.inl rfl, hm, ?_⟩
    rw [hfin, ho, hopt3, hb]

/-! ## The flags of a flag-reader block -/

theorem registered_nil {O : Type} : registered ([] : List (flag_action O)) = [] := rfl

theorem registered_cons_add {O : Type} (f : O) (l : List (flag_action O)) :
    registered (flag_action.add f :: l) = f :: registered l := rfl

theorem registered_cons_preset {O : Type} (f : O) (l : List (flag_action O)) :
    registered (flag_action.preset f :: l) = registered l := rfl

theorem presets_nil {O : Type} : presets ([] : List (flag_action O)) = [] := rfl

theorem presets_cons_add {O : Type} (f : O) (l : List (flag_action O)) :
    presets (flag_action.add f :: l) = presets l := rfl

theorem presets_cons_preset {O : Type} (f : O) (l : List (flag_action O)) :
    presets (flag_action.preset f :: l) = f :: presets l := rfl

theorem registered_append {O : Type} (a b : List (flag_action O)) :
    registered (a ++ b) = registered a ++ registered b := by
  induction a with
  | nil => rfl
  | cons x rest ih =>
    cases x with
    | add f => rw [List.cons_append, registered_cons_add, registered_cons_add, ih]; rfl
    | preset f => rw [List.cons_append, registered_cons_preset, registered_cons_preset, ih]

theorem presets_append {O : Type} (a b : List (flag_action O)) :
    presets (a ++ b) = presets a ++ presets b := by
  induction a with
  | nil => rfl
  | cons x rest ih =>
    cases x with
    | add f => rw [List.cons_append, presets_cons_add, presets_cons_add, ih]
    | preset f => rw [List.cons_append, presets_cons_preset, presets_cons_preset, ih]; rfl

/-- The flags that `header::load` sets without reading them:
`AllowCancelDuringInstall` before 4.0.9 and `AllowNetworkDrive` before
5.5.0. -/
theorem header_presets (v : version) :
    presets (header_flag_actions v)
      = (if v.value < INNO_VERSION 4 0 9 then [header_flag.AllowCancelDuringInstall] else [])
        ++ (if v.value < INNO_VERSION 5 5 0 then [header_flag.AllowNetworkDrive] else []) := by
  simp only [header_flag_actions, header_flags_431_463, header_flags_464_484,
    header_flags_485_507, header_flags_508_522, header_flags_523_543, header_flags_544_562,
    List.flatten_cons, List.flatten_nil, presets_append, apply_ite presets, presets_nil,
    presets_cons_add, presets_cons_preset,
    List.append_nil, List.nil_append, ite_self, inno_1_3_21, inno_2_0_0, inno_2_0_1, inno_2_0_6,
      inno_2_0_7, inno_2_0_17, inno_2_0_18, inno_3_0_0, inno_3_0_1, inno_3_0_3, inno_3_0_4,
      inno_3_0_6_1, inno_4_0_0, inno_4_0_1, inno_4_0_9, inno_4_0_10, inno_4_0_11, inno_4_1_0,
      inno_4_1_2, inno_4_1_3, inno_4_1_5, inno_4_1_8, inno_4_2_0, inno_4_2_1, inno_4_2_2,
      inno_4_2_4, inno_4_2_5, inno_4_2_6, inno_5_0_0, inno_5_0_4, inno_5_1_0, inno_5_1_7,
      inno_5_1_13, inno_5_2_1, inno_5_2_5, inno_5_3_3, inno_5_3_6, inno_5_3_7, inno_5_3_8,
      inno_5_3_9, inno_5_3_10, inno_5_5_0, inno_5_5_0_1, inno_5_5_6, ge_iff_le]
  split_ifs <;> first | rfl | omega

/-- The flags that `RegistryEntry::load` registers, in order. -/
theorem registry_registered (v : version) :
    registered (registry_flag_actions v)
      = (if v.bits ≠ 16 then
          [registry_option.CreateValueIfDoesntExist, registry_option.UninsDeleteValue]
        else [])
        ++ ([registry_option.UninsClearValue, registry_option.UninsDeleteEntireKey,
            registry_option.UninsDeleteEntireKeyIfEmpty, registry_option.PreserveStringType]
        ++ ((if v.value ≥ INNO_VERSION 1 3 21 then
            [registry_option.DeleteKey, registry_option.DeleteValue, registry_option.NoError,
              registry_option.DontCreateKey]
          else [])
        ++ (if v.value ≥ INNO_VERSION 5 1 0 then
            [registry_option.Bits32, registry_option.Bits64]
          else []))) := by
  simp only [registry_flag_actions, List.flatten_cons, List.flatten_nil, registered_append,
    apply_ite registered, registered_nil, registered_cons_add, List.append_nil]

/-! ## Claims on the flags of the flag readers -/

/-- The flags that source lines 431 to 463 of `header::load` register are among
the flags named there, in the order of the source. -/
theorem header_flags_431_463_sublist (v : version) :
    List.Sublist (registered (header_flags_431_463 v))
      [header_flag.DisableStartupPrompt, header_flag.Uninstallable, header_flag.CreateAppDir,
       header_flag.DisableDirPage, header_flag.DisableDirExistsWarning,
       header_flag.DisableProgramGroupPage, header_flag.AllowNoIcons, header_flag.AlwaysRestart,
       header_flag.BackSolid, header_flag.AlwaysUsePersonalGroup, header_flag.WindowVisible,
       header_flag.WindowShowCaption, header_flag.WindowResizable,
       header_flag.WindowStartMaximized, header_flag.EnableDirDoesntExistWarning,
       header_flag.DisableAppendDir, header_flag.Password, header_flag.AllowRootDirectory,
       header_flag.DisableFinishedPage] := by
  simp only [header_flags_431_463, List.flatten_cons, List.flatten_nil, registered_append,
    apply_ite registered, registered_nil, registered_cons_add, registered_cons_preset,
    List.append_nil, List.nil_append]
  split_ifs <;> decide

/-- The flags that source lines 464 to 484 of `header::load` register are among
the flags named there, in the order of the source. -/
theorem header_flags_464_484_sublist (v : version) :
    List.Sublist (registered (header_flags_464_484 v))
      [header_flag.AdminPrivilegesRequired, header_flag.AlwaysCreateUninstallIcon,
       header_flag.OverwriteUninstRegEntries, header_flag.ChangesAssociations,
       header_flag.CreateUninstallRegKey, header_flag.UsePreviousAppDir,
       header_flag.BackColorHorizontal, header_flag.UsePreviousGroup,
       header_flag.UpdateUninstallLogAppName] := by
  simp only [header_flags_464_484, List.flatten_cons, List.flatten_nil, registered_append,
    apply_ite registered, registered_nil, registered_cons_add, registered_cons_preset,
    List.append_nil, List.nil_append]
  split_ifs <;> decide

/-- The flags that source lines 485 to 507 of `header::load` register are among
the flags named there, in the order of the source. -/
theorem header_flags_485_507_sublist (v : version) :
    List.Sublist (registered (header_flags_485_507 v))
      [header_flag.UsePreviousSetupType, header_flag.DisableReadyMemo,
       header_flag.AlwaysShowComponentsList, header_flag.FlatComponentsList,
       header_flag.ShowComponentSizes, header_flag.UsePreviousTasks,
       header_flag.DisableReadyPage, header_flag.AlwaysShowDirOnReadyPage,
       header_flag.AlwaysShowGroupOnReadyPage, header_flag.BzipUsed, header_flag.AllowUNCPath,
       header_flag.UserInfoPage, header_flag.UsePreviousUserInfo] := by
  simp only [header_flags_485_507, List.flatten_cons, List.flatten_nil, registered_append,
    apply_ite registered, registered_nil, registered_cons_add, registered_cons_preset,
    List.append_nil, List.nil_append]
  split_ifs <;> decide

/-- The flags that source lines 508 to 522 of `header::load` register are among
the flags named there, in the order of the source. -/
theorem header_flags_508_522_sublist (v : version) :
    List.Sublist (registered (header_flags_508_522 v))
      [header_flag.UninstallRestartComputer, header_flag.RestartIfNeededByRun,
       header_flag.ShowTasksTreeLines, header_flag.ShowLanguageDialog,
       header_flag.DetectLanguageUsingLocale] := by
  simp only [header_flags_508_522, List.flatten_cons, List.flatten_nil, registered_append,
    apply_ite registered, registered_nil, registered_cons_add, registered_cons_preset,
    List.append_nil, List.nil_append]
  split_ifs <;> decide

/-- The flags that source lines 523 to 543 of `header::load` register are among
the flags named there, in the order of the source. -/
theorem header_flags_523_543_sublist (v : version) :
    List.Sublist (registered (header_flags_523_543 v))
      [header_flag.AllowCancelDuringInstall, header_flag.WizardImageStretch,
       header_flag.AppendDefaultDirName, header_flag.AppendDefaultGroupName,
       header_flag.EncryptionUsed, header_flag.ChangesEnvironment,
       header_flag.ShowUndisplayableLanguages] := by
  simp only [header_flags_523_543, List.flatten_cons, List.flatten_nil, registered_append,
    apply_ite registered, registered_nil, registered_cons_add, registered_cons_preset,
    List.append_nil, List.nil_append]
  split_ifs <;> decide

/-- The flags that source lines 544 to 562 of `header::load` register are among
the flags named there, in the order of the source. -/
theorem header_flags_544_562_sublist (v : version) :
    List.Sublist (registered (header_flags_544_562 v))
      [header_flag.SetupLogging, header_flag.SignedUninstaller, header_flag.UsePreviousLanguage,
       header_flag.DisableWelcomePage, header_flag.CloseApplications,
       header_flag.RestartApplications, header_flag.AllowNetworkDrive] := by
  simp only [header_flags_544_562, List.flatten_cons, List.flatten_nil, registered_append,
    apply_ite registered, registered_nil, registered_cons_add, registered_cons_preset,
    List.append_nil, List.nil_append]
  split_ifs <;> decide

/-- The flags that `header::load` registers are among the sixty flags that
its flag-reader block names, in the order of the source. -/
theorem header_registered_sublist (v : version) :
    List.Sublist (registered (header_flag_actions v))
      [header_flag.DisableStartupPrompt, header_flag.Uninstallable, header_flag.CreateAppDir,
       header_flag.DisableDirPage, header_flag.DisableDirExistsWarning,
       header_flag.DisableProgramGroupPage, header_flag.AllowNoIcons, header_flag.AlwaysRestart,
       header_flag.BackSolid, header_flag.AlwaysUsePersonalGroup, header_flag.WindowVisible,
       header_flag.WindowShowCaption, header_flag.WindowResizable,
       header_flag.WindowStartMaximized, header_flag.EnableDirDoesntExistWarning,
       header_flag.DisableAppendDir, header_flag.Password, header_flag.AllowRootDirectory,
       header_flag.DisableFinishedPage, header_flag.AdminPrivilegesRequired,
       header_flag.AlwaysCreateUninstallIcon, header_flag.OverwriteUninstRegEntries,
       header_flag.ChangesAssociations, header_flag.CreateUninstallRegKey,
       header_flag.UsePreviousAppDir, header_flag.BackColorHorizontal,
       header_flag.UsePreviousGroup, header_flag.UpdateUninstallLogAppName,
       header_flag.UsePreviousSetupType, header_flag.DisableReadyMemo,
       header_flag.AlwaysShowComponentsList, header_flag.FlatComponentsList,
       header_flag.ShowComponentSizes, header_flag.UsePreviousTasks,
       header_flag.DisableReadyPage, header_flag.AlwaysShowDirOnReadyPage,
       header_flag.AlwaysShowGroupOnReadyPage, header_flag.BzipUsed, header_flag.AllowUNCPath,
       header_flag.UserInfoPage, header_flag.UsePreviousUserInfo,
       header_flag.UninstallRestartComputer, header_flag.RestartIfNeededByRun,
       header_flag.ShowTasksTreeLines, header_flag.ShowLanguageDialog,
       header_flag.DetectLanguageUsingLocale, header_flag.AllowCancelDuringInstall,
       header_flag.WizardImageStretch, header_flag.AppendDefaultDirName,
       header_flag.AppendDefaultGroupName, header_flag.EncryptionUsed,
       header_flag.ChangesEnvironment, header_flag.ShowUndisplayableLanguages,
       header_flag.SetupLogging, header_flag.SignedUninstaller, header_flag.UsePreviousLanguage,
       header_flag.DisableWelcomePage, header_flag.CloseApplications,
       header_flag.RestartApplications, header_flag.AllowNetworkDrive] := by
  simp only [header_flag_actions, List.flatten_cons, List.flatten_nil, registered_append,
    List.append_nil]
  exact (header_flags_431_463_sublist v).append ((header_flags_464_484_sublist v).append
    ((header_flags_485_507_sublist v).append ((header_flags_508_522_sublist v).append
    ((header_flags_523_543_sublist v).append (header_flags_544_562_sublist v)))))

/-- C26: for every version descriptor the flags that `header::load` registers
with its flag reader are pairwise different, and so are the flags that
`RegistryEntry::load` registers: two different positions of either list never
hold the same flag. -/
theorem registered_flags_nodup (v : version) :
    (registered (header_flag_actions v)).Nodup
    ∧ (registered (registry_flag_actions v)).Nodup
    ∧ (∀ i j : Nat, i < j → j < (registered (header_flag_actions v)).length →
        (registered (header_flag_actions v)).get? i
          ≠ (registered (header_flag_actions v)).get? j)
    ∧ (∀ i j : Nat, i < j → j < (registered (registry_flag_actions v)).length →
        (registered (registry_flag_actions v)).get? i
          ≠ (registered (registry_flag_actions v)).get? j) := by
  have hh : (registered (header_flag_actions v)).Nodup :=
    List.Nodup.sublist (header_registered_sublist v) (by decide)
  have hr : (registered (registry_flag_actions v)).Nodup := by
    rw [registry_registered]
    split_ifs <;> decide
  refine ⟨hh, hr, ?_, ?_⟩
  · intro i j hij hj
    have := (List.nodup_iff_getElem?_ne_getElem?.mp hh) i j hij hj
    simpa [List.get?_eq_getElem?] using this
  · intro i j hij hj
    have := (List.nodup_iff_getElem?_ne_getElem?.mp hr) i j hij hj
    simpa [List.get?_eq_getElem?] using this

/-- The statements of `header::load` before the flag reader that write to
`options`. -/
theorem header_field_set_options (v : version) :
    (header_field_steps v ++ header_extra_byte v).filter (fun s => s.sets_options)
      = step.clear_options
        :: (if v.value ≥ INNO_VERSION 3 0 0 ∧ v.value < INNO_VERSION 3 0 3 then
            [step.option_enum stored_bool_auto_no_yes
              [(symbol.Yes, header_flag.AlwaysRestart),
               (symbol.Auto, header_flag.RestartIfNeededByRun)]]
          else []) := by
  simp only [header_steps, header_field_steps, header_steps_129_166, header_steps_167_195,
    header_steps_196_239, header_steps_241_293, header_steps_295_332, header_steps_334_365,
    header_steps_367_386, header_steps_388_414, password_steps, header_extra_byte,
    header_derived_steps, List.flatten_cons, List.flatten_nil, List.filter_append,
    apply_ite (List.filter _), List.filter_cons, List.filter_nil, step.sets_options,
    List.append_nil, List.nil_append, if_true, if_false, ite_self, Bool.false_eq_true,
    inno_1_3_21, inno_2_0_0, inno_2_0_1, inno_2_0_6, inno_2_0_7, inno_2_0_17, inno_2_0_18,
    inno_3_0_0, inno_3_0_1, inno_3_0_3, inno_3_0_4, inno_3_0_6_1, inno_4_0_0, inno_4_0_1,
    inno_4_0_9, inno_4_0_10, inno_4_0_11, inno_4_1_0, inno_4_1_2, inno_4_1_3, inno_4_1_5,
    inno_4_1_8, inno_4_2_0, inno_4_2_1, inno_4_2_2, inno_4_2_4, inno_4_2_5, inno_4_2_6,
    inno_5_0_0, inno_5_0_4, inno_5_1_0, inno_5_1_7, inno_5_1_13, inno_5_2_1, inno_5_2_5,
    inno_5_3_3, inno_5_3_6, inno_5_3_7, inno_5_3_8, inno_5_3_9, inno_5_3_10, inno_5_5_0,
    inno_5_5_0_1, inno_5_5_6, ge_iff_le, List.cons_append]

/-- From 5.5.0 on no statement follows the flag reader of `header::load`. -/
theorem header_derived_steps_nil (v : version) (hv : v.value ≥ INNO_VERSION 5 5 0) :
    header_derived_steps v = [] := by
  rw [inno_5_5_0] at hv
  simp only [header_derived_steps, List.flatten_cons, List.flatten_nil, List.append_nil,
    inno_1_3_21, inno_2_0_0, inno_2_0_1, inno_2_0_6, inno_2_0_7, inno_2_0_17, inno_2_0_18,
    inno_3_0_0, inno_3_0_1, inno_3_0_3, inno_3_0_4, inno_3_0_6_1, inno_4_0_0, inno_4_0_1,
    inno_4_0_9, inno_4_0_10, inno_4_0_11, inno_4_1_0, inno_4_1_2, inno_4_1_3, inno_4_1_5,
    inno_4_1_8, inno_4_2_0, inno_4_2_1, inno_4_2_2, inno_4_2_4, inno_4_2_5, inno_4_2_6,
    inno_5_0_0, inno_5_0_4, inno_5_1_0, inno_5_1_7, inno_5_1_13, inno_5_2_1, inno_5_2_5,
    inno_5_3_3, inno_5_3_6, inno_5_3_7, inno_5_3_8, inno_5_3_9, inno_5_3_10, inno_5_5_0,
    inno_5_5_0_1, inno_5_5_6]
  split_ifs <;> first | rfl | omega

/-- No bit is set in a mask of zero bytes. -/
theorem test_bit_zero (mask : List Nat) (h : ∀ b ∈ mask, b = 0) (i : Nat) :
    test_bit mask i = false := by
  have hz : mask.getD (i / 8) 0 = 0 := by
    by_cases hi : i / 8 < mask.length
    · rw [List.getD_eq_getElem _ _ hi]
      exact h _ (List.getElem_mem hi)
    · rw [List.getD_eq_default _ _ (by omega)]
  unfold test_bit
  rw [hz, Nat.zero_div]
  rfl

/-- A mask of zero bytes sets no flag. -/
theorem decode_flags_zero {O : Type} (mask : List Nat) (h : ∀ b ∈ mask, b = 0) :
    ∀ (flags : List O) (i : Nat), decode_flags flags i mask = [] := by
  intro flags
  induction flags with
  | nil => intro i; rfl
  | cons f fs ih =>
    intro i
    simp only [decode_flags, test_bit_zero mask h i, Bool.false_eq_true, if_false, ih,
      List.append_nil]

/-- C27: the flags that `header::load` sets without reading them are
`AllowCancelDuringInstall` before 4.0.9 and `AllowNetworkDrive` before 5.5.0,
so the options it returns hold them for these versions whatever the flag mask
is; from 5.5.0 on, when the statements before the flag reader leave a stream
that starts with a mask of zero bytes, the call returns empty options and
leaves what follows the mask. -/
theorem header_options_presets (ext : externals) (self : header) (is mask rest : List Nat)
    (version : version) :
    presets (header_flag_actions version)
      = (if version.value < INNO_VERSION 4 0 9 then [header_flag.AllowCancelDuringInstall]
          else [])
        ++ (if version.value < INNO_VERSION 5 5 0 then [header_flag.AllowNetworkDrive]
          else [])
    ∧ holds_after (header.load ext self is version)
        (fun r => (version.value < INNO_VERSION 4 0 9
            → header_flag.AllowCancelDuringInstall ∈ r.options)
          ∧ (version.value < INNO_VERSION 5 5 0
            → header_flag.AllowNetworkDrive ∈ r.options))
    ∧ (version.value ≥ INNO_VERSION 5 5 0 →
        (run ext version (header_field_steps version ++ header_extra_byte version)
          self is).map (fun p => p.2) = some (mask ++ rest) →
        mask.length = mask_bytes (registered (header_flag_actions version)).length →
        (∀ b ∈ mask, b = 0) →
        (header.load ext self is version).map (fun p => (p.1.options, p.2))
          = some ([], rest)) := by
  refine ⟨header_presets version, ?_, ?_⟩
  · intro r is1 h
    obtain ⟨chosen, m, -, -, ho⟩ := header_options_after_load ext self r is is1 version h
    rw [ho, header_presets]
    constructor
    · intro hv
      rw [if_pos hv]
      simp
    · intro hv
      rw [if_pos hv]
      simp
  · intro hv hrun hlen hzero
    cases hr : run ext version (header_field_steps version ++ header_extra_byte version)
        self is with
    | none =>
      rw [hr] at hrun
      exact absurd hrun (by simp)
    | some p =>
      obtain ⟨rm, ism⟩ := p
      rw [hr] at hrun
      simp only [Option.map_some', Option.some.injEq] at hrun
      subst hrun
      have hfilter := header_field_set_options version
      have hnot : ¬ (version.value ≥ INNO_VERSION 3 0 0
          ∧ version.value < INNO_VERSION 3 0 3) := by
        rw [inno_5_5_0] at hv
        rw [inno_3_0_3]
        omega
      rw [if_neg hnot] at hfilter
      obtain ⟨ra, rb, isa, isb, others, -, hexec, hothers, hrest⟩ :=
        run_split_of_filter_cons ext version _ _ _ self rm is (mask ++ rest) hfilter hr
      have hrm : rm.options = [] := by
        rw [run_options_of_filter_nil ext version others rb rm isb (mask ++ rest) hothers hrest]
        exact exec_clear_options ext version ra rb isa isb hexec
      have hpre : presets (header_flag_actions version) = [] := by
        rw [header_presets, if_neg (by rw [inno_5_5_0] at hv; rw [inno_4_0_9]; omega),
          if_neg (by omega)]
        rfl
      have hread := read_append_of_length mask rest _ hlen
      unfold header.load header_steps
      rw [run_append, hr, header_derived_steps_nil version hv]
      simp only [run, exec, hread, hrm, hpre, decode_flags_zero mask hzero, List.append_nil,
        Option.map_some']

/-- C27 at 4.0.5 and at 5.5.0, on records of zero bytes: the first call
returns the two flags set without reading, the second returns no flag. -/
theorem header_options_presets_witness :
    (header.load (fun _ _ is => some (value.str [], is)) ⟨fun _ => value.str [], []⟩
        (List.replicate 223 0) ⟨INNO_VERSION 4 0 5, 32, false, true⟩).map
        (fun p => (p.1.options, p.2))
      = some ([header_flag.AllowCancelDuringInstall, header_flag.AllowNetworkDrive], [])
    ∧ (header.load (fun _ _ is => some (value.str [], is)) ⟨fun _ => value.str [], []⟩
        (List.replicate 264 0) ⟨INNO_VERSION 5 5 0, 32, true, true⟩).map
        (fun p => (p.1.options, p.2))
      = some ([], []) :=
  ⟨by decide!,
    (header_options_presets (fun _ _ is => some (value.str [], is))
      ⟨fun _ => value.str [], []⟩ (List.replicate 264 0) (List.replicate 6 0) []
      ⟨INNO_VERSION 5 5 0, 32, true, true⟩).2.2 (by decide) (by decide!) (by decide!)
      (by decide)⟩

/-- A decoded flag is one of the registered flags. -/
theorem decode_flags_subset {O : Type} (mask : List Nat) (x : O) :
    ∀ (flags : List O) (i : Nat), x ∈ decode_flags flags i mask → x ∈ flags := by
  intro flags
  induction flags with
  | nil => intro i h; simp [decode_flags] at h
  | cons f fs ih =>
    intro i h
    simp only [decode_flags, List.mem_append] at h
    cases h with
    | inl h1 =>
      by_cases hb : test_bit mask i = true
      · rw [if_pos hb, List.mem_singleton] at h1
        rw [h1]
        exact List.mem_cons_self _ _
      · rw [if_neg hb] at h1
        simp at h1
    | inr h2 => exact List.mem_cons_of_mem _ (ih (i + 1) h2)

/-- Where `header::load` registers `AlwaysRestart` and
`RestartIfNeededByRun`. -/
theorem header_restart_flags (v : version) :
    (registered (header_flag_actions v)).filter
        (fun f => decide (f = header_flag.AlwaysRestart
          ∨ f = header_flag.RestartIfNeededByRun))
      = (if v.value < INNO_VERSION 3 0 0 ∨ v.value ≥ INNO_VERSION 3 0 3 then
          [header_flag.AlwaysRestart] else [])
        ++ (if v.value ≥ INNO_VERSION 3 0 3 then [header_flag.RestartIfNeededByRun]
          else []) := by
  simp only [header_flag_actions, header_flags_431_463, header_flags_464_484,
    header_flags_485_507, header_flags_508_522, header_flags_523_543, header_flags_544_562,
    List.flatten_cons, List.flatten_nil, registered_append, apply_ite registered, registered_nil,
    registered_cons_add, registered_cons_preset, List.filter_append, apply_ite (List.filter _),
    List.filter_cons, List.filter_nil, reduceCtorEq, or_false, false_or, or_self, or_true,
    true_or, decide_False, decide_True, if_true, if_false, Bool.false_eq_true,
    List.append_nil, List.nil_append, ite_self]

/-- What the stored enum of lines 358 to 365 chooses for an ordinal: nothing
for `No`, one flag for `Yes` and for `Auto`. -/
theorem restart_choice (n : Nat) :
    ([(symbol.Yes, header_flag.AlwaysRestart),
        (symbol.Auto, header_flag.RestartIfNeededByRun)].filter
          (fun c => decide (c.1 = stored_bool_auto_no_yes.values.getD n
            stored_bool_auto_no_yes.default))).map (fun c => c.2)
      = (if n = 2 then [header_flag.AlwaysRestart]
        else if n = 1 then [] else [header_flag.RestartIfNeededByRun]) := by
  match n with
  | 0 => rfl
  | 1 => rfl
  | 2 => rfl
  | k + 3 =>
    have h1 : ¬ (k + 3 = 2) := by omega
    have h2 : ¬ (k + 3 = 1) := by omega
    rw [if_neg h1, if_neg h2]
    rfl

/-- C28: for a version from 3.0.0 and before 3.0.3 the statements of
`header::load` that write to `options` are `options = 0`, the stored enum of
the restart policy and the flag reader; the stored enum adds `AlwaysRestart`
for ordinal 2, nothing for ordinal 1 and `RestartIfNeededByRun` for any other
ordinal; the flag reader neither registers nor sets one of the two flags; so
the options returned never hold both. -/
theorem restart_policy_from_enum (ext : externals) (self r : header) (is rest : List Nat)
    (n : Nat) (version : version)
    (hv : version.value ≥ INNO_VERSION 3 0 0 ∧ version.value < INNO_VERSION 3 0 3) :
    (header_steps version).filter (fun s => s.sets_options)
      = [step.clear_options,
          step.option_enum stored_bool_auto_no_yes
            [(symbol.Yes, header_flag.AlwaysRestart),
             (symbol.Auto, header_flag.RestartIfNeededByRun)],
          step.flag_reader (header_flag_actions version)]
    ∧ exec ext version
        (step.option_enum stored_bool_auto_no_yes
          [(symbol.Yes, header_flag.AlwaysRestart),
           (symbol.Auto, header_flag.RestartIfNeededByRun)]) r (n :: rest)
      = some ({ r with options := r.options
          ++ (if n = 2 then [header_flag.AlwaysRestart]
            else if n = 1 then [] else [header_flag.RestartIfNeededByRun]) }, rest)
    ∧ header_flag.AlwaysRestart ∉ registered (header_flag_actions version)
    ∧ header_flag.RestartIfNeededByRun ∉ registered (header_flag_actions version)
    ∧ header_flag.AlwaysRestart ∉ presets (header_flag_actions version)
    ∧ header_flag.RestartIfNeededByRun ∉ presets (header_flag_actions version)
    ∧ holds_after (header.load ext self is version)
        (fun r1 => ¬ (header_flag.AlwaysRestart ∈ r1.options
          ∧ header_flag.RestartIfNeededByRun ∈ r1.options)) := by
  have hfil := header_restart_flags version
  have hc1 : ¬ (version.value < INNO_VERSION 3 0 0 ∨ version.value ≥ INNO_VERSION 3 0 3) := by
    omega
  have hc2 : ¬ (version.value ≥ INNO_VERSION 3 0 3) := by omega
  rw [if_neg hc1, if_neg hc2] at hfil
  have hreg : ∀ f, (f = header_flag.AlwaysRestart ∨ f = header_flag.RestartIfNeededByRun) →
      f ∉ registered (header_flag_actions version) := by
    intro f hf hmem
    have : f ∈ (registered (header_flag_actions version)).filter
        (fun f => decide (f = header_flag.AlwaysRestart
          ∨ f = header_flag.RestartIfNeededByRun)) :=
      List.mem_filter.mpr ⟨hmem, by simpa using hf⟩
    rw [hfil] at this
    simp at this
  have hpre : ∀ f, (f = header_flag.AlwaysRestart ∨ f = header_flag.RestartIfNeededByRun) →
      f ∉ presets (header_flag_actions version) := by
    intro f hf hmem
    rw [header_presets] at hmem
    rcases hf with rfl | rfl <;> (split_ifs at hmem <;> simp at hmem)
  have hread : read 1 (n :: rest) = some ([n], rest) := read_append_of_length [n] rest 1 rfl
  refine ⟨?_, ?_, hreg _ (Or.inl rfl), hreg _ (Or.inr rfl), hpre _ (Or.inl rfl),
    hpre _ (Or.inr rfl), ?_⟩
  · rw [header_steps_set_options, if_pos hv]
    rfl
  · simp only [exec, hread, little_endian, Nat.mul_zero, Nat.add_zero, restart_choice]
  · intro r1 is1 h
    obtain ⟨chosen, mask, hch, -, ho⟩ := header_options_after_load ext self r1 is is1 version h
    intro hboth
    rw [ho] at hboth
    have hin : ∀ f, (f = header_flag.AlwaysRestart ∨ f = header_flag.RestartIfNeededByRun) →
        f ∈ chosen ++ presets (header_flag_actions version)
          ++ decode_flags (registered (header_flag_actions version)) 0 mask → f ∈ chosen := by
      intro f hf hm
      rw [List.mem_append, List.mem_append] at hm
      rcases hm with (h1 | h2) | h3
      · exact h1
      · exact absurd h2 (hpre f hf)
      · exact absurd (decode_flags_subset mask f _ 0 h3) (hreg f hf)
    have ha := hin _ (Or.inl rfl) hboth.1
    have hb := hin _ (Or.inr rfl) hboth.2
    rcases hch with rfl | ⟨-, k, rfl⟩
    · simp at ha
    · rw [restart_choice] at ha hb
      split_ifs at ha hb <;> simp at ha hb

/-- C28 at 3.0.1 on a record whose restart ordinal is 2 and whose flag mask
has every bit set: the call returns options that hold `AlwaysRestart` and not
`RestartIfNeededByRun`. -/
theorem restart_policy_from_enum_witness :
    (header.load (fun _ _ is => some (value.str [], is)) ⟨fun _ => value.str [], []⟩
        (List.replicate 196 0 ++ [2] ++ List.replicate 5 255)
        ⟨INNO_VERSION 3 0 1, 32, false, true⟩).map
        (fun p => (decide (header_flag.AlwaysRestart ∈ p.1.options),
          decide (header_flag.RestartIfNeededByRun ∈ p.1.options), p.2))
      = some (true, false, [])
    ∧ holds_after
        (header.load (fun _ _ is => some (value.str [], is)) ⟨fun _ => value.str [], []⟩
          (List.replicate 196 0 ++ [2] ++ List.replicate 5 255)
          ⟨INNO_VERSION 3 0 1, 32, false, true⟩)
        (fun r1 => ¬ (header_flag.AlwaysRestart ∈ r1.options
          ∧ header_flag.RestartIfNeededByRun ∈ r1.options)) :=
  ⟨by decide!,
    (restart_policy_from_enum (fun _ _ is => some (value.str [], is))
      ⟨fun _ => value.str [], []⟩ ⟨fun _ => value.str [], []⟩
      (List.replicate 196 0 ++ [2] ++ List.replicate 5 255) [] 2
      ⟨INNO_VERSION 3 0 1, 32, false, true⟩ (by decide)).2.2.2.2.2.2⟩

/-! ## Claims on the options of `RegistryEntry::load` -/

/-- The decoded flags are the registered flags whose bit is set. -/
theorem decode_flags_mem {O : Type} (mask : List Nat) (x : O) :
    ∀ (flags : List O) (i : Nat), x ∈ decode_flags flags i mask
      ↔ ∃ k, k < flags.length ∧ flags.get? k = some x ∧ test_bit mask (i + k) = true := by
  intro flags
  induction flags with
  | nil =>
    intro i
    simp [decode_flags]
  | cons f fs ih =>
    intro i
    simp only [decode_flags, List.mem_append, ih (i + 1)]
    constructor
    · rintro (h | ⟨k, hk, hget, hbit⟩)
      · by_cases hb : test_bit mask i = true
        · rw [if_pos hb, List.mem_singleton] at h
          exact ⟨0, by simp, by simp [h], by simpa using hb⟩
        · rw [if_neg hb] at h
          simp at h
      · refine ⟨k + 1, by simp only [List.length_cons]; omega, by simpa using hget, ?_⟩
        rw [← hbit]
        congr 1
        omega
    · rintro ⟨k, hk, hget, hbit⟩
      cases k with
      | zero =>
        left
        simp only [List.get?_cons_zero, Option.some.injEq] at hget
        rw [Nat.add_zero] at hbit
        rw [if_pos hbit, hget]
        exact List.mem_singleton_self _
      | succ k =>
        right
        refine ⟨k, by simp only [List.length_cons] at hk; omega, by simpa using hget, ?_⟩
        rw [← hbit]
        congr 1
        omega

/-- C24: the one statement of `RegistryEntry::load` that writes to `options`
is its flag reader, which registers the flags of the version in the order of
the source and sets the options to the registered flags whose bit is set in
the mask, bits beyond the list being ignored; a mask whose bits 0 and 2 alone
are set gives `CreateValueIfDoesntExist` and `UninsClearValue` when
`bits != 16`, `UninsClearValue` and `UninsDeleteEntireKeyIfEmpty` when
`bits = 16`, and a mask of zero bytes gives no option. -/
theorem registry_options_decoded (ext : externals) (self r : RegistryEntry)
    (is mask rest : List Nat) (version : version)
    (hm : mask.length = mask_bytes (registered (registry_flag_actions version)).length) :
    (registry_steps version).filter (fun s => s.sets_options)
      = [step.flag_reader_assign (registry_flag_actions version)]
    ∧ registered (registry_flag_actions version)
      = (if version.bits ≠ 16 then
          [registry_option.CreateValueIfDoesntExist, registry_option.UninsDeleteValue]
        else [])
        ++ ([registry_option.UninsClearValue, registry_option.UninsDeleteEntireKey,
            registry_option.UninsDeleteEntireKeyIfEmpty, registry_option.PreserveStringType]
        ++ ((if version.value ≥ INNO_VERSION 1 3 21 then
            [registry_option.DeleteKey, registry_option.DeleteValue, registry_option.NoError,
              registry_option.DontCreateKey]
          else [])
        ++ (if version.value ≥ INNO_VERSION 5 1 0 then
            [registry_option.Bits32, registry_option.Bits64]
          else [])))
    ∧ exec ext version (step.flag_reader_assign (registry_flag_actions version)) r
        (mask ++ rest)
      = some (⟨r.field, decode_flags (registered (registry_flag_actions version)) 0 mask⟩,
          rest)
    ∧ (∀ o, o ∈ decode_flags (registered (registry_flag_actions version)) 0 mask
        ↔ ∃ i, i < (registered (registry_flag_actions version)).length
          ∧ (registered (registry_flag_actions version)).get? i = some o
          ∧ test_bit mask i = true)
    ∧ holds_after (RegistryEntry.load ext self is version)
        (fun r1 => ∃ m, m.length = mask_bytes (registered (registry_flag_actions version)).length
          ∧ r1.options = decode_flags (registered (registry_flag_actions version)) 0 m)
    ∧ decode_flags (registered (registry_flag_actions version)) 0
        (5 :: List.replicate
          (mask_bytes (registered (registry_flag_actions version)).length - 1) 0)
      = (if version.bits ≠ 16 then
          [registry_option.CreateValueIfDoesntExist, registry_option.UninsClearValue]
        else [registry_option.UninsClearValue, registry_option.UninsDeleteEntireKeyIfEmpty])
    ∧ decode_flags (registered (registry_flag_actions version)) 0
        (List.replicate (mask_bytes (registered (registry_flag_actions version)).length) 0)
      = [] := by
  have hread := read_append_of_length mask rest _ hm
  refine ⟨registry_steps_set_options version, registry_registered version, ?_, ?_, ?_, ?_, ?_⟩
  · simp only [exec, hread]
  · intro o
    rw [decode_flags_mem]
    simp only [Nat.zero_add]
  · intro r1 is1 h
    unfold RegistryEntry.load at h
    obtain ⟨ra, rb, isa, isb, others, -, hexec, hothers, hrest⟩ :=
      run_split_of_filter_cons ext version _ _ _ self r1 is is1
        (registry_steps_set_options version) h
    obtain ⟨m, hlen, -, ho⟩ := exec_flag_reader_assign ext version _ ra rb isa isb hexec
    exact ⟨m, hlen, by
      rw [run_options_of_filter_nil ext version others rb r1 isb is1 hothers hrest, ho]⟩
  · rw [registry_registered]
    split_ifs <;> decide
  · exact decode_flags_zero _ (fun b hb => List.eq_of_mem_replicate hb) _ 0

/-- C24 on a 32-bit entry of version 5.5.0 whose mask is `5, 0`: the call
returns the options at positions 0 and 2 of the list. -/
theorem registry_options_decoded_witness :
    (RegistryEntry.load (fun _ _ is => some (value.str [], is)) ⟨fun _ => value.str [], []⟩
        (List.replicate 19 0 ++ [5, 0]) ⟨INNO_VERSION 5 5 0, 32, false, true⟩).map
        (fun p => (p.1.options, p.2))
      = some ([registry_option.CreateValueIfDoesntExist, registry_option.UninsClearValue], [])
    ∧ exec (fun _ _ is => some (value.str [], is)) ⟨INNO_VERSION 5 5 0, 32, false, true⟩
        (step.flag_reader_assign
          (registry_flag_actions ⟨INNO_VERSION 5 5 0, 32, false, true⟩))
        (⟨fun _ => value.str [], []⟩ : RegistryEntry) ([5, 0] ++ [9])
      = some (⟨fun _ => value.str [],
          decode_flags (registered
            (registry_flag_actions ⟨INNO_VERSION 5 5 0, 32, false, true⟩)) 0 [5, 0]⟩, [9]) :=
  ⟨by decide!,
    (registry_options_decoded (fun _ _ is => some (value.str [], is))
      ⟨fun _ => value.str [], []⟩ ⟨fun _ => value.str [], []⟩ [] [5, 0] [9]
      ⟨INNO_VERSION 5 5 0, 32, false, true⟩ (by decide)).2.2.1⟩

/-! ## Claims on the stored enums and on the hive -/

/-- The member that a sequence assigns by one statement satisfies what this
statement ensures. -/
theorem run_field_of_single_prop {F O : Type} [DecidableEq F] [DecidableEq O]
    (ext : externals) (v : version) (f : F) (s : step F O) (P : value → Prop)
    (hs : ∀ (r r1 : record F O) (is is1 : List Nat),
      exec ext v s r is = some (r1, is1) → P (r1.field f))
    (steps : List (step F O)) (r r1 : record F O) (is is1 : List Nat)
    (hf : steps.filter (fun s => decide (s.target = some f)) = [s])
    (h : run ext v steps r is = some (r1, is1)) : P (r1.field f) := by
  obtain ⟨l1, l2, hl, -, -, hl2⟩ := List.filter_eq_cons_iff.mp hf
  rw [hl, run_append] at h
  cases h1 : run ext v l1 r is with
  | none => simp [h1] at h
  | some p =>
    simp only [h1, run] at h
    cases h2 : exec ext v s p.1 p.2 with
    | none => simp [h2] at h
    | some q =>
      simp only [h2] at h
      have hq := hs p.1 q.1 p.2 q.2 h2
      rw [run_field_of_no_target ext v f l2 q.1 r1 q.2 is1 hl2 h]
      exact hq

/-- A stored enum assigns the constant of its table for some ordinal, or the
default. -/
theorem exec_load_enum_field {F O : Type} [DecidableEq F] [DecidableEq O] (ext : externals)
    (v : version) (f : F) (map : enum_map) (r r1 : record F O) (is is1 : List Nat)
    (h : exec ext v (step.load_enum f map) r is = some (r1, is1)) :
    ∃ n, r1.field f = value.sym (map.values.getD n map.default) := by
  simp only [exec] at h
  cases hr : read 1 is with
  | none => simp [hr] at h
  | some p =>
    simp only [hr, Option.some.injEq, Prod.mk.injEq] at h
    exact ⟨little_endian p.1, by rw [← h.1]; exact assign_field_same r f _⟩

/-- A stored enum on a stream that starts with the byte `n` assigns the
constant for the ordinal `n`. -/
theorem exec_load_enum_byte {F O : Type} [DecidableEq F] [DecidableEq O] (ext : externals)
    (v : version) (f : F) (map : enum_map) (r : record F O) (n : Nat) (rest : List Nat) :
    exec ext v (step.load_enum f map) r (n :: rest)
      = some (r.assign f (value.sym (map.values.getD n map.default)), rest) := by
  have hread : read 1 (n :: rest) = some ([n], rest) := read_append_of_length [n] rest 1 rfl
  simp only [exec, hread, little_endian, Nat.mul_zero, Nat.add_zero]

/-- The table that `header::load` takes for the compression agrees with the
table of the specification. -/
theorem compression_table_eq (version : version) (n : Nat) :
    (if version.value ≥ INNO_VERSION 5 3 9 then stored_compression_method_3
      else if version.value ≥ INNO_VERSION 4 2 6 then stored_compression_method_2
      else if version.value ≥ INNO_VERSION 4 2 5 then stored_compression_method_1
      else stored_compression_method_0).values.getD n
      (if version.value ≥ INNO_VERSION 5 3 9 then stored_compression_method_3
      else if version.value ≥ INNO_VERSION 4 2 6 then stored_compression_method_2
      else if version.value ≥ INNO_VERSION 4 2 5 then stored_compression_method_1
      else stored_compression_method_0).default
      = claimed_compression version n := by
  unfold claimed_compression
  simp only [inno_4_2_5, inno_4_2_6, inno_5_3_9]
  split_ifs <;> first
    | omega
    | (rcases n with _ | _ | _ | _ | _ | k <;> rfl)

/-- The table that `RegistryEntry::load` takes for the type agrees with the
table of the specification. -/
theorem registry_type_table_eq (version : version) (n : Nat) :
    (if version.value ≥ INNO_VERSION 5 2 5 then StoredRegistryEntryType2
      else if version.bits ≠ 16 then StoredRegistryEntryType1
      else StoredRegistryEntryType0).values.getD n
      (if version.value ≥ INNO_VERSION 5 2 5 then StoredRegistryEntryType2
      else if version.bits ≠ 16 then StoredRegistryEntryType1
      else StoredRegistryEntryType0).default
      = claimed_registry_type version n := by
  unfold claimed_registry_type
  split_ifs <;> (rcases n with _ | _ | _ | _ | _ | _ | _ | k <;> rfl)

/-- The statement of `header::load` that reads the compression, for a
version of at least 4.1.5. -/
theorem header_compression_step (version : version)
    (hv : version.value ≥ INNO_VERSION 4 1 5) :
    (header_steps version).filter
        (fun s => decide (s.target = some header_field.compression))
      = [step.load_enum header_field.compression
          (if version.value ≥ INNO_VERSION 5 3 9 then stored_compression_method_3
            else if version.value ≥ INNO_VERSION 4 2 6 then stored_compression_method_2
            else if version.value ≥ INNO_VERSION 4 2 5 then stored_compression_method_1
            else stored_compression_method_0)] := by
  rw [inno_4_1_5] at hv
  simp only [header_steps, header_field_steps, header_steps_129_166, header_steps_167_195,
    header_steps_196_239, header_steps_241_293, header_steps_295_332, header_steps_334_365,
    header_steps_367_386, header_steps_388_414, password_steps, header_extra_byte,
    header_derived_steps, List.flatten_cons, List.flatten_nil, List.filter_append,
    apply_ite (List.filter _), List.filter_cons, List.filter_nil, step.target, List.append_nil,
    List.nil_append, Option.some.injEq, reduceCtorEq, decide_False, decide_True, if_true,
    if_false, ite_self, Bool.false_eq_true, inno_1_3_21, inno_2_0_0, inno_2_0_1, inno_2_0_6,
    inno_2_0_7, inno_2_0_17, inno_2_0_18, inno_3_0_0, inno_3_0_1, inno_3_0_3, inno_3_0_4,
    inno_3_0_6_1, inno_4_0_0, inno_4_0_1, inno_4_0_9, inno_4_0_10, inno_4_0_11, inno_4_1_0,
    inno_4_1_2, inno_4_1_3, inno_4_1_5, inno_4_1_8, inno_4_2_0, inno_4_2_1, inno_4_2_2,
    inno_4_2_4, inno_4_2_5, inno_4_2_6, inno_5_0_0, inno_5_0_4, inno_5_1_0, inno_5_1_7,
    inno_5_1_13, inno_5_2_1, inno_5_2_5, inno_5_3_3, inno_5_3_6, inno_5_3_7, inno_5_3_8,
    inno_5_3_9, inno_5_3_10, inno_5_5_0, inno_5_5_0_1, inno_5_5_6, ge_iff_le]
  split_ifs <;> first | rfl | omega

/-- The statement of `RegistryEntry::load` that reads the type. -/
theorem registry_type_step (version : version) :
    (registry_steps version).filter
        (fun s => decide (s.target = some registry_field.type))
      = [step.load_enum registry_field.type
          (if version.value ≥ INNO_VERSION 5 2 5 then StoredRegistryEntryType2
            else if version.bits ≠ 16 then StoredRegistryEntryType1
            else StoredRegistryEntryType0)] := by
  simp only [registry_steps, List.flatten_cons, List.flatten_nil, List.filter_append,
    apply_ite (List.filter _), List.filter_cons, List.filter_nil, step.target, List.append_nil,
    List.nil_append, Option.some.injEq, reduceCtorEq, decide_False, decide_True, if_true,
    if_false, ite_self, Bool.false_eq_true, ge_iff_le]
  split_ifs <;> rfl

/-- The statement of `RegistryEntry::load` that assigns the hive. -/
theorem registry_hive_step (version : version) :
    (registry_steps version).filter
        (fun s => decide (s.target = some registry_field.hive))
      = (if version.bits ≠ 16 then [step.load_hive registry_field.hive]
          else [step.assign registry_field.hive (value.sym symbol.Unset)]) := by
  simp only [registry_steps, List.flatten_cons, List.flatten_nil, List.filter_append,
    apply_ite (List.filter _), List.filter_cons, List.filter_nil, step.target, List.append_nil,
    List.nil_append, Option.some.injEq, reduceCtorEq, decide_False, decide_True, if_true,
    if_false, ite_self, Bool.false_eq_true, ge_iff_le]

/-- C21: for a version of at least 4.1.5 the one statement of `header::load`
on `compression` is a stored enum over the table of the version; on a stream
that starts with the byte `n` it returns, consumes this byte and assigns the
compression of the specification for the ordinal `n`, `UnknownCompression`
for an ordinal beyond the table; a returned header holds such a value. -/
theorem compression_decoded_by_table (ext : externals) (self r : header)
    (is rest : List Nat) (n : Nat) (version : version)
    (hv : version.value ≥ INNO_VERSION 4 1 5) :
    (header_steps version).filter
        (fun s => decide (s.target = some header_field.compression))
      = [step.load_enum header_field.compression
          (if version.value ≥ INNO_VERSION 5 3 9 then stored_compression_method_3
            else if version.value ≥ INNO_VERSION 4 2 6 then stored_compression_method_2
            else if version.value ≥ INNO_VERSION 4 2 5 then stored_compression_method_1
            else stored_compression_method_0)]
    ∧ exec ext version
        (step.load_enum header_field.compression
          (if version.value ≥ INNO_VERSION 5 3 9 then stored_compression_method_3
            else if version.value ≥ INNO_VERSION 4 2 6 then stored_compression_method_2
            else if version.value ≥ INNO_VERSION 4 2 5 then stored_compression_method_1
            else stored_compression_method_0)) r (n :: rest)
      = some (r.assign header_field.compression
          (value.sym (claimed_compression version n)), rest)
    ∧ holds_after (header.load ext self is version)
        (fun r1 => ∃ k, r1.field header_field.compression
          = value.sym (claimed_compression version k)) := by
  refine ⟨header_compression_step version hv, ?_, ?_⟩
  · rw [exec_load_enum_byte, compression_table_eq]
  · intro r1 is1 h
    unfold header.load at h
    refine run_field_of_single_prop ext version header_field.compression _
      (fun x => ∃ k, x = value.sym (claimed_compression version k)) ?_ _ self r1 is is1
      (header_compression_step version hv) h
    intro ra rb isa isb he
    obtain ⟨k, hk⟩ := exec_load_enum_field ext version _ _ ra rb isa isb he
    exact ⟨k, by rw [hk, compression_table_eq]⟩

/-- C21 at 5.2.3, whose table has four entries: ordinal 3 is LZMA1 and
ordinal 4 is beyond the table. -/
theorem compression_decoded_by_table_witness :
    claimed_compression ⟨INNO_VERSION 5 2 3, 32, false, true⟩ 3 = symbol.LZMA1
    ∧ claimed_compression ⟨INNO_VERSION 5 2 3, 32, false, true⟩ 4
      = symbol.UnknownCompression
    ∧ exec (fun _ _ is => some (value.str [], is)) ⟨INNO_VERSION 5 2 3, 32, false, true⟩
        (step.load_enum header_field.compression
          (if (⟨INNO_VERSION 5 2 3, 32, false, true⟩ : setup.version).value
              ≥ INNO_VERSION 5 3 9 then stored_compression_method_3
            else if (⟨INNO_VERSION 5 2 3, 32, false, true⟩ : setup.version).value
              ≥ INNO_VERSION 4 2 6 then stored_compression_method_2
            else if (⟨INNO_VERSION 5 2 3, 32, false, true⟩ : setup.version).value
              ≥ INNO_VERSION 4 2 5 then stored_compression_method_1
            else stored_compression_method_0))
        (⟨fun _ => value.str [], []⟩ : header) (4 :: [7])
      = some (record.assign (⟨fun _ => value.str [], []⟩ : header) header_field.compression
          (value.sym (claimed_compression ⟨INNO_VERSION 5 2 3, 32, false, true⟩ 4)), [7]) :=
  ⟨by decide, by decide,
    (compression_decoded_by_table (fun _ _ is => some (value.str [], is))
      ⟨fun _ => value.str [], []⟩ ⟨fun _ => value.str [], []⟩ [] [7] 4
      ⟨INNO_VERSION 5 2 3, 32, false, true⟩ (by decide)).2.1⟩

/-- C22: the one statement of `RegistryEntry::load` on `type` is a stored
enum over the table of the version; on a stream that starts with the byte `n`
it returns, consumes this byte and assigns the type of the specification for
the ordinal `n`, `None` for an ordinal beyond the table; a returned entry
holds such a value; ordinal 6 gives `QWord` exactly from 5.2.5 on. -/
theorem registry_type_decoded (ext : externals) (self r : RegistryEntry)
    (is rest : List Nat) (n : Nat) (version : version) :
    (registry_steps version).filter
        (fun s => decide (s.target = some registry_field.type))
      = [step.load_enum registry_field.type
          (if version.value ≥ INNO_VERSION 5 2 5 then StoredRegistryEntryType2
            else if version.bits ≠ 16 then StoredRegistryEntryType1
            else StoredRegistryEntryType0)]
    ∧ exec ext version
        (step.load_enum registry_field.type
          (if version.value ≥ INNO_VERSION 5 2 5 then StoredRegistryEntryType2
            else if version.bits ≠ 16 then StoredRegistryEntryType1
            else StoredRegistryEntryType0)) r (n :: rest)
      = some (r.assign registry_field.type
          (value.sym (claimed_registry_type version n)), rest)
    ∧ holds_after (RegistryEntry.load ext self is version)
        (fun r1 => ∃ k, r1.field registry_field.type
          = value.sym (claimed_registry_type version k))
    ∧ (claimed_registry_type version 6 = symbol.QWord
        ↔ version.value ≥ INNO_VERSION 5 2 5) := by
  refine ⟨registry_type_step version, ?_, ?_, ?_⟩
  · rw [exec_load_enum_byte, registry_type_table_eq]
  · intro r1 is1 h
    unfold RegistryEntry.load at h
    refine run_field_of_single_prop ext version registry_field.type _
      (fun x => ∃ k, x = value.sym (claimed_registry_type version k)) ?_ _ self r1 is is1
      (registry_type_step version) h
    intro ra rb isa isb he
    obtain ⟨k, hk⟩ := exec_load_enum_field ext version _ _ ra rb isa isb he
    exact ⟨k, by rw [hk, registry_type_table_eq]⟩
  · unfold claimed_registry_type
    split_ifs with h1 h2
    · exact ⟨fun _ => h1, fun _ => rfl⟩
    · exact ⟨fun h => by simp at h, fun h => absurd h h1⟩
    · exact ⟨fun h => by simp at h, fun h => absurd h h1⟩

/-- The cast `Hive(n)` gives one of the eight hives exactly for `n` below
eight. -/
theorem Hive_defined_iff (n : Nat) :
    Hive n ∈ [value.sym symbol.HKCR, value.sym symbol.HKCU, value.sym symbol.HKLM,
        value.sym symbol.HKU, value.sym symbol.HKPD, value.sym symbol.HKCC,
        value.sym symbol.HKDD, value.sym symbol.Unset]
      ↔ n < 8 := by
  rcases n with _ | _ | _ | _ | _ | _ | _ | _ | k
  all_goals first
    | exact ⟨fun _ => by omega, fun _ => by decide⟩
    | exact ⟨fun h => by simp [Hive] at h, fun h => by omega⟩

/-- C23 (what the code does): when `bits != 16` the one statement of
`RegistryEntry::load` on `hive` casts the stored number, with its top bit
dropped, to the enumeration without a range check; the result is one of the
eight hives exactly when this number is below eight, and for the stored
number 8 it is none of them. -/
theorem registry_hive_unchecked (ext : externals) (r : RegistryEntry) (b rest : List Nat)
    (version : version) (hbits : version.bits ≠ 16) (hb : b.length = 4) :
    (registry_steps version).filter
        (fun s => decide (s.target = some registry_field.hive))
      = [step.load_hive registry_field.hive]
    ∧ exec ext version (step.load_hive registry_field.hive) r (b ++ rest)
      = some (r.assign registry_field.hive (Hive (little_endian b % 2 ^ 31)), rest)
    ∧ (Hive (little_endian b % 2 ^ 31)
          ∈ [value.sym symbol.HKCR, value.sym symbol.HKCU, value.sym symbol.HKLM,
            value.sym symbol.HKU, value.sym symbol.HKPD, value.sym symbol.HKCC,
            value.sym symbol.HKDD, value.sym symbol.Unset]
        ↔ little_endian b % 2 ^ 31 < 8)
    ∧ Hive (little_endian [8, 0, 0, 0] % 2 ^ 31)
        ∉ [value.sym symbol.HKCR, value.sym symbol.HKCU, value.sym symbol.HKLM,
          value.sym symbol.HKU, value.sym symbol.HKPD, value.sym symbol.HKCC,
          value.sym symbol.HKDD, value.sym symbol.Unset] := by
  have hread := read_append_of_length b rest 4 hb
  refine ⟨by rw [registry_hive_step, if_pos hbits], ?_, Hive_defined_iff _, ?_⟩
  · simp only [exec, hread]
  · rw [Hive_defined_iff]
    decide

/-- C23 at the failing input: a 32-bit entry of version 5.5.0 whose stored
hive is 8. The call returns, and the hive it holds is the bare number 8, none
of the eight hives. -/
theorem registry_hive_unchecked_witness :
    (RegistryEntry.load (fun _ _ is => some (value.str [], is)) ⟨fun _ => value.str [], []⟩
        (List.replicate 12 0 ++ [8, 0, 0, 0] ++ List.replicate 5 0)
        ⟨INNO_VERSION 5 5 0, 32, false, true⟩).map
        (fun p => (p.1.field registry_field.hive, p.2))
      = some (value.num 8, [])
    ∧ Hive (little_endian [8, 0, 0, 0] % 2 ^ 31)
        ∉ [value.sym symbol.HKCR, value.sym symbol.HKCU, value.sym symbol.HKLM,
          value.sym symbol.HKU, value.sym symbol.HKPD, value.sym symbol.HKCC,
          value.sym symbol.HKDD, value.sym symbol.Unset] :=
  ⟨by decide!,
    (registry_hive_unchecked (fun _ _ is => some (value.str [], is))
      ⟨fun _ => value.str [], []⟩ [8, 0, 0, 0] []
      ⟨INNO_VERSION 5 5 0, 32, false, true⟩ (by decide) rfl).2.2.2⟩

/-! ## Claims on the relocated members of `header::load` -/

/-- The statements of `header::load` before the flag reader on the three
texts and on the members next to the two places where they are read. -/
theorem header_license_steps (v : version) :
    (header_field_steps v ++ header_extra_byte v).filter
        (fun s => decide (s.target = some header_field.license_text
          ∨ s.target = some header_field.info_before
          ∨ s.target = some header_field.info_after
          ∨ s.target = some header_field.uninstall_files_dir
          ∨ s.target = some header_field.close_applications_filter))
      = (if v.value < INNO_VERSION 1 3 21 then
          [step.clear header_field.license_text,
           step.clear header_field.info_before,
           step.clear header_field.info_after,
           step.clear header_field.uninstall_files_dir,
           step.clear header_field.close_applications_filter]
        else if v.value < INNO_VERSION 5 2 5 then
          [step.load_string string_kind.ansi header_field.license_text,
           step.load_string string_kind.ansi header_field.info_before,
           step.load_string string_kind.ansi header_field.info_after,
           step.load_string string_kind.encoded header_field.uninstall_files_dir,
           step.clear header_field.close_applications_filter]
        else if v.value < INNO_VERSION 5 5 0 then
          [step.load_string string_kind.encoded header_field.uninstall_files_dir,
           step.clear header_field.close_applications_filter,
           step.load_string string_kind.ansi header_field.license_text,
           step.load_string string_kind.ansi header_field.info_before,
           step.load_string string_kind.ansi header_field.info_after]
        else
          [step.load_string string_kind.encoded header_field.uninstall_files_dir,
           step.load_string string_kind.encoded header_field.close_applications_filter,
           step.load_string string_kind.ansi header_field.license_text,
           step.load_string string_kind.ansi header_field.info_before,
           step.load_string string_kind.ansi header_field.info_after]) := by
  simp only [header_steps, header_field_steps, header_steps_129_166, header_steps_167_195,
    header_steps_196_239, header_steps_241_293, header_steps_295_332, header_steps_334_365,
    header_steps_367_386, header_steps_388_414, password_steps, header_extra_byte,
    header_derived_steps, List.flatten_cons, List.flatten_nil, List.filter_append,
    apply_ite (List.filter _), List.filter_cons, List.filter_nil, step.target, List.append_nil,
    List.nil_append, Option.some.injEq, reduceCtorEq, decide_False, decide_True, if_true,
    if_false, ite_self, Bool.false_eq_true, or_false, false_or, or_self, or_true, true_or,
    inno_1_3_21, inno_2_0_0, inno_2_0_1, inno_2_0_6, inno_2_0_7, inno_2_0_17, inno_2_0_18,
    inno_3_0_0, inno_3_0_1, inno_3_0_3, inno_3_0_4, inno_3_0_6_1, inno_4_0_0, inno_4_0_1,
    inno_4_0_9, inno_4_0_10, inno_4_0_11, inno_4_1_0, inno_4_1_2, inno_4_1_3, inno_4_1_5,
    inno_4_1_8, inno_4_2_0, inno_4_2_1, inno_4_2_2, inno_4_2_4, inno_4_2_5, inno_4_2_6,
    inno_5_0_0, inno_5_0_4, inno_5_1_0, inno_5_1_7, inno_5_1_13, inno_5_2_1, inno_5_2_5,
    inno_5_3_3, inno_5_3_6, inno_5_3_7, inno_5_3_8, inno_5_3_9, inno_5_3_10, inno_5_5_0,
    inno_5_5_0_1, inno_5_5_6, ge_iff_le]
  split_ifs <;> first | rfl | omega

/-- The statements of `header::load` after the flag reader on the three
texts. -/
theorem header_license_tail_steps (v : version) :
    (header_derived_steps v).filter
        (fun s => decide (s.target = some header_field.license_text
          ∨ s.target = some header_field.info_before
          ∨ s.target = some header_field.info_after
          ∨ s.target = some header_field.uninstall_files_dir
          ∨ s.target = some header_field.close_applications_filter))
      = (if v.value < INNO_VERSION 1 3 21 then
          [step.tail_text header_field.license_text header_field.license_size,
           step.tail_text header_field.info_before header_field.info_before_size,
           step.tail_text header_field.info_after header_field.info_after_size]
        else []) := by
  simp only [header_steps, header_field_steps, header_steps_129_166, header_steps_167_195,
    header_steps_196_239, header_steps_241_293, header_steps_295_332, header_steps_334_365,
    header_steps_367_386, header_steps_388_414, password_steps, header_extra_byte,
    header_derived_steps, List.flatten_cons, List.flatten_nil, List.filter_append,
    apply_ite (List.filter _), List.filter_cons, List.filter_nil, step.target, List.append_nil,
    List.nil_append, Option.some.injEq, reduceCtorEq, decide_False, decide_True, if_true,
    if_false, ite_self, Bool.false_eq_true, or_false, false_or, or_self, or_true, true_or,
    inno_1_3_21, inno_2_0_0, inno_2_0_1, inno_2_0_6, inno_2_0_7, inno_2_0_17, inno_2_0_18,
    inno_3_0_0, inno_3_0_1, inno_3_0_3, inno_3_0_4, inno_3_0_6_1, inno_4_0_0, inno_4_0_1,
    inno_4_0_9, inno_4_0_10, inno_4_0_11, inno_4_1_0, inno_4_1_2, inno_4_1_3, inno_4_1_5,
    inno_4_1_8, inno_4_2_0, inno_4_2_1, inno_4_2_2, inno_4_2_4, inno_4_2_5, inno_4_2_6,
    inno_5_0_0, inno_5_0_4, inno_5_1_0, inno_5_1_7, inno_5_1_13, inno_5_2_1, inno_5_2_5,
    inno_5_3_3, inno_5_3_6, inno_5_3_7, inno_5_3_8, inno_5_3_9, inno_5_3_10, inno_5_5_0,
    inno_5_5_0_1, inno_5_5_6, ge_iff_le]

/-- The statements of `header::load` on `default_serial`, `compiled_code`
and `uninstaller_signature`, in order. -/
theorem header_compiled_code_steps (v : version) :
    (header_steps v).filter
        (fun s => decide (s.target = some header_field.default_serial
          ∨ s.target = some header_field.compiled_code
          ∨ s.target = some header_field.uninstaller_signature))
      = (if v.value < INNO_VERSION_EXT 3 0 6 1 then
          [step.clear header_field.default_serial,
           step.clear header_field.compiled_code,
           step.clear header_field.uninstaller_signature]
        else if v.value < INNO_VERSION 5 2 1 then
          [step.load_string string_kind.encoded header_field.default_serial,
           step.load_string string_kind.binary header_field.compiled_code,
           step.clear header_field.uninstaller_signature]
        else if v.value < INNO_VERSION 5 2 5 then
          [step.load_string string_kind.encoded header_field.default_serial,
           step.load_string string_kind.binary header_field.compiled_code,
           step.load_string string_kind.binary header_field.uninstaller_signature]
        else if v.value < INNO_VERSION 5 3 10 then
          [step.load_string string_kind.encoded header_field.default_serial,
           step.load_string string_kind.binary header_field.uninstaller_signature,
           step.load_string string_kind.binary header_field.compiled_code]
        else
          [step.load_string string_kind.encoded header_field.default_serial,
           step.clear header_field.uninstaller_signature,
           step.load_string string_kind.binary header_field.compiled_code]) := by
  simp only [header_steps, header_field_steps, header_steps_129_166, header_steps_167_195,
    header_steps_196_239, header_steps_241_293, header_steps_295_332, header_steps_334_365,
    header_steps_367_386, header_steps_388_414, password_steps, header_extra_byte,
    header_derived_steps, List.flatten_cons, List.flatten_nil, List.filter_append,
    apply_ite (List.filter _), List.filter_cons, List.filter_nil, step.target, List.append_nil,
    List.nil_append, Option.some.injEq, reduceCtorEq, decide_False, decide_True, if_true,
    if_false, ite_self, Bool.false_eq_true, or_false, false_or, or_self, or_true, true_or,
    inno_1_3_21, inno_2_0_0, inno_2_0_1, inno_2_0_6, inno_2_0_7, inno_2_0_17, inno_2_0_18,
    inno_3_0_0, inno_3_0_1, inno_3_0_3, inno_3_0_4, inno_3_0_6_1, inno_4_0_0, inno_4_0_1,
    inno_4_0_9, inno_4_0_10, inno_4_0_11, inno_4_1_0, inno_4_1_2, inno_4_1_3, inno_4_1_5,
    inno_4_1_8, inno_4_2_0, inno_4_2_1, inno_4_2_2, inno_4_2_4, inno_4_2_5, inno_4_2_6,
    inno_5_0_0, inno_5_0_4, inno_5_1_0, inno_5_1_7, inno_5_1_13, inno_5_2_1, inno_5_2_5,
    inno_5_3_3, inno_5_3_6, inno_5_3_7, inno_5_3_8, inno_5_3_9, inno_5_3_10, inno_5_5_0,
    inno_5_5_0_1, inno_5_5_6, ge_iff_le]
  split_ifs <;> first | rfl | omega

/-- From 3.0.6.1 and before 5.2.5 the read of `compiled_code` follows the
read of `default_serial` at once. -/
theorem header_compiled_code_adjacent (v : version)
    (hv : v.value ≥ INNO_VERSION_EXT 3 0 6 1 ∧ v.value < INNO_VERSION 5 2 5) :
    List.IsInfix
      [step.load_string string_kind.encoded header_field.default_serial,
       step.load_string string_kind.binary header_field.compiled_code]
      (header_steps v) := by
  have hchunk : List.IsSuffix
      [step.load_string string_kind.encoded header_field.default_serial,
       step.load_string string_kind.binary header_field.compiled_code]
      (header_steps_167_195 v) := by
    unfold header_steps_167_195
    simp only [if_pos hv.1, if_pos hv.2, List.flatten_cons, List.flatten_nil, List.append_nil,
      List.singleton_append]
    exact (List.suffix_append _ _).trans (List.suffix_append _ _)
  obtain ⟨pre, hpre⟩ := hchunk
  refine ⟨header_steps_129_166 v ++ pre,
    List.flatten [header_steps_196_239 v, header_steps_241_293 v, header_steps_295_332 v,
      header_steps_334_365 v, header_steps_367_386 v, header_steps_388_414 v]
      ++ (header_extra_byte v
        ++ step.flag_reader (header_flag_actions v) :: header_derived_steps v), ?_⟩
  unfold header_steps header_field_steps
  rw [← hpre]
  simp only [List.flatten_cons, List.flatten_nil, List.append_assoc, List.append_nil]

/-- A text at the tail of an old record is not read when its size is not
positive. -/
theorem exec_tail_text_skip {F O : Type} [DecidableEq F] [DecidableEq O] (ext : externals)
    (v : version) (f size : F) (r : record F O) (is : List Nat) (n : Int)
    (hsize : r.field size = value.num n) (hn : n ≤ 0) :
    exec ext v (step.tail_text f size) r is = some (r, is) := by
  have h0 : ¬ (0 < n) := by omega
  simp only [exec, hsize, if_neg h0]

/-- A text at the tail of an old record is read as `size` bytes when its size
is positive. -/
theorem exec_tail_text_read {F O : Type} [DecidableEq F] [DecidableEq O] (ext : externals)
    (v : version) (f size : F) (r : record F O) (block rest : List Nat) (n : Int)
    (hsize : r.field size = value.num n) (hn : 0 < n) (hb : block.length = n.toNat) :
    exec ext v (step.tail_text f size) r (block ++ rest)
      = some (r.assign f (value.str block), rest) := by
  have hread := read_append_of_length block rest _ hb
  simp only [exec, hsize, if_pos hn, hread]

/-- C25: in `header::load` the texts `license_text`, `info_before` and
`info_after` are read by one statement each: before `uninstall_files_dir` from
1.3.21 and before 5.2.5, after `close_applications_filter` from 5.2.5 on, and
before 1.3.21 by the statements after the flag reader, which read a text only
when its size is positive (the members being cleared before). The
`compiled_code` is read at once after `default_serial` from 3.0.6.1 and before
5.2.5, after `uninstaller_signature` from 5.2.5 on, and cleared without a read
before 3.0.6.1. -/
theorem relocated_fields_read_once (ext : externals) (version : version) :
    header_steps version
      = (header_field_steps version ++ header_extra_byte version)
          ++ step.flag_reader (header_flag_actions version) :: header_derived_steps version
    ∧ (header_field_steps version ++ header_extra_byte version).filter
        (fun s => decide (s.target = some header_field.license_text
          ∨ s.target = some header_field.info_before
          ∨ s.target = some header_field.info_after
          ∨ s.target = some header_field.uninstall_files_dir
          ∨ s.target = some header_field.close_applications_filter))
      = (if version.value < INNO_VERSION 1 3 21 then
          [step.clear header_field.license_text,
           step.clear header_field.info_before,
           step.clear header_field.info_after,
           step.clear header_field.uninstall_files_dir,
           step.clear header_field.close_applications_filter]
        else if version.value < INNO_VERSION 5 2 5 then
          [step.load_string string_kind.ansi header_field.license_text,
           step.load_string string_kind.ansi header_field.info_before,
           step.load_string string_kind.ansi header_field.info_after,
           step.load_string string_kind.encoded header_field.uninstall_files_dir,
           step.clear header_field.close_applications_filter]
        else if version.value < INNO_VERSION 5 5 0 then
          [step.load_string string_kind.encoded header_field.uninstall_files_dir,
           step.clear header_field.close_applications_filter,
           step.load_string string_kind.ansi header_field.license_text,
           step.load_string string_kind.ansi header_field.info_before,
           step.load_string string_kind.ansi header_field.info_after]
        else
          [step.load_string string_kind.encoded header_field.uninstall_files_dir,
           step.load_string string_kind.encoded header_field.close_applications_filter,
           step.load_string string_kind.ansi header_field.license_text,
           step.load_string string_kind.ansi header_field.info_before,
           step.load_string string_kind.ansi header_field.info_after])
    ∧ (header_derived_steps version).filter
        (fun s => decide (s.target = some header_field.license_text
          ∨ s.target = some header_field.info_before
          ∨ s.target = some header_field.info_after
          ∨ s.target = some header_field.uninstall_files_dir
          ∨ s.target = some header_field.close_applications_filter))
      = (if version.value < INNO_VERSION 1 3 21 then
          [step.tail_text header_field.license_text header_field.license_size,
           step.tail_text header_field.info_before header_field.info_before_size,
           step.tail_text header_field.info_after header_field.info_after_size]
        else [])
    ∧ (∀ (f size : header_field) (r : header) (is : List Nat) (n : Int),
        r.field size = value.num n → n ≤ 0 →
        exec ext version (step.tail_text f size) r is = some (r, is))
    ∧ (∀ (f size : header_field) (r : header) (block rest : List Nat) (n : Int),
        r.field size = value.num n → 0 < n → block.length = n.toNat →
        exec ext version (step.tail_text f size) r (block ++ rest)
          = some (r.assign f (value.str block), rest))
    ∧ (header_steps version).filter
        (fun s => decide (s.target = some header_field.default_serial
          ∨ s.target = some header_field.compiled_code
          ∨ s.target = some header_field.uninstaller_signature))
      = (if version.value < INNO_VERSION_EXT 3 0 6 1 then
          [step.clear header_field.default_serial,
           step.clear header_field.compiled_code,
           step.clear header_field.uninstaller_signature]
        else if version.value < INNO_VERSION 5 2 1 then
          [step.load_string string_kind.encoded header_field.default_serial,
           step.load_string string_kind.binary header_field.compiled_code,
           step.clear header_field.uninstaller_signature]
        else if version.value < INNO_VERSION 5 2 5 then
          [step.load_string string_kind.encoded header_field.default_serial,
           step.load_string string_kind.binary header_field.compiled_code,
           step.load_string string_kind.binary header_field.uninstaller_signature]
        else if version.value < INNO_VERSION 5 3 10 then
          [step.load_string string_kind.encoded header_field.default_serial,
           step.load_string string_kind.binary header_field.uninstaller_signature,
           step.load_string string_kind.binary header_field.compiled_code]
        else
          [step.load_string string_kind.encoded header_field.default_serial,
           step.clear header_field.uninstaller_signature,
           step.load_string string_kind.binary header_field.compiled_code])
    ∧ (version.value ≥ INNO_VERSION_EXT 3 0 6 1 ∧ version.value < INNO_VERSION 5 2 5 →
        List.IsInfix
          [step.load_string string_kind.encoded header_field.default_serial,
           step.load_string string_kind.binary header_field.compiled_code]
          (header_steps version)) :=
  ⟨by simp only [header_steps, List.append_assoc], header_license_steps version,
    header_license_tail_steps version,
    fun f size r is n h1 h2 => exec_tail_text_skip ext version f size r is n h1 h2,
    fun f size r block rest n h1 h2 h3 =>
      exec_tail_text_read ext version f size r block rest n h1 h2 h3,
    header_compiled_code_steps version, header_compiled_code_adjacent version⟩

/-- C25 at 4.0.5: the read of `compiled_code` follows the read of
`default_serial` at once. -/
theorem relocated_fields_read_once_witness :
    List.IsInfix
      [step.load_string string_kind.encoded header_field.default_serial,
       step.load_string string_kind.binary header_field.compiled_code]
      (header_steps ⟨INNO_VERSION 4 0 5, 32, false, true⟩) :=
  (relocated_fields_read_once (fun _ _ is => some (value.str [], is))
    ⟨INNO_VERSION 4 0 5, 32, false, true⟩).2.2.2.2.2.2 (by decide)

/-! ## Claims on the texts of the catalog and on the bounds of the scan -/

/-- What the rows of `versions` are made of and what the heuristic of
`version::load` finds in their texts. -/
theorem versions_text_facts :
    ∀ e ∈ versions,
      e.name = e.text ++ List.replicate (64 - e.text.length) 0
      ∧ (∀ c ∈ e.text, c ≠ 0)
      ∧ 12 ≤ e.text.length ∧ e.text.length < 64
      ∧ e.text.getD 0 0 ≠ 105
      ∧ (find_str e.text (bytes "Inno Setup") = none
          ↔ e.name = char_array 64 "!!! BlackBox v2?, marked as 5.5.0")
      ∧ (find_str e.text (bytes "Inno Setup") ≠ none →
          scan e.text e.text.length (find_char e.text 40 0) = some e.version
          ∧ decide (find_str e.text (bytes "(u)") ≠ none) = e.unicode) := by
  decide!

/-- The text before the first NUL of a block is what `version::load` takes
for the version string. -/
theorem takeWhile_text_nul (text tail : List Nat) (h : ∀ c ∈ text, c ≠ 0) :
    (text ++ 0 :: tail).takeWhile (fun c => c != 0) = text := by
  induction text with
  | nil => simp [List.takeWhile]
  | cons c cs ih =>
    have hc : c ≠ 0 := h c (List.mem_cons_self c cs)
    have := ih (fun z hz => h z (List.mem_cons_of_mem c hz))
    have hb : (c != 0) = true := by simpa using hc
    rw [List.cons_append, List.takeWhile_cons, hb, if_pos rfl, this]

/-- A block made of the text of a row, a NUL and bytes that are not all zero
is no row of the catalog. -/
theorem row_text_with_trailing_no_row (e : known_version) (he : e ∈ versions)
    (trailing : List Nat) (hnz : ∃ b ∈ trailing, b ≠ 0) :
    ∀ x ∈ versions, x.name ≠ e.text ++ 0 :: trailing := by
  intro x hx hname
  obtain ⟨hxname, hxnz, -⟩ := versions_text_facts x hx
  obtain ⟨-, henz, -⟩ := versions_text_facts e he
  have htext : x.text = e.text := by
    unfold known_version.text
    rw [hname]
    exact takeWhile_text_nul _ _ henz
  rw [hxname, htext] at hname
  have htail := List.append_cancel_left hname
  obtain ⟨b, hb, hb0⟩ := hnz
  have hmem : b ∈ List.replicate (64 - e.text.length) 0 := by
    rw [htail]
    exact List.mem_cons_of_mem _ hb
  exact hb0 (List.eq_of_mem_replicate hmem)

/-- C29: a 64-byte block made of the text of a row of `versions`, a NUL and
bytes that are not all zero is no row of the catalog; when the text contains
`Inno Setup` the heuristic resolves it to the version value and the unicode
flag of the row, with `bits = 32` and `known = false`, and otherwise the call
throws `version_error` and leaves the descriptor as it was. The one row whose
text does not contain `Inno Setup` is `!!! BlackBox v2?, marked as 5.5.0`. -/
theorem load_row_text_with_trailing (i : Fin versions.length) (self : version)
    (trailing rest : List Nat)
    (hlen : (versions[i].text ++ 0 :: trailing).length = 64)
    (hnz : ∃ b ∈ trailing, b ≠ 0) :
    self.load ((versions[i].text ++ 0 :: trailing) ++ rest)
      = (if find_str versions[i].text (bytes "Inno Setup") = none then
          (outcome.version_error, self, rest)
        else
          (outcome.returned,
            { value := versions[i].version, bits := 32, unicode := versions[i].unicode,
              known := false },
            rest))
    ∧ (find_str versions[i].text (bytes "Inno Setup") = none
        ↔ versions[i].name = char_array 64 "!!! BlackBox v2?, marked as 5.5.0") := by
  have hmem : versions[i] ∈ versions := List.getElem_mem i.isLt
  obtain ⟨-, htnz, h12, -, hfirst, hbb, hheur⟩ := versions_text_facts versions[i] hmem
  refine ⟨?_, hbb⟩
  have hne : versions[i].text ≠ [] := by
    intro h
    rw [h] at h12
    simp at h12
  have hg0 : (versions[i].text ++ 0 :: trailing).getD 0 0 = versions[i].text.getD 0 0 := by
    cases ht : versions[i].text with
    | nil => exact absurd ht hne
    | cons c cs => rfl
  have hleg : ¬ ((versions[i].text ++ 0 :: trailing).getD 0 0 = 105
      ∧ (versions[i].text ++ 0 :: trailing).getD 11 0 = 26) := by
    rw [hg0]
    exact fun h => hfirst h.1
  rw [load_eq_modern self _ rest hlen hleg]
  have hfind := versions_find_none _
    (row_text_with_trailing_no_row versions[i] hmem trailing hnz)
  have htw := takeWhile_text_nul versions[i].text trailing htnz
  unfold load_modern
  rw [hfind]
  unfold load_heuristic
  simp only [htw]
  by_cases hmark : find_str versions[i].text (bytes "Inno Setup") = none
  · simp only [hmark, if_true]
  · obtain ⟨hscan, hu⟩ := hheur hmark
    simp only [hmark, if_false, hscan, hu]

/-- C29 on the row of 5.5.0 (u) followed by a NUL, the byte 1 and zero
bytes: the block resolves to 5.5.0 with `unicode` set and `known` not set. -/
theorem load_row_text_with_trailing_witness :
    (⟨0, 0, false, false⟩ : version).load
        ((bytes "Inno Setup Setup Data (5.5.0) (u)" ++ 0 :: 1 :: List.replicate 29 0) ++ [7])
      = (outcome.returned, ⟨INNO_VERSION 5 5 0, 32, true, false⟩, [7])
    ∧ (⟨0, 0, false, false⟩ : version).load
        (((versions[(⟨72, by decide⟩ : Fin versions.length)]).text
          ++ 0 :: 1 :: List.replicate 29 0) ++ [7])
      = (if find_str (versions[(⟨72, by decide⟩ : Fin versions.length)]).text
            (bytes "Inno Setup") = none then
          (outcome.version_error, ⟨0, 0, false, false⟩, [7])
        else
          (outcome.returned,
            { value := (versions[(⟨72, by decide⟩ : Fin versions.length)]).version,
              bits := 32,
              unicode := (versions[(⟨72, by decide⟩ : Fin versions.length)]).unicode,
              known := false },
            [7])) :=
  ⟨by decide!,
    (load_row_text_with_trailing ⟨72, by decide⟩ ⟨0, 0, false, false⟩
      (1 :: List.replicate 29 0) [7] (by decide!) ⟨1, by simp, by decide⟩).1⟩

theorem char_at_of_lt (s : List Nat) (i : Nat) (h : i < s.length) :
    char_at s i = some (s.getD i 0) := by
  unfold char_at
  rw [List.get?_eq_get h, List.getD_eq_getElem _ _ h]
  rfl

theorem checked_sub_of_le (a b : Nat) (h : b ≤ a) : checked_sub a b = some (a - b) := by
  unfold checked_sub
  rw [if_pos h]

/-- The index that `find_first_not_of` returns lies in the text, at or after
the start of the search. -/
theorem find_first_not_of_digits_bounds (s : List Nat) (pos j : Nat)
    (h : find_first_not_of_digits s pos = some j) : pos ≤ j ∧ j < s.length := by
  have hb := find_at_bounds _ _ _ _ h
  rw [List.length_drop] at hb
  omega

/-- For a `'('` inside the text no access of the loop body lies outside the
text and no subtraction underflows: the checked body does what the body
does. -/
theorem parse_group_checked_eq (s : List Nat) (bracket : Nat) (hb : bracket < s.length) :
    parse_group_checked s bracket = some (parse_group s bracket) := by
  unfold parse_group_checked parse_group
  rw [checked_sub_of_le _ _ (Nat.le_of_lt hb)]
  simp only []
  by_cases hroom : s.length - bracket < 6
  · simp only [if_pos hroom]
  simp only [if_neg hroom]
  cases hA : find_first_not_of_digits s (bracket + 1) with
  | none => rfl
  | some a_end =>
    obtain ⟨ha1, ha2⟩ := find_first_not_of_digits_bounds _ _ _ hA
    simp only [char_at_of_lt s a_end ha2, checked_sub_of_le _ _ ha1]
    by_cases hdot : s.getD a_end 0 ≠ 46
    · simp only [if_pos hdot]
    simp only [if_neg hdot]
    cases hua : to_unsigned (substr s (bracket + 1) (a_end - (bracket + 1))) with
    | none => rfl
    | some a =>
      simp only []
      cases hB : find_first_not_of_digits s (a_end + 1) with
      | none => rfl
      | some b_end =>
        obtain ⟨hb1, hb2⟩ := find_first_not_of_digits_bounds _ _ _ hB
        simp only [char_at_of_lt s b_end hb2, checked_sub_of_le _ _ hb1]
        by_cases hdot2 : s.getD b_end 0 ≠ 46
        · simp only [if_pos hdot2]
        simp only [if_neg hdot2]
        cases hub : to_unsigned (substr s (a_end + 1) (b_end - (a_end + 1))) with
        | none => rfl
        | some b =>
          simp only []
          cases hC : find_first_not_of_digits s (b_end + 1) with
          | none => rfl
          | some c_end =>
            obtain ⟨hc1, hc2⟩ := find_first_not_of_digits_bounds _ _ _ hC
            simp only [checked_sub_of_le _ _ hc1]
            cases huc : to_unsigned (substr s (b_end + 1) (c_end - (b_end + 1))) with
            | none => rfl
            | some c =>
              simp only [char_at_of_lt s c_end hc2]
              by_cases hskip : s.getD c_end 0 = 97 ∧ c_end + 1 ≥ s.length
              · simp only [if_pos hskip]
              simp only [if_neg hskip]
              have hd : (if s.getD c_end 0 = 97 then c_end + 1 else c_end) < s.length := by
                by_cases h97 : s.getD c_end 0 = 97
                · rw [if_pos h97]
                  have : ¬ (c_end + 1 ≥ s.length) := fun h => hskip ⟨h97, h⟩
                  omega
                · rw [if_neg h97]
                  exact hc2
              simp only [char_at_of_lt s _ hd]
              by_cases hdot3 : s.getD (if s.getD c_end 0 = 97 then c_end + 1 else c_end) 0 = 46
              · simp only [if_pos hdot3]
                cases hD : find_first_not_of_digits s
                    ((if s.getD c_end 0 = 97 then c_end + 1 else c_end) + 1) with
                | none => rfl
                | some d_end =>
                  obtain ⟨hd1, -⟩ := find_first_not_of_digits_bounds _ _ _ hD
                  simp only []
                  by_cases hde : d_end ≠ (if s.getD c_end 0 = 97 then c_end + 1 else c_end) + 1
                  · simp only [if_pos hde, checked_sub_of_le _ _ hd1]
                    cases to_unsigned (substr s
                        ((if s.getD c_end 0 = 97 then c_end + 1 else c_end) + 1)
                        (d_end - ((if s.getD c_end 0 = 97 then c_end + 1 else c_end) + 1))) with
                    | none => rfl
                    | some d => rfl
                  · simp only [if_neg hde]
              · simp only [if_neg hdot3]

theorem scan_checked_npos (s : List Nat) (fuel : Nat) :
    scan_checked s fuel none = scan_end.done none := by
  cases fuel <;> rfl

/-- The checked loop neither leaves the text nor runs out of fuel once the
fuel covers the characters from `bracket` on: it ends as the loop does. -/
theorem scan_checked_eq (s : List Nat) :
    ∀ (fuel bracket : Nat), bracket < s.length → s.length - bracket ≤ fuel →
      scan_checked s fuel (some bracket) = scan_end.done (scan s fuel (some bracket)) := by
  intro fuel
  induction fuel with
  | zero => intro bracket h1 h2; omega
  | succ fuel ih =>
    intro bracket h1 h2
    rw [scan_checked, scan, parse_group_checked_eq s bracket h1]
    cases parse_group s bracket with
    | some value => rfl
    | none =>
      simp only []
      cases hf : find_char s 40 (bracket + 1) with
      | none => rw [scan_checked_npos, scan_npos]
      | some j =>
        have hb := find_char_bounds s 40 (bracket + 1) j hf
        exact ih j hb.2 (by omega)

/-- C30: on the text of any block the scanning loop of `version::load`, run
with every access `version_str[...]` and every subtraction of indices
checked, never leaves the text, never underflows and never runs out of the
fuel `length`: it ends as the loop of the source does, with a value or with
`bracket == npos`; more fuel changes nothing; and the heuristic ends with a
return or with `version_error`. -/
theorem heuristic_scan_in_bounds (block : List Nat) (self : version) :
    scan_checked (block.takeWhile (fun c => c != 0))
        (block.takeWhile (fun c => c != 0)).length
        (find_char (block.takeWhile (fun c => c != 0)) 40 0)
      = scan_end.done (scan (block.takeWhile (fun c => c != 0))
          (block.takeWhile (fun c => c != 0)).length
          (find_char (block.takeWhile (fun c => c != 0)) 40 0))
    ∧ (∀ extra : Nat,
        scan (block.takeWhile (fun c => c != 0))
            ((block.takeWhile (fun c => c != 0)).length + extra)
            (find_char (block.takeWhile (fun c => c != 0)) 40 0)
          = scan (block.takeWhile (fun c => c != 0))
            (block.takeWhile (fun c => c != 0)).length
            (find_char (block.takeWhile (fun c => c != 0)) 40 0))
    ∧ (∀ bracket : Nat, bracket < (block.takeWhile (fun c => c != 0)).length →
        parse_group_checked (block.takeWhile (fun c => c != 0)) bracket
          = some (parse_group (block.takeWhile (fun c => c != 0)) bracket))
    ∧ ((load_heuristic self block).1 = outcome.returned
        ∨ (load_heuristic self block).1 = outcome.version_error) := by
  refine ⟨?_, ?_, fun bracket hb => parse_group_checked_eq _ bracket hb, ?_⟩
  · cases hf : find_char (block.takeWhile (fun c => c != 0)) 40 0 with
    | none => rw [scan_checked_npos, scan_npos]
    | some j =>
      have hb := find_char_bounds _ 40 0 j hf
      exact scan_checked_eq _ _ j hb.2 (by omega)
  · intro extra
    cases hf : find_char (block.takeWhile (fun c => c != 0)) 40 0 with
    | none => rw [scan_npos, scan_npos]
    | some j =>
      have hb := find_char_bounds _ 40 0 j hf
      exact scan_fuel _ _ j extra hb.2 (by omega)
  · unfold load_heuristic
    simp only []
    split_ifs
    · exact Or.inr rfl
    · cases scan (block.takeWhile (fun c => c != 0))
          (block.takeWhile (fun c => c != 0)).length
          (find_char (block.takeWhile (fun c => c != 0)) 40 0) with
      | none => exact Or.inr rfl
      | some v => exact Or.inl rfl

end setup
